import Mathlib

/-!
# IRI-90 electron-density profile (`iri90.c`): embedding and verified properties

The f2c-generated source keeps the resolved profile parameters in COMMON blocks
(`block1_` .. `block7_`, `blo10_`, `argexp_`) and evaluates six height segments
`xe1_` .. `xe6_`, dispatched by `xe_`.  The embedding below passes the COMMON
blocks explicitly as a record and works in exact real arithmetic: `real` values
are read as real numbers, `exp`, `log`, `sqrt`, `cosh` and `pow_dd` as the real
functions of the same name.  Rounding, infinities and NaN are outside the model.
-/

namespace Iri90

/-! The records and sum types below are generic in the type `R` of the numbers they hold;
the program is modelled with `R = ℝ` throughout.  They are used as plain data: no `SizeOf`
instance and no injectivity lemma is generated for them, except where one is used
(`Outcome`). -/

set_option genSizeOf false
set_option genSizeOfSpec false
set_option genInjectivity false

/-! ## Instance shortcuts

The algebraic and order structure of `ℝ` and `ℚ` used by the proofs below is taken from
the ring and order instances of these types directly, not from their normed-field or
star-ring structure. -/

instance instNonUnitalCommRingReal : NonUnitalCommRing ℝ := CommRing.toNonUnitalCommRing
instance instCharZeroReal : CharZero ℝ := StrictOrderedSemiring.toCharZero
instance instExistsAddOfLEReal : ExistsAddOfLE ℝ := AddGroup.existsAddOfLE ℝ
instance instZeroLEOneClassReal : ZeroLEOneClass ℝ := OrderedSemiring.zeroLEOneClass
instance instRingRat : Ring ℚ := CommRing.toRing
instance instCharZeroRat : CharZero ℚ := StrictOrderedSemiring.toCharZero

/-! ## COMMON blocks -/

/-- The COMMON blocks read by the density functions: `block1_` (hmf2, xnmf2, hmf1),
`block2_` (b0, b1, c1), `block3_` (hz, t, hst), `block4_` (hme, xnme, hef),
`block5_` (night, e[0..3]), `block6_` (hmd, xnmd, hdx), `block7_`
(d1, xkk, fp30, fp3u, fp1, fp2) and `blo10_` (beta, eta, delta, zeta). -/
structure Blocks (R : Type) where
  hmf2 : R
  xnmf2 : R
  hmf1 : R
  b0 : R
  b1 : R
  c1 : R
  hz : R
  t : R
  hst : R
  hme : R
  xnme : R
  hef : R
  night : Bool
  e0 : R
  e1 : R
  e2 : R
  e3 : R
  hmd : R
  xnmd : R
  hdx : R
  d1 : R
  xkk : R
  fp30 : R
  fp3u : R
  fp1 : R
  fp2 : R
  beta : R
  eta : R
  delta : R
  zeta : R

/-- The overflow guard `argexp_1.argmax`; the main program sets it once,
`argexp_1.argmax = 88.f`, before any density function is called. -/
def argmax : ℝ := 88

/-- The f2c library function `r_sign(a, b)`: the magnitude of `a` with the sign of `b`
(`b >= 0` counts as positive). -/
noncomputable def r_sign (a b : ℝ) : ℝ :=
  if b ≥ 0 then |a| else -|a|

/-! ## Epstein functions -/

/-- The Epstein transition `eptr_(x, sc, hx)`. -/
noncomputable def eptr_ (x sc hx : ℝ) : ℝ :=
  let d1 := (x - hx) / sc
  if |d1| < argmax then Real.log (Real.exp d1 + 1)
  else if d1 > 0 then d1 else 0

/-- The Epstein step `epst_(x, sc, hx)`. -/
noncomputable def epst_ (x sc hx : ℝ) : ℝ :=
  let d1 := (x - hx) / sc
  if |d1| < argmax then 1 / (Real.exp (-d1) + 1)
  else if d1 > 0 then 1 else 0

/-- The Epstein peak `epla_(x, sc, hx)`. -/
noncomputable def epla_ (x sc hx : ℝ) : ℝ :=
  let d1 := (x - hx) / sc
  if |d1| < argmax then
    let d0 := Real.exp d1
    let d2 := d0 + 1
    d0 / (d2 * d2)
  else 0

/-- The quotient `(x - hx) / sc` is the first statement of `eptr_`; here the division
is checked, `none` standing for a division by zero. -/
noncomputable def eptrChecked (x sc hx : ℝ) : Option ℝ :=
  if sc = 0 then none else some (eptr_ x sc hx)

/-- The function `epst_` with its opening division `(x - hx) / sc` checked. -/
noncomputable def epstChecked (x sc hx : ℝ) : Option ℝ :=
  if sc = 0 then none else some (epst_ x sc hx)

/-- The function `epla_` with its opening division `(x - hx) / sc` checked. -/
noncomputable def eplaChecked (x sc hx : ℝ) : Option ℝ :=
  if sc = 0 then none else some (epla_ x sc hx)

/-! ## The six height segments and their dispatch -/

/-- Topside segment `xe1_` (harmonized Bent model). -/
noncomputable def xe1_ (s : Blocks ℝ) (h : ℝ) : ℝ :=
  let dxdh := (1000 - s.hmf2) / 700
  let x0 := 300 - s.delta
  let xmx0 := (h - s.hmf2) / dxdh
  let x := xmx0 + x0
  let eptr1 := eptr_ x s.beta 394.5 - eptr_ x0 s.beta 394.5
  let eptr2 := eptr_ x 100 300 - eptr_ x0 100 300
  let y := s.beta * s.eta * eptr1 + s.zeta * (eptr2 * 100 - xmx0)
  let y := y * dxdh
  let y := if argmax < |y| then r_sign argmax y else y
  s.xnmf2 * Real.exp (-y)

/-- Logarithmic derivative `dxe1n_` of the topside segment. -/
noncomputable def dxe1n_ (s : Blocks ℝ) (h : ℝ) : ℝ :=
  let x0 := 300 - s.delta
  let x := (h - s.hmf2) / (1000 - s.hmf2) * 700 + x0
  let epst2 := epst_ x 100 300
  let epst1 := epst_ x s.beta 394.5
  let ret_val := -s.eta * epst1 + s.zeta * (1 - epst2)
  ret_val

/-- F2 bottomside segment `xe2_`. -/
noncomputable def xe2_ (s : Blocks ℝ) (h : ℝ) : ℝ :=
  let x := (s.hmf2 - h) / s.b0
  let z := x ^ s.b1
  let z := if z > argmax then argmax else z
  s.xnmf2 * Real.exp (-z) / Real.cosh x

/-- F1-layer segment `xe3_`. -/
noncomputable def xe3_ (s : Blocks ℝ) (h : ℝ) : ℝ :=
  xe2_ s h + s.xnmf2 * s.c1 * Real.sqrt (|s.hmf1 - h| / s.b0)

/-- Intermediate segment `xe4_`: the root-based form when `hst >= 0`, the linear
form (label `L100`) when `hst < 0`. -/
noncomputable def xe4_ (s : Blocks ℝ) (h : ℝ) : ℝ :=
  if s.hst < 0 then s.xnme + s.t * (h - s.hef)
  else xe3_ s (s.hz + s.t / 2 - r_sign 1 s.t * Real.sqrt (s.t * (s.hz - h + s.t / 4)))

/-- E and valley segment `xe5_`: day form `xnme*(1+t1)`, night form `xnme*exp(t1)`. -/
noncomputable def xe5_ (s : Blocks ℝ) (h : ℝ) : ℝ :=
  let t3 := h - s.hme
  let t1 := t3 * t3 * (s.e0 + t3 * (s.e1 + t3 * (s.e2 + t3 * s.e3)))
  if s.night then s.xnme * Real.exp t1 else s.xnme * (t1 + 1)

/-- D-region segment `xe6_`. -/
noncomputable def xe6_ (s : Blocks ℝ) (h : ℝ) : ℝ :=
  if h > s.hdx then
    let z := s.hme - h
    s.xnme * Real.exp (-s.d1 * z ^ s.xkk)
  else
    let z := h - s.hmd
    let fp3 := if z > 0 then s.fp30 else s.fp3u
    s.xnmd * Real.exp (z * (s.fp1 + z * (s.fp2 + z * fp3)))

/-- The dispatcher `xe_`: the chain of tests `h < hmf2`, `h < hmf1`, `h < hz`,
`h < hef`, `h < hme`, each falling through to the next label. -/
noncomputable def xe_ (s : Blocks ℝ) (h : ℝ) : ℝ :=
  if h < s.hmf2 then
    if h < s.hmf1 then
      if h < s.hz then
        if h < s.hef then
          if h < s.hme then xe6_ s h
          else xe5_ s h
        else xe4_ s h
      else xe3_ s h
    else xe2_ s h
  else xe1_ s h

/-! ## Valley shape fitter -/

/-- What `tal_` hands back: the in/out argument `sdelta` (replaced by its negative
on the logarithmic branch), the flag `aus6` and the coefficients `spt(1..4)`. -/
structure TalResult (R : Type) where
  sdelta : R
  aus6 : Bool
  spt1 : R
  spt2 : R
  spt3 : R
  spt4 : R

/-- The extremum test at the end of `tal_` (from `*aus6 = FALSE_` on): the roots
`-b/2 ± sqrt(b*b/4 - c)` of the quadratic factor are compared with `(0, shbr)`. -/
noncomputable def tal_aus6 (shabr shbr spt1 spt3 spt4 : ℝ) : Bool :=
  let b := spt3 * 4 / (spt4 * 5) + shabr
  let c := spt1 * (-2) / (spt4 * 5 * shabr)
  let z2 := b * b / 4 - c
  if z2 < 0 then false
  else
    let z3 := Real.sqrt z2
    let z1 := b / 2
    let z2 := -z1 + z3
    let aus6 := decide (z2 > 0 ∧ z2 < shbr)
    if 1e-15 < |z3| then
      let z2 := -z1 - z3
      if z2 > 0 ∧ z2 < shbr then true else aus6
    else
      let z2 := c / z2
      if z2 > 0 ∧ z2 < shbr then true else aus6

/-- The valley fitter `tal_(shabr, sdelta, shbr, sdtdh0, aus6, spt)`. -/
noncomputable def tal_ (shabr sdelta shbr sdtdh0 : ℝ) : TalResult ℝ :=
  let z1 := -sdelta / (shabr * 100 * shabr)
  let sdelta1 := if sdelta > 0 then sdelta else -sdelta
  let z1 := if sdelta > 0 then z1 else Real.log (1 - sdelta1 / 100) / (shabr * shabr)
  let z3 := sdtdh0 / (shbr * 2)
  let z4 := shabr - shbr
  let spt4 := (z1 * (shbr - shabr * 2) * shbr + z3 * z4 * shabr) * 2 /
    (shabr * shbr * z4 * z4 * z4)
  let spt3 := z1 * (shbr * 2 - shabr * 3) / (shabr * z4 * z4) - (shabr * 2 + shbr) * spt4
  let spt2 := z1 * (-2) / shabr - shabr * 2 * spt3 - shabr * 3 * shabr * spt4
  let spt1 := z1 - shabr * (spt2 + shabr * (spt3 + shabr * spt4))
  ⟨sdelta1, tal_aus6 shabr shbr spt1 spt3 spt4, spt1, spt2, spt3, spt4⟩

/-- The polynomial of the header comment of `tal_`,
`Y(X) = 1 + SPT(1)*X**2 + SPT(2)*X**3 + SPT(3)*X**4 + SPT(4)*X**5`. -/
def talY (r : TalResult ℝ) (x : ℝ) : ℝ :=
  1 + r.spt1 * x ^ 2 + r.spt2 * x ^ 3 + r.spt3 * x ^ 4 + r.spt4 * x ^ 5

/-- The function fitted for a negative `sdelta` (header comment of `tal_`),
`Y(X) = EXP(SPT(1)*X**2 + ... + SPT(4)*X**5)`. -/
noncomputable def talExpY (r : TalResult ℝ) (x : ℝ) : ℝ :=
  Real.exp (r.spt1 * x ^ 2 + r.spt2 * x ^ 3 + r.spt3 * x ^ 4 + r.spt4 * x ^ 5)

/-- The coefficient `b = spt(3)*4/(spt(4)*5) + shabr` of the quadratic factor in `tal_`. -/
noncomputable def tal_b (shabr : ℝ) (r : TalResult ℝ) : ℝ :=
  r.spt3 * 4 / (r.spt4 * 5) + shabr

/-- The coefficient `c = spt(1)*(-2)/(spt(4)*5*shabr)` of the quadratic factor in `tal_`. -/
noncomputable def tal_c (shabr : ℝ) (r : TalResult ℝ) : ℝ :=
  r.spt1 * (-2) / (r.spt4 * 5 * shabr)

/-- The resolver's use of a fit that was accepted (label `L667`): the coefficients go
to `block5_1.e` and the valley top is `hef = hme + width`. -/
def Blocks.setValley (s : Blocks ℝ) (r : TalResult ℝ) (width : ℝ) : Blocks ℝ :=
  { s with e0 := r.spt1, e1 := r.spt2, e2 := r.spt3, e3 := r.spt4, hef := s.hme + width }

/-- The resolver's root-found branch (label `L360`, after `regfa1_` stored the root in
`block3_1.hst`): `hz = (hst + hf1)/2`, `d = hz - hst`, `t = d*d/(hz - hef - d)`. -/
noncomputable def Blocks.rootBranch (s : Blocks ℝ) (hst hf1 : ℝ) : Blocks ℝ :=
  let hz := (hst + hf1) / 2
  let d := hz - hst
  { s with hst := hst, hz := hz, t := d * d / (hz - s.hef - d) }

/-- The resolver's linear fallback (label `L8922`): the loop raises `rrrr` by 0.1
while `xe3_(hz) - nme < 0.001`, with `hz = hhmin + (hf1 - hhmin)*rrrr` stored in the
COMMON block on each pass; on exit `t = (xnehz - nme)/(hz - hef)` and `hst = -333`.
The first argument bounds the number of passes; `none` means the bound was reached. -/
noncomputable def linearFallback (s : Blocks ℝ) (hhmin hf1 : ℝ) : Nat → ℝ → Option (Blocks ℝ)
  | 0, _ => none
  | n + 1, rrrr =>
    let s1 : Blocks ℝ := { s with hz := hhmin + (hf1 - hhmin) * rrrr }
    let xnehz := xe3_ s1 s1.hz
    if xnehz - s1.xnme < 0.001 then linearFallback s1 hhmin hf1 n (rrrr + 0.1)
    else some { s1 with t := (xnehz - s1.xnme) / (s1.hz - s1.hef), hst := -333 }

/-! ## The root finder `regfa1_` -/

/-- The local variables of `regfa1_` together with its outputs `schalt` and `x`.
`ng` is taken as an unbounded integer: a doubling of `ng` follows a step that divides
the bracket width by `ng`, so the 32-bit range is not left before the width is below
every positive single-precision tolerance.  `evals` is not a program variable; it
counts the calls of `f`. -/
structure Regfa (R : Type) where
  schalt : Bool
  x : R
  x1 : R
  x2 : R
  f1 : R
  f2 : R
  ep : R
  ng : ℤ
  lfd : ℕ
  k : Bool
  links : Bool
  l1 : Bool
  evals : ℕ

set_option genInjectivity true in
/-- How a run of `regfa1_` ends: `done` is the return at `L800` or after
`*schalt = TRUE_`; `undefinedQuotient` is the quotient at `L200` with `f2 - f1 = 0`;
`outOfFuel` means the bound on the number of passes given to the model was reached. -/
inductive Outcome (R : Type) where
  | done (s : Regfa R)
  | undefinedQuotient
  | outOfFuel

/-- The assignments at the head of `regfa1_`.  The statics `links` and `l1` are written
before they are read, so their initial values do not matter. -/
noncomputable def Regfa.start (x11 x22 fx11 fx22 eps fw : ℝ) : Regfa ℝ :=
  { schalt := false, x := 0, x1 := x11, x2 := x22, f1 := fx11 - fw, f2 := fx22 - fw,
    ep := eps, ng := 2, lfd := 0, k := false, links := false, l1 := false, evals := 0 }

/-- Label `L200`: the regula-falsi point `x = (x1*f2 - x2*f1)/(f2 - f1)`. -/
noncomputable def Regfa.l200 (s : Regfa ℝ) : Option (Regfa ℝ) :=
  if s.f2 - s.f1 = 0 then none
  else some { s with x := (s.x1 * s.f2 - s.x2 * s.f1) / (s.f2 - s.f1) }

/-- Label `L300`: the subdivision point `x = x1 + dx`, `dx = (x2 - x1)/ng`, multiplied
by `ng - 1` when `links` is false. -/
noncomputable def Regfa.l300 (s : Regfa ℝ) : Regfa ℝ :=
  let dx := (s.x2 - s.x1) / (s.ng : ℝ)
  let dx := if s.links then dx else dx * ((s.ng - 1 : ℤ) : ℝ)
  { s with l1 := s.links, x := s.x1 + dx }

/-- Label `L400` up to the replacement of one end of the bracket: one evaluation of
`f`, the relaxation `ep *= 10` on every pass with `lfd > 20`, `links = f1*fx > 0`,
`k = !k`. -/
noncomputable def Regfa.l400 (f : ℝ → ℝ) (fw : ℝ) (s : Regfa ℝ) : Regfa ℝ :=
  let fx := f s.x - fw
  let lfd := s.lfd + 1
  let ep := if lfd > 20 then s.ep * 10 else s.ep
  let lfd := if lfd > 20 then 0 else lfd
  let links := decide (s.f1 * fx > 0)
  if links then
    { s with ep := ep, lfd := lfd, links := links, k := !s.k, evals := s.evals + 1,
             x1 := s.x, f1 := fx }
  else
    { s with ep := ep, lfd := lfd, links := links, k := !s.k, evals := s.evals + 1,
             x2 := s.x, f2 := fx }

/-- The test before `goto L200`: `if (links && !l1 || !links && l1) ng <<= 1`. -/
def Regfa.double (s : Regfa ℝ) : Regfa ℝ :=
  if (s.links && !s.l1) || (!s.links && s.l1) then { s with ng := s.ng * 2 } else s

/-- The loop of `regfa1_` entered at `L400` with the point `s.x` still to be
evaluated.  The first argument bounds the number of passes. -/
noncomputable def regfaLoop (f : ℝ → ℝ) (fw : ℝ) : ℕ → Regfa ℝ → Outcome ℝ
  | 0, _ => Outcome.outOfFuel
  | n + 1, s =>
    let s := s.l400 f fw
    if |s.x2 - s.x1| ≤ s.ep then Outcome.done s
    else if s.k then regfaLoop f fw n s.l300
    else
      match s.double.l200 with
      | none => Outcome.undefinedQuotient
      | some s2 => regfaLoop f fw n s2

/-- The subroutine `regfa1_(x11, x22, fx11, fx22, eps, fw, f, schalt, x)`; the first
argument bounds the number of passes of its loop. -/
noncomputable def regfa1_ (fuel : ℕ) (x11 x22 fx11 fx22 eps fw : ℝ) (f : ℝ → ℝ) : Outcome ℝ :=
  let s := Regfa.start x11 x22 fx11 fx22 eps fw
  if s.f1 * s.f2 ≤ 0 then
    match s.l200 with
    | none => Outcome.undefinedQuotient
    | some s2 => regfaLoop f fw fuel s2
  else Outcome.done { s with x := 0, schalt := true }

/-- The facts that hold of the state of `regfa1_` at every pass of its loop, for a run
started with tolerance `eps` on the seeds `a`, `b`: the flag is down, the two stored
values do not lie strictly on the same side, the point `x` lies in the bracket, the
bracket lies between the seeds, and `lfd`, `ep` follow the count of evaluations. -/
@[reducible]
def Regfa.Bracket (eps a b : ℝ) (s : Regfa ℝ) : Prop :=
  s.schalt = false ∧ s.f1 * s.f2 ≤ 0 ∧ 2 ≤ s.ng ∧ s.x ∈ Set.uIcc s.x1 s.x2 ∧
    Set.uIcc s.x1 s.x2 ⊆ Set.uIcc a b ∧ s.lfd = s.evals % 21 ∧
    s.ep = eps * 10 ^ (s.evals / 21)

/-- The stored values are samples of `f - fw` at the ends of the bracket. -/
def Regfa.Sampled (f : ℝ → ℝ) (fw : ℝ) (s : Regfa ℝ) : Prop :=
  s.f1 = f s.x1 - fw ∧ s.f2 = f s.x2 - fw

/-- A daytime parameter state used to instantiate the theorems: the peaks of the
scenario `hmf2 = 300`, `nmf2 = 1e12`, `hmf1 = 220`, `hme = 105`, `nme = 1.5e11`,
no valley. -/
noncomputable def scenario : Blocks ℝ :=
  { hmf2 := 300, xnmf2 := 1000000000000, hmf1 := 220,
    b0 := 100, b1 := 3, c1 := 1 / 10,
    hz := 200, t := 4, hst := 190,
    hme := 105, xnme := 150000000000, hef := 105,
    night := false, e0 := 0, e1 := 0, e2 := 0, e3 := 0,
    hmd := 81, xnmd := 400000000, hdx := 86,
    d1 := 1 / 100, xkk := 2, fp30 := 0, fp3u := 0, fp1 := 1 / 20, fp2 := -1 / 800,
    beta := -128, eta := 3 / 50, delta := 50, zeta := 3 / 100 }

/-! ## The boundary resolver of `iri90_` -/

/-- The table `b0b1[5]` of `iri90_`. -/
noncomputable def b0b1 : List ℝ := [0.755566, 0.778596, 0.797332, 0.812928, 0.826146]

/-- The variables of `iri90_` that the search for `HMF1` and `HST` reads and writes: the
COMMON blocks, `nmf1`, `f1reg`, `iregfa`, and `hhmin`, `hf1` of the last `HST` search.
`tried` is not a program variable: it lists the values of `b1` at which a root search
(`regfa1_` on `xe2_` at `L924`, or the `HST` search at `L380`) was started. -/
structure Ladder (R : Type) where
  s : Blocks R
  nmf1 : R
  f1reg : Bool
  iregfa : ℕ
  hhmin : R
  hf1 : R
  tried : List R

/-- What the `HST` search (`L380` to `L3885`) hands to the code after it: the root `hst`
with `hf1` when `regfa1_` found one, or the minimum `xxmin` at `hhmin` with `hf1` when
the scan or `regfa1_` failed. -/
inductive HstSearch (R : Type) where
  | found (hst hf1 : R)
  | failed (xxmin hhmin hf1 : R)

/-- The labels of the search for `HMF1` and `HST`; `L7398` is taken with the branch of
`L9244` that jumps to it. -/
inductive Label where
  | l924
  | l9244
  | l380

/-- Where the search ends: at `L360` with a root, at `L8922` for the linear
interpolation, or at the bound on the number of jumps given to the model. -/
inductive Resolved (R : Type) where
  | root (st : Ladder R) (hst hf1 : R)
  | linear (st : Ladder R)
  | outOfFuel (st : Ladder R)

/-- The state every outcome carries. -/
def Resolved.state : Resolved ℝ → Ladder ℝ
  | Resolved.root st _ _ => st
  | Resolved.linear st => st
  | Resolved.outOfFuel st => st

/-- The jumps between `L924`, `L9244`, `L7398` and `L380` in `iri90_`.  The call of
`regfa1_` on `xe2_` is the parameter `f1top` (it returns `schalt` and the value stored in
`hmf1`), the `HST` search is the parameter `hstSearch`; both see the current COMMON
blocks.  The first argument bounds the number of jumps. -/
noncomputable def ladder (gulb0 : Bool) (b0cnew : ℝ) (f1top : Blocks ℝ → ℝ → Bool × ℝ)
    (hstSearch : Blocks ℝ → ℝ → Bool → HstSearch ℝ) : ℕ → Label → Ladder ℝ → Resolved ℝ
  | 0, _, st => Resolved.outOfFuel st
  | n + 1, Label.l924, st =>
    if st.f1reg then
      let st1 : Ladder ℝ :=
        { st with s := { st.s with hmf1 := (f1top st.s st.nmf1).2 },
                  tried := st.tried ++ [st.s.b1] }
      if (f1top st.s st.nmf1).1 then
        ladder gulb0 b0cnew f1top hstSearch n Label.l9244 { st1 with iregfa := 1 }
      else ladder gulb0 b0cnew f1top hstSearch n Label.l380 st1
    else ladder gulb0 b0cnew f1top hstSearch n Label.l380 st
  | n + 1, Label.l9244, st =>
    if st.s.b1 > 4.5 ∧ st.iregfa = 1 then
      ladder gulb0 b0cnew f1top hstSearch n Label.l380
        { st with s := { st.s with hmf1 := 0, c1 := 0, b1 := 3 }, nmf1 := 0, f1reg := false }
    else if st.s.b1 > 4.5 ∧ st.iregfa = 2 then Resolved.linear st
    else
      let b1 := st.s.b1 + 0.5
      let b0 := if gulb0 then b0cnew / b0b1.getD (⌊b1 * 2 - 5⌋ - 1).toNat 0 else st.s.b0
      ladder gulb0 b0cnew f1top hstSearch n Label.l924
        { st with s := { st.s with b1 := b1, b0 := b0 } }
  | n + 1, Label.l380, st =>
    match hstSearch st.s st.nmf1 st.f1reg with
    | HstSearch.found hst hf1 =>
      Resolved.root { st with s := { st.s with hst := hst }, hf1 := hf1,
                              tried := st.tried ++ [st.s.b1] } hst hf1
    | HstSearch.failed xxmin hhmin hf1 =>
      let st1 : Ladder ℝ :=
        { st with iregfa := 2, hhmin := hhmin, hf1 := hf1, tried := st.tried ++ [st.s.b1] }
      if xxmin / st.s.xnme < 1.3 then
        ladder gulb0 b0cnew f1top hstSearch n Label.l9244 st1
      else Resolved.linear st1

/-- The values of `b1` met by the search: 3, 3.5, 4, 4.5 and 5. -/
def B1Rung (b1 : ℝ) : Prop :=
  b1 = 3 ∨ b1 = 3.5 ∨ b1 = 4 ∨ b1 = 4.5 ∨ b1 = 5

/-- The state in which `iri90_` enters `L924`: `b1 = 3` and no search made yet. -/
noncomputable def Ladder.start (s : Blocks ℝ) (nmf1 : ℝ) (f1reg : Bool) : Ladder ℝ :=
  { s := { s with b1 := 3 }, nmf1 := nmf1, f1reg := f1reg, iregfa := 0, hhmin := 0, hf1 := 0,
    tried := [] }

/-- The argument `x` of the Epstein functions in `xe1_` and `dxe1n_`. -/
noncomputable def xe1_x (s : Blocks ℝ) (h : ℝ) : ℝ :=
  (h - s.hmf2) / ((1000 - s.hmf2) / 700) + (300 - s.delta)

/-- The exponent `y` of `xe1_` before it is clipped to `±argmax`. -/
noncomputable def xe1_y (s : Blocks ℝ) (h : ℝ) : ℝ :=
  let dxdh := (1000 - s.hmf2) / 700
  let x0 := 300 - s.delta
  let xmx0 := (h - s.hmf2) / dxdh
  let x := xmx0 + x0
  let eptr1 := eptr_ x s.beta 394.5 - eptr_ x0 s.beta 394.5
  let eptr2 := eptr_ x 100 300 - eptr_ x0 100 300
  (s.beta * s.eta * eptr1 + s.zeta * (eptr2 * 100 - xmx0)) * dxdh

/-- No guard of `xe1_` is active at the height `h`: both Epstein arguments are inside
`±argmax` and the exponent is not clipped. -/
def TopsideUnsaturated (s : Blocks ℝ) (h : ℝ) : Prop :=
  |(xe1_x s h - 394.5) / s.beta| < 88 ∧ |(xe1_x s h - 300) / 100| < 88 ∧ |xe1_y s h| < 88

/-- The state `scenario` with `zeta = 0`, used to instantiate the topside theorem. -/
noncomputable def topsideExample : Blocks ℝ := { scenario with zeta := 0 }

/-- The D-region parameter setup of `iri90_` (label `L2727` on): from `nmd`, `hmd` and the
three values `f[0..2]` it sets `fp1`, `fp2`, `fp30`, `fp3u`, `hdx`, the density `xdx` and
slope `dxdx` at `hdx`, and from them `xkk` and `d1`. -/
noncomputable def Blocks.setDRegion (s : Blocks ℝ) (nmd hmd f0 f1 f2 : ℝ) : Blocks ℝ :=
  let fp1 := f0
  let fp2 := -fp1 * fp1 / 2
  let fp30 := (-f1 * fp2 - fp1 + 1 / f1) / (f1 * f1)
  let fp3u := (-f2 * fp2 - fp1 - 1 / f2) / (f2 * f2)
  let hdx := hmd + f1
  let x := hdx - hmd
  let xdx := nmd * Real.exp (x * (fp1 + x * (fp2 + x * fp30)))
  let dxdx := xdx * (fp1 + x * (fp2 * 2 + x * 3 * fp30))
  let x := s.hme - hdx
  let xkk := -dxdx * x / (xdx * Real.log (xdx / s.xnme))
  let d1 := dxdx / (xdx * xkk * x ^ (xkk - 1))
  { s with xnmd := nmd, hmd := hmd, fp1 := fp1, fp2 := fp2, fp30 := fp30, fp3u := fp3u,
           hdx := hdx, xkk := xkk, d1 := d1 }

/-- The value `xdx` of the D-region setup: the lower branch of `xe6_` at `hdx`. -/
noncomputable def dregion_xdx (nmd f0 f1 : ℝ) : ℝ :=
  nmd * Real.exp (f1 * (f0 + f1 * (-f0 * f0 / 2 +
    f1 * ((-f1 * (-f0 * f0 / 2) - f0 + 1 / f1) / (f1 * f1)))))

/-- The value `dxdx` of the D-region setup: the height derivative of the lower branch
at `hdx`. -/
noncomputable def dregion_dxdx (nmd f0 f1 : ℝ) : ℝ :=
  dregion_xdx nmd f0 f1 * (f0 + f1 * (-f0 * f0 / 2 * 2 +
    f1 * 3 * ((-f1 * (-f0 * f0 / 2) - f0 + 1 / f1) / (f1 * f1))))

/-! ## The calendar routine `moda_` -/

/-- The table `mo[12]` of `moda_`: the days of a non-leap year before each month. -/
def mo : List ℤ := [0, 31, 59, 90, 120, 151, 181, 212, 243, 273, 304, 334]

/-- The loop of `moda_` at label `L5` (`in > 0`): `imo` is raised until it exceeds 12 or
`mo[imo - 1] >= idoy`; the result is `(month, iday) = (imo - 1, idoy - moold)`.  The
first argument bounds the number of passes. -/
def modaLoop (idoy : ℤ) : ℕ → ℤ → ℤ → Option (ℤ × ℤ)
  | 0, _, _ => none
  | n + 1, imo, mobe =>
    let imo := imo + 1
    let moold := mobe
    if imo > 12 then some (imo - 1, idoy - moold)
    else
      let mobe := mo.getD (imo - 1).toNat 0
      if mobe < idoy then modaLoop idoy n imo mobe
      else some (imo - 1, idoy - moold)

/-- The call `moda_(in, month, iday, idoy)` with `in > 0`: month and day from the day of
year.  The loop makes at most 13 passes, since `imo` starts at 0 and ends it above 12. -/
def moda_1 (idoy : ℤ) : Option (ℤ × ℤ) := modaLoop idoy 13 0 0

/-- The call `moda_(in, month, iday, idoy)` with `in <= 0`: the day of year
`mo[month - 1] + iday`. -/
def moda_0 (month iday : ℤ) : ℤ := mo.getD (month - 1).toNat 0 + iday

/-- The number of days of each month in a non-leap year. -/
def monthDays : List ℕ := [31, 28, 31, 30, 31, 30, 31, 31, 30, 31, 30, 31]

/-! ## The density output of `iri90_` -/

/-- The density entry `outf(1,kk)` of `iri90_` for one requested height (the loop after
`L141`): the array is preset to -1; nothing is stored when `noden` is set or the height
is outside `[hnea, hnee]`; with `layver` the value is -9 unless `iiqu < 2`, when it is
`xen_`; otherwise it is `xe_`.  `xen` and `xe` stand for the two density functions with
the parameters of the run. -/
noncomputable def outfDensity (noden layver : Bool) (iiqu : ℤ) (hnea hnee : ℝ)
    (xen xe : ℝ → ℝ) (height : ℝ) : ℝ :=
  if noden then -1
  else if height > hnee ∨ height < hnea then -1
  else if layver then (if iiqu < 2 then xen height else -9)
  else xe height

/-! ## The layer-function fit `inilay_` -/

/-- What the tail of `inilay_` leaves: `iqual`, the height parameter `hxl(1)`, the
amplitude `amp(1)`, and the number of calls of `lsknm_` made. -/
structure InilayResult (R : Type) where
  iqual : ℕ
  hxl1 : R
  amp1 : R
  solves : ℕ

/-- The tail of `inilay_` from label `L2299`.  `solve hxl1` stands for the call of
`lsknm_` with the first height parameter `hxl1`: it gives the computed `amp(1)` and the
flag `ssin`; `lsknm_` stores no amplitude when `ssin` is set, so `amp(1)` keeps its
value then.  The first argument bounds the number of passes. -/
noncomputable def inilayLoop (solve : ℝ → ℝ × Bool) (hxl1t : ℝ) :
    ℕ → ℕ → ℝ → ℝ → ℕ → Option (InilayResult ℝ)
  | 0, _, _, _, _ => none
  | n + 1, iqual, hxl1, amp1, solves =>
    let ssin := (solve hxl1).2
    let amp1 := if ssin then amp1 else (solve hxl1).1
    if iqual > 0 then
      some { iqual := if ssin then 2 else iqual, hxl1 := hxl1, amp1 := amp1,
             solves := solves + 1 }
    else if |amp1| > 10 ∨ ssin = true then inilayLoop solve hxl1t n 1 hxl1t amp1 (solves + 1)
    else
      some { iqual := if ssin then 2 else iqual, hxl1 := hxl1, amp1 := amp1,
             solves := solves + 1 }

/-- The statics `hfff`, `xfff` of `inilay_`, which keep their values between calls. -/
structure InilayStatics (R : Type) where
  hfff : R
  xfff : R

/-- The part of `inilay_` that sets `hfff`, `xfff` and the weight `ww(2)` (C index
`ww[1]`): the night branch and the day branch with F1 region assign `hfff`, `xfff`; the
day branch without F1 region (`xnmf1 <= 0`) does not, and label `L7722` reads them. -/
noncomputable def inilayWeight (st : InilayStatics ℝ) (night : Bool)
    (xnmf2 xnmf1 xnme hmf1 hv1 hv2 hhalf : ℝ) : InilayStatics ℝ × ℝ :=
  let xhalf := xnmf2 / 2
  let st1 : InilayStatics ℝ :=
    if night then { hfff := hhalf, xfff := xhalf }
    else if xnmf1 > 0 then
      (if hhalf > hmf1 then { hfff := hmf1, xfff := xnmf1 }
       else { hfff := hhalf, xfff := xhalf })
    else st
  let ww1 : ℝ := 1
  let ww1 := if (hv1 - st1.hfff) * (xnme - st1.xfff) < 0 then 0.5 else ww1
  let ww1 := if hv1 ≤ hv2 + 5 then 0.5 else ww1
  (st1, ww1)

/-! ## The linear solver `lnglsn_` -/

/-- The arrays of `lnglsn_` with Fortran indices (`a i j` is `A(i,j)`, C index
`a[i + j*5]`), the right side `b` and the flag `aus`. -/
structure Lin (R : Type) where
  a : ℕ → ℕ → R
  b : ℕ → R
  aus : Bool

/-- The variables of the scan at label `L110`. -/
structure Scan (R : Type) where
  l : ℕ
  izg : ℕ
  imax : ℕ
  amax : R

/-- The scan at label `L110` of `lnglsn_` for column `k`: `l` is raised; the scan ends
when `l > n` or at the first `l` with `|a(l,k)| > amax`.  Neither `amax` nor `imax` is
assigned in it.  The first argument bounds the number of passes. -/
noncomputable def pivotScan (n : ℕ) (a : ℕ → ℕ → ℝ) (k : ℕ) : ℕ → Scan ℝ → Scan ℝ
  | 0, sc => sc
  | fuel + 1, sc =>
    let l := sc.l + 1
    if l > n then { sc with l := l }
    else
      let hsp := |a l k|
      let izg := if hsp < 1e-8 then sc.izg + 1 else sc.izg
      if hsp ≤ sc.amax then pivotScan n a k fuel { sc with l := l, izg := izg }
      else { sc with l := l, izg := izg }

/-- The exchange of rows `imax` and `k` (columns `k..n`) and of `b(imax)`, `b(k)`. -/
noncomputable def swapRows (n k imax : ℕ) (st : Lin ℝ) : Lin ℝ :=
  { st with
    a := fun i j =>
      if k ≤ j ∧ j ≤ n then
        (if i = imax then st.a k j else if i = k then st.a imax j else st.a i j)
      else st.a i j,
    b := fun i => if i = imax then st.b k else if i = k then st.b imax else st.b i }

/-- The elimination of row `l` with the scaled pivot row `azv` (inner loop to `L4`). -/
noncomputable def elimRow (n k : ℕ) (azv0 : ℝ) (azv : ℕ → ℝ) (st : Lin ℝ) (l : ℕ) : Lin ℝ :=
  let amax := st.a l k
  if |amax| < 1e-8 then st
  else
    { st with
      a := fun i j =>
        if i = l then
          (if j = k then 0 else if k < j ∧ j ≤ n then st.a l j - amax * azv j else st.a l j)
        else st.a i j,
      b := fun i => if i = l then st.b l - azv0 * amax else st.b i }

/-- One pass `k` of the elimination loop of `lnglsn_`; a state with `aus` set is left
as it is, the subroutine having returned. -/
noncomputable def elimStep (n : ℕ) (st : Lin ℝ) (k : ℕ) : Lin ℝ :=
  if st.aus then st
  else
    let sc := pivotScan n st.a k n { l := k, izg := 0, imax := k, amax := |st.a k k| }
    if ¬ (|sc.amax| ≥ 1e-10) then { st with aus := true }
    else
      let st1 := if sc.imax = k then st else swapRows n k sc.imax st
      if sc.izg = n - k then st1
      else
        let amax := 1 / st1.a k k
        let azv0 := st1.b k * amax
        let azv := fun m => st1.a k m * amax
        (List.range' (k + 1) (n - k)).foldl (elimRow n k azv0 azv) st1

/-- One pass `k` of the back substitution: the solution component is stored in
`a(n,k)`, and is 0 when `|a(k,k)| < 1e-6`. -/
noncomputable def backStep (n : ℕ) (st : Lin ℝ) (k : ℕ) : Lin ℝ :=
  let amax := if k < n then ((List.range' (k + 1) (n - k)).map
    (fun l => st.a k l * st.a n l)).sum else 0
  { st with
    a := fun i j =>
      if i = n ∧ j = k then (if |st.a k k| < 1e-6 then 0 else (st.b k - amax) / st.a k k)
      else st.a i j }

/-- The subroutine `lnglsn_(n, a, b, aus)`. -/
noncomputable def lnglsn_ (n : ℕ) (a : ℕ → ℕ → ℝ) (b : ℕ → ℝ) : Lin ℝ :=
  let st := (List.range' 1 (n - 1)).foldl (elimStep n) { a := a, b := b, aus := false }
  if st.aus then st else (List.range' 1 n).reverse.foldl (backStep n) st

/-- The matrix with the diagonal 1, 1, 1, 0 and zeros elsewhere. -/
noncomputable def diag1110 : ℕ → ℕ → ℝ :=
  fun i j => if i = j ∧ i ≤ 3 then 1 else 0

/-! ## The start height of the `HST` search -/

/-- The loop at label `L3973` of `iri90_` (no F1 region): `rathh` is raised by 0.1
while `xe3_(hf1) < nme`, `hf1 = hef + (hmf2 - hef)*rathh`; it returns `hf1` and
`xf1 = xe3_(hf1)`.  The first argument bounds the number of passes. -/
noncomputable def startHeight (s : Blocks ℝ) : ℕ → ℝ → Option (ℝ × ℝ)
  | 0, _ => none
  | n + 1, rathh =>
    let hf1 := s.hef + (s.hmf2 - s.hef) * rathh
    let xf1 := xe3_ s hf1
    if xf1 < s.xnme then startHeight s n (rathh + 0.1) else some (hf1, xf1)

/-- A night state without F1 region in which the F2 peak lies at the valley top
(`hmf2 = hef = 105`) and is weaker than the E peak (`nmf2 = 1e11 < nme = 1.5e11`). -/
noncomputable def lowPeak : Blocks ℝ :=
  { scenario with hmf2 := 105, xnmf2 := 100000000000, hmf1 := 0, c1 := 0, night := true }

/-! ## The `HST` scan and the end of the resolution -/

/-- What one pass of the downward scan at label `L3895` leads to: the jump to `L3885`
(`deh < 1`), another pass, or the call of `regfa1_` on `[h, hf1]`. -/
inductive ScanStep (R : Type) where
  | fail
  | again (h deh xxmin hhmin : R)
  | bracket (h xe3h xxmin hhmin : R)

/-- The rest of a pass of the scan once `h` and `deh` are set: `xe3h = xe3_(h)`, the
minimum `xxmin`, `hhmin` is updated, and the scan goes on while `xe3h > nme`. -/
noncomputable def hstScanEval (s : Blocks ℝ) (h deh xxmin hhmin : ℝ) : ScanStep ℝ :=
  let xe3h := xe3_ s h
  let xxmin1 := if xe3h < xxmin then xe3h else xxmin
  let hhmin1 := if xe3h < xxmin then h else hhmin
  if xe3h > s.xnme then ScanStep.again h deh xxmin1 hhmin1
  else ScanStep.bracket h xe3h xxmin1 hhmin1

/-- One pass of the scan at label `L3895`: `h -= deh`; below `hef` the height is put
back by `2*deh` and `deh` is divided by 10, and the scan is given up when `deh < 1`. -/
noncomputable def hstScanStep (s : Blocks ℝ) (h deh xxmin hhmin : ℝ) : ScanStep ℝ :=
  if h - deh < s.hef then
    (if deh / 10 < 1 then ScanStep.fail
     else hstScanEval s (h - deh + deh * 2) (deh / 10) xxmin hhmin)
  else hstScanEval s (h - deh) deh xxmin hhmin

/-- Label `L141`: without F1 region `hmf1` is set to `hz`. -/
def Blocks.closeF1 (s : Blocks ℝ) (f1reg : Bool) : Blocks ℝ :=
  if f1reg then s else { s with hmf1 := s.hz }

/-- A night state without F1 region whose F2 peak is weaker than the E peak:
`hmf2 = 200`, `nmf2 = 1e11`, `b0 = 5`, `b1 = 3`, `hef = hme = 105`, `nme = 1.5e11`. -/
noncomputable def weakPeak : Blocks ℝ :=
  { scenario with hmf2 := 200, xnmf2 := 100000000000, b0 := 5, hmf1 := 0, c1 := 0,
                  night := true }

/-! ## The layer functions -/

/-- The Rawer layer function `rlay_(x, xm, sc, hx)`. -/
noncomputable def rlay_ (x xm sc hx : ℝ) : ℝ :=
  let y1 := eptr_ x sc hx
  let y1m := eptr_ xm sc hx
  let y2m := epst_ xm sc hx
  y1 - y1m - (x - xm) * y2m / sc

/-- The derivative `d1lay_(x, xm, sc, hx)` of the layer function. -/
noncomputable def d1lay_ (x xm sc hx : ℝ) : ℝ :=
  (epst_ x sc hx - epst_ xm sc hx) / sc

/-- One layer `(hx(i), sc(i), amp(i))` of the arrays handed to `xe2to5_`. -/
structure Layer (R : Type) where
  hx : R
  sc : R
  amp : R

/-- The normalized density `xe2to5_(h, hmf2, nl, hx, sc, amp)`: `sum` starts at 1 and is
multiplied by `10^(amp(i)*rlay_(h, hmf2, sc(i), hx(i)))` for each layer in turn. -/
noncomputable def xe2to5_ (h hmf2 : ℝ) (layers : List (Layer ℝ)) : ℝ :=
  layers.foldl (fun sum l => sum * (10 : ℝ) ^ (l.amp * rlay_ h hmf2 l.sc l.hx)) 1

/-- The density `xen_(h, hmf2, xnmf2, hme, nl, hx, sc, amp)` with the layer-function
middle ionosphere: `xe1_` at and above `hmf2`, `xnmf2*xe2to5_` from `hme` up to `hmf2`,
`xe6_` below `hme`. -/
noncomputable def xen_ (s : Blocks ℝ) (h hmf2 xnmf2 hme : ℝ) (layers : List (Layer ℝ)) : ℝ :=
  if h < hmf2 then
    (if h < hme then xe6_ s h else xnmf2 * xe2to5_ h hmf2 layers)
  else xe1_ s h

/-- The end of `lsknm_`: the call of `lnglsn_` on the normal equations `ali`, `bli`, and
the copy of the solution `ali(n, 1..n)` into `var(1..n)`, made only when `sing` is not
set.  It returns `var` and `sing`. -/
noncomputable def lsknmSolve (n : ℕ) (ali : ℕ → ℕ → ℝ) (bli : ℕ → ℝ) (var : ℕ → ℝ) :
    (ℕ → ℝ) × Bool :=
  if (lnglsn_ n ali bli).aus then (var, true)
  else (fun i => if 1 ≤ i ∧ i ≤ n then (lnglsn_ n ali bli).a n i else var i, false)

/-- A function with a jump at 1, `-1` left of 1 and `1` from 1 on; on the seeds 0 and 1
with target 0 every step of `regfa1_` halves the bracket. -/
noncomputable def jumpAtOne (x : ℝ) : ℝ := if x < 1 then -1 else 1

/-- The state of `regfa1_` on `jumpAtOne` after `j` evaluations without relaxation: the
bracket is `[1 - w, 1]` and the next point is its midpoint. -/
noncomputable def bisectState (j : ℕ) (w e : ℝ) (k links l1 : Bool) : Regfa ℝ :=
  { schalt := false, x := 1 - w / 2, x1 := 1 - w, x2 := 1, f1 := -1, f2 := 1, ep := e,
    ng := 2, lfd := j, k := k, links := links, l1 := l1, evals := j }

/-- The state of `lnglsn_` after the passes `k = 1..j` of its elimination loop. -/
noncomputable def elimPrefix (n : ℕ) (a : ℕ → ℕ → ℝ) (b : ℕ → ℝ) (j : ℕ) : Lin ℝ :=
  (List.range' 1 j).foldl (elimStep n) { a := a, b := b, aus := false }

/-- One root search of a run of `ladder`: whether it is the `HST` search at `L380` (or
else the search on `xe2_` at `L924`), and the values of `b1` and `b0` in the COMMON block
when it is started. -/
structure Searched (R : Type) where
  hst : Bool
  b1 : R
  b0 : R

/-- The record of a run of `ladder`, which it follows jump by jump: the root searches in
the order in which they are started, and the indices `ib1` of the look-ups
`b0 = b0cnew/b0b1[ib1 - 1]` made at `L9244`. -/
noncomputable def ladderLog (gulb0 : Bool) (b0cnew : ℝ) (f1top : Blocks ℝ → ℝ → Bool × ℝ)
    (hstSearch : Blocks ℝ → ℝ → Bool → HstSearch ℝ) :
    ℕ → Label → Ladder ℝ → List (Searched ℝ) × List ℤ
  | 0, _, _ => ([], [])
  | n + 1, Label.l924, st =>
    if st.f1reg then
      let st1 : Ladder ℝ :=
        { st with s := { st.s with hmf1 := (f1top st.s st.nmf1).2 },
                  tried := st.tried ++ [st.s.b1] }
      let r :=
        if (f1top st.s st.nmf1).1 then
          ladderLog gulb0 b0cnew f1top hstSearch n Label.l9244 { st1 with iregfa := 1 }
        else ladderLog gulb0 b0cnew f1top hstSearch n Label.l380 st1
      ({ hst := false, b1 := st.s.b1, b0 := st.s.b0 } :: r.1, r.2)
    else ladderLog gulb0 b0cnew f1top hstSearch n Label.l380 st
  | n + 1, Label.l9244, st =>
    if st.s.b1 > 4.5 ∧ st.iregfa = 1 then
      ladderLog gulb0 b0cnew f1top hstSearch n Label.l380
        { st with s := { st.s with hmf1 := 0, c1 := 0, b1 := 3 }, nmf1 := 0, f1reg := false }
    else if st.s.b1 > 4.5 ∧ st.iregfa = 2 then ([], [])
    else
      let b1 := st.s.b1 + 0.5
      let b0 := if gulb0 then b0cnew / b0b1.getD (⌊b1 * 2 - 5⌋ - 1).toNat 0 else st.s.b0
      let r := ladderLog gulb0 b0cnew f1top hstSearch n Label.l924
        { st with s := { st.s with b1 := b1, b0 := b0 } }
      (r.1, if gulb0 then ⌊b1 * 2 - 5⌋ :: r.2 else r.2)
  | n + 1, Label.l380, st =>
    match hstSearch st.s st.nmf1 st.f1reg with
    | HstSearch.found _ _ => ([{ hst := true, b1 := st.s.b1, b0 := st.s.b0 }], [])
    | HstSearch.failed xxmin hhmin hf1 =>
      let st1 : Ladder ℝ :=
        { st with iregfa := 2, hhmin := hhmin, hf1 := hf1, tried := st.tried ++ [st.s.b1] }
      let r :=
        if xxmin / st.s.xnme < 1.3 then
          ladderLog gulb0 b0cnew f1top hstSearch n Label.l9244 st1
        else ([], [])
      ({ hst := true, b1 := st.s.b1, b0 := st.s.b0 } :: r.1, r.2)

/-- The matrix with the rows `(2, 1)` and `(1, 3)`. -/
noncomputable def sample2 : ℕ → ℕ → ℝ :=
  fun i j => if i = 1 ∧ j = 1 then 2 else if i = 1 ∧ j = 2 then 1
    else if i = 2 ∧ j = 1 then 1 else if i = 2 ∧ j = 2 then 3 else 0

/-- The right side `(3, 5)`. -/
noncomputable def sampleRhs : ℕ → ℝ :=
  fun i => if i = 1 then 3 else if i = 2 then 5 else 0

/-- The matrix with the diagonal `1`, `1e-7` and zeros elsewhere. -/
noncomputable def tinyLast : ℕ → ℕ → ℝ :=
  fun i j => if i = 1 ∧ j = 1 then 1 else if i = 2 ∧ j = 2 then 1e-7 else 0

/-- The right side `(1, 1e-7)`, for which `tinyLast` has the solution `(1, 1)`. -/
noncomputable def tinyRhs : ℕ → ℝ :=
  fun i => if i = 1 then 1 else if i = 2 then 1e-7 else 0

/-! ## Supporting facts

The facts that several results below share are proved together, one theorem for each part
of the program; a result that uses some of them names them at the start of its proof. -/

/-- Conjunction introduction in which the proof of the second part may use the first. -/
theorem and_of_imp {a b : Prop} (ha : a) (hb : a → b) : a ∧ b := ⟨ha, hb ha⟩

/-! ## Dispatch (C1) -/

/-- C1: for every height and every parameter state, `xe_` is the first matching
case of: `xe1_` if `h >= hmf2`; `xe2_` if `hmf1 <= h < hmf2`; `xe3_` if
`hz <= h < hmf1`; `xe4_` if `hef <= h < hz`; `xe5_` if `hme <= h < hef`; `xe6_`
otherwise.  Only the five heights of the state take part in the selection. -/
theorem xe_dispatch (s : Blocks ℝ) (h : ℝ) :
    xe_ s h =
      if s.hmf2 ≤ h then xe1_ s h
      else if s.hmf1 ≤ h ∧ h < s.hmf2 then xe2_ s h
      else if s.hz ≤ h ∧ h < s.hmf1 then xe3_ s h
      else if s.hef ≤ h ∧ h < s.hz then xe4_ s h
      else if s.hme ≤ h ∧ h < s.hef then xe5_ s h
      else xe6_ s h := by
  delta xe_
  by_cases h1 : h < s.hmf2
  · have n1 : ¬ s.hmf2 ≤ h := not_le.mpr h1
    by_cases h2 : h < s.hmf1
    · have n2 : ¬ s.hmf1 ≤ h := not_le.mpr h2
      by_cases h3 : h < s.hz
      · have n3 : ¬ s.hz ≤ h := not_le.mpr h3
        by_cases h4 : h < s.hef
        · have n4 : ¬ s.hef ≤ h := not_le.mpr h4
          by_cases h5 : h < s.hme
          · have n5 : ¬ s.hme ≤ h := not_le.mpr h5
            simp [h1, h2, h3, h4, h5, n1, n2, n3, n4, n5]
          · have p5 : s.hme ≤ h := not_lt.mp h5
            simp [h1, h2, h3, h4, h5, n1, n2, n3, n4, p5]
        · have p4 : s.hef ≤ h := not_lt.mp h4
          simp [h1, h2, h3, h4, n1, n2, n3, p4]
      · have p3 : s.hz ≤ h := not_lt.mp h3
        simp [h1, h2, h3, n1, n2, p3]
    · have p2 : s.hmf1 ≤ h := not_lt.mp h2
      simp [h1, h2, n1, p2]
  · have p1 : s.hmf2 ≤ h := not_lt.mp h1
    simp [h1, p1]

/-! ## The F2 peak (C2) -/

/-- Values of the topside and bottomside formulas: `xe1_(hmf2) = xnmf2`, `xe2_(hmf2) = xnmf2`,
and `xe1_` written with the clipped exponent; and one pass of the loop `startHeight`. -/
theorem peak_facts :
    -- `xe1_at_hmf2`
    (∀ (s : Blocks ℝ), xe1_ s s.hmf2 = s.xnmf2) ∧
    -- `xe2_at_hmf2`
    (∀ (s : Blocks ℝ) (_ : 0 < s.b1), xe2_ s s.hmf2 = s.xnmf2) ∧
    -- `xe1_eq_clip`
    (∀ (s : Blocks ℝ) (h : ℝ),
        xe1_ s h = s.xnmf2 *
          Real.exp (-(if argmax < |xe1_y s h| then r_sign argmax (xe1_y s h) else xe1_y s h))) ∧
    -- `startHeight_succ`
    (∀ (s : Blocks ℝ) (n : ℕ) (rathh : ℝ),
        startHeight s (n + 1) rathh =
          (let hf1 := s.hef + (s.hmf2 - s.hef) * rathh
           let xf1 := xe3_ s hf1
           if xf1 < s.xnme then startHeight s n (rathh + 0.1) else some (hf1, xf1))) := by
  refine and_of_imp ?_ fun xe1_at_hmf2 => and_of_imp ?_ fun xe2_at_hmf2 =>
    and_of_imp ?_ fun xe1_eq_clip => ?_
  · -- `xe1_at_hmf2`
    intro s
    have h88 : ¬ (88 : ℝ) < 0 := by norm_num
    delta xe1_
    delta argmax; simp [h88]
  · -- `xe2_at_hmf2`
    intro s hb1
    have hz : (0 : ℝ) ^ s.b1 = 0 := Real.zero_rpow (ne_of_gt hb1)
    have h88 : ¬ (88 : ℝ) < 0 := by norm_num
    delta xe2_; delta argmax; simp [hz, h88]
  · -- `xe1_eq_clip`
    intro s h
    exact rfl
  · -- `startHeight_succ`
    intro s n rathh
    exact rfl

/-- C2: at the F2 peak both neighbouring formulas give the peak density: for every
parameter state with `hmf2 ≠ 1000`, `b0 ≠ 0` and `b1 > 0`, `xe1_(hmf2) = xnmf2` and
`xe2_(hmf2) = xnmf2`, hence `xe_(hmf2) = xnmf2` and the two formulas agree there. -/
theorem xe_peak_value (s : Blocks ℝ) (_hh : s.hmf2 ≠ 1000) (_hb0 : s.b0 ≠ 0)
    (hb1 : 0 < s.b1) :
    xe1_ s s.hmf2 = s.xnmf2 ∧ xe2_ s s.hmf2 = s.xnmf2 ∧ xe_ s s.hmf2 = s.xnmf2 ∧
      xe1_ s s.hmf2 = xe2_ s s.hmf2 := by
  obtain ⟨xe1_at_hmf2, xe2_at_hmf2, -, -⟩ := peak_facts
  have a := xe1_at_hmf2 s
  have b := xe2_at_hmf2 s hb1
  refine ⟨a, b, ?_, by rw [a, b]⟩
  have hd : xe_ s s.hmf2 = xe1_ s s.hmf2 := by
    delta xe_
    simp only [lt_irrefl, if_false]
  rw [hd, a]

theorem xe_peak_value_witness :
    scenario.hmf2 ≠ 1000 ∧ scenario.b0 ≠ 0 ∧ 0 < scenario.b1 ∧
      xe1_ scenario 300 = 1000000000000 ∧ xe2_ scenario 300 = 1000000000000 ∧
      xe_ scenario 300 = 1000000000000 :=
  have r := xe_peak_value scenario (by delta scenario; norm_num) (by delta scenario; norm_num)
    (by delta scenario; norm_num)
  ⟨by delta scenario; norm_num, by delta scenario; norm_num, by delta scenario; norm_num,
    r.1, r.2.1, r.2.2.1⟩

/-! ## The ends of the E/valley segment (C3) -/

set_option maxHeartbeats 2000000 in
/-- C3: with the coefficients produced by `tal_(hdeep, depth, width, dlndh)` stored in
`e` and `hef = hme + width` (`hdeep ≠ 0`, `width ≠ 0`, `hdeep ≠ width`), the E/valley
segment starts and ends at the E-peak density, `xe5_(hme) = xnme` and
`xe5_(hef) = xnme`.  The state and the depth are arbitrary, so this covers the day
form with `depth > 0` and the night form with `depth` passed negative. -/
theorem xe5_valley_ends (s : Blocks ℝ) (hdeep depth width dlndh : ℝ) (h0 : hdeep ≠ 0)
    (hw : width ≠ 0) (hne : hdeep ≠ width) :
    xe5_ (s.setValley (tal_ hdeep depth width dlndh) width) s.hme = s.xnme ∧
      xe5_ (s.setValley (tal_ hdeep depth width dlndh) width) (s.hme + width) = s.xnme := by
  have tal_poly_at_width : ∀ (a w z1 z3 : ℝ) (_ : a ≠ 0) (_ : w ≠ 0) (_ : a ≠ w),
        let z4 := a - w
        let spt4 := (z1 * (w - a * 2) * w + z3 * z4 * a) * 2 / (a * w * z4 * z4 * z4)
        let spt3 := z1 * (w * 2 - a * 3) / (a * z4 * z4) - (a * 2 + w) * spt4
        let spt2 := z1 * (-2) / a - a * 2 * spt3 - a * 3 * a * spt4
        let spt1 := z1 - a * (spt2 + a * (spt3 + a * spt4))
        w * w * (spt1 + w * (spt2 + w * (spt3 + w * spt4))) = 0 := by
    -- `tal_poly_at_width`: the polynomial part fitted by `tal_` vanishes at the valley width,
    -- whatever the depth term `z1` and slope term `z3` are.
    intro a w z1 z3 ha hw hne
    intro z4 spt4 spt3 spt2 spt1
    have h4 : a - w ≠ 0 := sub_ne_zero.mpr hne
    simp only [spt1, spt2, spt3, spt4, z4]
    field_simp
    ring
  have tal_fit_at_width : ∀ (hdeep depth width dlndh : ℝ) (_ : hdeep ≠ 0) (_ : width ≠ 0)
        (_ : hdeep ≠ width),
        width * width * ((tal_ hdeep depth width dlndh).spt1 +
          width * ((tal_ hdeep depth width dlndh).spt2 +
          width * ((tal_ hdeep depth width dlndh).spt3 +
          width * (tal_ hdeep depth width dlndh).spt4))) = 0 := by
    intro hdeep depth width dlndh h0 hw hne
    by_cases hd : depth > 0
    · have := tal_poly_at_width hdeep width (-depth / (hdeep * 100 * hdeep))
        (dlndh / (width * 2)) h0 hw hne
      delta tal_
      simpa [hd] using this
    · have := tal_poly_at_width hdeep width
        (Real.log (1 - -depth / 100) / (hdeep * hdeep)) (dlndh / (width * 2)) h0 hw hne
      delta tal_
      simpa [hd] using this
  have hfit := tal_fit_at_width hdeep depth width dlndh h0 hw hne
  constructor
  · cases hn : s.night <;> (delta xe5_; delta Blocks.setValley; simp [hn])
  · cases hn : s.night <;>
      (delta xe5_; delta Blocks.setValley; simp only [hn, add_sub_cancel_left, hfit]) <;>
      simp

theorem xe5_valley_ends_witness :
    (10 : ℝ) ≠ 0 ∧ (20 : ℝ) ≠ 0 ∧ (10 : ℝ) ≠ 20 ∧
      xe5_ (scenario.setValley (tal_ 10 5 20 (1 / 100)) 20) scenario.hme = scenario.xnme ∧
      xe5_ (scenario.setValley (tal_ 10 5 20 (1 / 100)) 20) (scenario.hme + 20)
        = scenario.xnme :=
  have r := xe5_valley_ends scenario 10 5 20 (1 / 100) (by norm_num) (by norm_num)
    (by norm_num)
  ⟨by norm_num, by norm_num, by norm_num, r.1, r.2⟩

/-! ## The transition segment in the root-based mode (C4) -/

set_option maxHeartbeats 1000000 in
/-- C4: in the root-based mode (`hst >= 0`) the transition segment joins its
neighbours: `xe4_(hz) = xe3_(hz)` for every value of `t`; and when the resolver's
root branch has set `hz = (hst + hf1)/2`, `d = hz - hst`, `t = d*d/(hz - hef - d)`
from a root `hst` with `hef < hst <= hf1`, then `xe4_(hef) = xe3_(hst)`. -/
theorem xe4_joins_neighbours (s : Blocks ℝ) (hst hf1 : ℝ) (h0 : 0 ≤ s.hst)
    (hpos : 0 ≤ hst) (h1 : s.hef < hst) (h2 : hst ≤ hf1) :
    xe4_ s s.hz = xe3_ s s.hz ∧
      xe4_ (s.rootBranch hst hf1) (s.rootBranch hst hf1).hef
        = xe3_ (s.rootBranch hst hf1) (s.rootBranch hst hf1).hst := by
  have r_sign_one_mul_abs : ∀ (t : ℝ), r_sign 1 t * |t| = t := by
    intro t
    unfold r_sign
    by_cases ht : t ≥ 0
    · simp [ht, abs_of_nonneg ht]
    · have hneg : t < 0 := not_le.mp ht
      simp [ht, abs_of_neg hneg]
  have xe4_arg_at_hz : ∀ (hz t : ℝ),
        hz + t / 2 - r_sign 1 t * Real.sqrt (t * (hz - hz + t / 4)) = hz := by
    intro hz t
    have h1 : t * (hz - hz + t / 4) = (t / 2) ^ 2 := by ring
    have h2 : Real.sqrt ((t / 2) ^ 2) = |t| / 2 := by
      rw [Real.sqrt_sq_eq_abs, abs_div]
      norm_num
    rw [h1, h2]
    have h3 := r_sign_one_mul_abs t
    linarith [h3, show r_sign 1 t * (|t| / 2) = r_sign 1 t * |t| / 2 by ring]
  have xe4_arg_at_hef : ∀ (hef hst hf1 : ℝ) (_ : hef < hst) (_ : hst ≤ hf1),
        (hst + hf1) / 2 + ((hst + hf1) / 2 - hst) * ((hst + hf1) / 2 - hst) /
              ((hst + hf1) / 2 - hef - ((hst + hf1) / 2 - hst)) / 2 -
            r_sign 1 (((hst + hf1) / 2 - hst) * ((hst + hf1) / 2 - hst) /
              ((hst + hf1) / 2 - hef - ((hst + hf1) / 2 - hst))) *
            Real.sqrt (((hst + hf1) / 2 - hst) * ((hst + hf1) / 2 - hst) /
              ((hst + hf1) / 2 - hef - ((hst + hf1) / 2 - hst)) *
              ((hst + hf1) / 2 - hef + ((hst + hf1) / 2 - hst) * ((hst + hf1) / 2 - hst) /
              ((hst + hf1) / 2 - hef - ((hst + hf1) / 2 - hst)) / 4)) = hst := by
    intro hef hst hf1 h1 h2
    set hz := (hst + hf1) / 2 with hhz
    set d := hz - hst with hd
    have hd0 : 0 ≤ d := by rw [hd, hhz]; linarith
    have hden : 0 < hz - hef - d := by rw [hd]; linarith
    set t := d * d / (hz - hef - d) with ht
    have ht0 : 0 ≤ t := div_nonneg (mul_nonneg hd0 hd0) hden.le
    have hsign : r_sign 1 t = 1 := by
      unfold r_sign
      simp [ht0]
    have hmul : t * (hz - hef - d) = d * d := by
      rw [ht]
      field_simp
    have hsq : t * (hz - hef + t / 4) = (d + t / 2) ^ 2 := by
      have : t * (hz - hef + t / 4) = t * (hz - hef - d) + t * d + t * t / 4 := by ring
      rw [this, hmul]
      ring
    have hnn : 0 ≤ d + t / 2 := by linarith
    rw [hsign, hsq, Real.sqrt_sq hnn]
    rw [hd]
    ring
  constructor
  · have hlt : ¬ s.hst < 0 := not_lt.mpr h0
    delta xe4_
    simp only [hlt, if_false]
    rw [xe4_arg_at_hz]
  · have hlt : ¬ hst < 0 := not_lt.mpr hpos
    have harg := xe4_arg_at_hef s.hef hst hf1 h1 h2
    delta xe4_
    delta Blocks.rootBranch; simp only [hlt, if_false]
    rw [harg]

theorem xe4_joins_neighbours_witness :
    (0 : ℝ) ≤ scenario.hst ∧ (0 : ℝ) ≤ 190 ∧ scenario.hef < 190 ∧ (190 : ℝ) ≤ 220 ∧
      xe4_ scenario scenario.hz = xe3_ scenario scenario.hz ∧
      xe4_ (scenario.rootBranch 190 220) (scenario.rootBranch 190 220).hef
        = xe3_ (scenario.rootBranch 190 220) (scenario.rootBranch 190 220).hst :=
  have r := xe4_joins_neighbours scenario 190 220 (by delta scenario; norm_num) (by norm_num)
    (by delta scenario; norm_num) (by norm_num)
  ⟨by delta scenario; norm_num, by norm_num, by delta scenario; norm_num, by norm_num, r.1, r.2⟩

/-! ## The linear fallback (C5) -/

/-- Facts about the linear fallback: `xe3_` does not read the fields the loop sets, `xe4_` in
the linear state, and the state and the margin with which the loop is left. -/
theorem linearFallback_facts :
    -- `xe3_set_boundary`
    (∀ (s : Blocks ℝ) (a b c h : ℝ),
        xe3_ { s with hz := a, t := b, hst := c } h = xe3_ s h) ∧
    -- `xe3_set_hz`
    (∀ (s : Blocks ℝ) (a h : ℝ), xe3_ { s with hz := a } h = xe3_ s h) ∧
    -- `xe4_linear_state`
    (∀ (s : Blocks ℝ) (_ : s.hst = -333)
        (_ : s.t = (xe3_ s s.hz - s.xnme) / (s.hz - s.hef)),
        (∀ h, xe4_ s h = s.xnme + s.t * (h - s.hef)) ∧
          (s.hz ≠ s.hef → xe4_ s s.hef = s.xnme ∧ xe4_ s s.hz = xe3_ s s.hz)) ∧
    -- `linearFallback_zero`
    (∀ (s : Blocks ℝ) (hhmin hf1 rrrr : ℝ),
        linearFallback s hhmin hf1 0 rrrr = none) ∧
    -- `linearFallback_succ`
    (∀ (s : Blocks ℝ) (hhmin hf1 : ℝ) (n : ℕ) (rrrr : ℝ),
        linearFallback s hhmin hf1 (n + 1) rrrr =
          (let s1 : Blocks ℝ := { s with hz := hhmin + (hf1 - hhmin) * rrrr }
           let xnehz := xe3_ s1 s1.hz
           if xnehz - s1.xnme < 0.001 then linearFallback s1 hhmin hf1 n (rrrr + 0.1)
           else some { s1 with t := (xnehz - s1.xnme) / (s1.hz - s1.hef), hst := -333 })) ∧
    -- `linearFallback_exit`
    (∀ (s : Blocks ℝ) (hhmin hf1 rrrr : ℝ) (n : ℕ)
        (_ : ¬ (xe3_ s (hhmin + (hf1 - hhmin) * rrrr) - s.xnme < 0.001)),
        linearFallback s hhmin hf1 (n + 1) rrrr =
          some { s with hz := hhmin + (hf1 - hhmin) * rrrr,
                        t := (xe3_ s (hhmin + (hf1 - hhmin) * rrrr) - s.xnme) /
                          (hhmin + (hf1 - hhmin) * rrrr - s.hef),
                        hst := -333 }) ∧
    -- `linearFallback_result`
    (∀ (n : ℕ),
        ∀ (s : Blocks ℝ) (hhmin hf1 rrrr : ℝ) (m : ℕ), m < n →
          ¬ (xe3_ s (hhmin + (hf1 - hhmin) * (rrrr + m * 0.1)) - s.xnme < 0.001) →
          ∃ s1, linearFallback s hhmin hf1 n rrrr = some s1 ∧ s1.xnme = s.xnme ∧
            s1.hef = s.hef ∧ s1.hst = -333 ∧
            s1.t = (xe3_ s1 s1.hz - s1.xnme) / (s1.hz - s1.hef)) ∧
    -- `scenario_fallback_exit`
    (¬ (xe3_ scenario (300 + (300 - 300) * (1 / 2 + ((0 : ℕ) : ℝ) * 0.1)) - scenario.xnme
          < 0.001)) ∧
    -- `xe3_set_slope`
    (∀ (s : Blocks ℝ) (b c h : ℝ),
        xe3_ { s with t := b, hst := c } h = xe3_ s h) ∧
    -- `linearFallback_margin`
    (∀ (n : ℕ),
        ∀ (s : Blocks ℝ) (hhmin hf1 rrrr : ℝ) (s1 : Blocks ℝ),
          linearFallback s hhmin hf1 n rrrr = some s1 →
          0.001 ≤ xe3_ s1 s1.hz - s1.xnme) := by
  obtain ⟨-, xe2_at_hmf2, -, -⟩ := peak_facts
  refine and_of_imp ?_ fun xe3_set_boundary => and_of_imp ?_ fun xe3_set_hz =>
    and_of_imp ?_ fun xe4_linear_state => and_of_imp ?_ fun linearFallback_zero =>
    and_of_imp ?_ fun linearFallback_succ => and_of_imp ?_ fun linearFallback_exit =>
    and_of_imp ?_ fun linearFallback_result => and_of_imp ?_ fun scenario_fallback_exit =>
    and_of_imp ?_ fun xe3_set_slope => ?_
  · -- `xe3_set_boundary`: the F1-layer formula does not read `hz`, `t` or `hst`.
    intro s a b c h
    delta xe3_ xe2_; try dsimp only
  · -- `xe3_set_hz`
    intro s a h
    delta xe3_ xe2_; try dsimp only
  · -- `xe4_linear_state`: In a state with the sentinel `hst = -333` and the slope `t` of the
    -- fallback, the transition segment is the straight line through `(hef, xnme)` and `(hz,
    -- xe3_(hz))`.
    intro s hs ht
    have hneg : s.hst < 0 := by rw [hs]; norm_num
    have hall : ∀ h, xe4_ s h = s.xnme + s.t * (h - s.hef) := by
      intro h
      delta xe4_
      simp [hneg]
    refine ⟨hall, fun hne => ⟨?_, ?_⟩⟩
    · rw [hall]; simp
    · rw [hall, ht]
      have hd : s.hz - s.hef ≠ 0 := sub_ne_zero.mpr hne
      field_simp
  · -- `linearFallback_zero`
    intro s hhmin hf1 rrrr
    exact rfl
  · -- `linearFallback_succ`
    intro s hhmin hf1 n rrrr
    exact rfl
  · -- `linearFallback_exit`
    intro s hhmin hf1 rrrr n hexit
    have hx : xe3_ { s with hz := hhmin + (hf1 - hhmin) * rrrr } (hhmin + (hf1 - hhmin) * rrrr)
        = xe3_ s (hhmin + (hf1 - hhmin) * rrrr) := xe3_set_hz s _ _
    simp only [linearFallback_succ, hx, hexit, if_false]
  · -- `linearFallback_result`
    intro n
    induction n with
    | zero => intro s hhmin hf1 rrrr m hm; omega
    | succ n ih =>
      intro s hhmin hf1 rrrr m hm hexit
      by_cases hnow : xe3_ s (hhmin + (hf1 - hhmin) * rrrr) - s.xnme < 0.001
      · -- the loop goes round once more
        have hm0 : m ≠ 0 := by
          rintro rfl
          simp at hexit
          linarith
        obtain ⟨k, rfl⟩ := Nat.exists_eq_succ_of_ne_zero hm0
        have hx : xe3_ { s with hz := hhmin + (hf1 - hhmin) * rrrr }
            (hhmin + (hf1 - hhmin) * rrrr) = xe3_ s (hhmin + (hf1 - hhmin) * rrrr) :=
          xe3_set_hz s _ _
        have hstep : linearFallback s hhmin hf1 (n + 1) rrrr =
            linearFallback { s with hz := hhmin + (hf1 - hhmin) * rrrr } hhmin hf1 n
              (rrrr + 0.1) := by
          simp only [linearFallback_succ, hx, hnow, if_true]
        have hexit1 : ¬ (xe3_ { s with hz := hhmin + (hf1 - hhmin) * rrrr }
            (hhmin + (hf1 - hhmin) * (rrrr + 0.1 + k * 0.1)) -
            ({ s with hz := hhmin + (hf1 - hhmin) * rrrr } : Blocks ℝ).xnme < 0.001) := by
          have e : rrrr + 0.1 + (k : ℝ) * 0.1 = rrrr + ((k + 1 : ℕ) : ℝ) * 0.1 := by
            push_cast; ring
          rw [xe3_set_hz, e]
          exact hexit
        obtain ⟨s1, hrun, hx1, hx2, hx3, hx4⟩ :=
          ih { s with hz := hhmin + (hf1 - hhmin) * rrrr } hhmin hf1 (rrrr + 0.1) k
            (by omega) hexit1
        exact ⟨s1, by rw [hstep, hrun], hx1, hx2, hx3, hx4⟩
      · refine ⟨_, linearFallback_exit s hhmin hf1 rrrr n hnow, rfl, rfl, rfl, ?_⟩
        have hb := xe3_set_boundary s (hhmin + (hf1 - hhmin) * rrrr)
          ((xe3_ s (hhmin + (hf1 - hhmin) * rrrr) - s.xnme) /
            (hhmin + (hf1 - hhmin) * rrrr - s.hef)) (-333) (hhmin + (hf1 - hhmin) * rrrr)
        exact congrArg (fun v => (v - s.xnme) / (hhmin + (hf1 - hhmin) * rrrr - s.hef)) hb.symm
  · -- `scenario_fallback_exit`
    have h300 : (300 : ℝ) + (300 - 300) * (1 / 2 + ((0 : ℕ) : ℝ) * 0.1) = scenario.hmf2 := by
      delta scenario; norm_num
    have hx2 : xe2_ scenario scenario.hmf2 = scenario.xnmf2 :=
      xe2_at_hmf2 scenario (by delta scenario; norm_num)
    have hsq : 0 ≤ scenario.xnmf2 * scenario.c1 *
        Real.sqrt (|scenario.hmf1 - scenario.hmf2| / scenario.b0) :=
      mul_nonneg (by delta scenario; norm_num) (Real.sqrt_nonneg _)
    rw [h300]
    delta xe3_
    rw [hx2]
    have hv : scenario.xnmf2 - scenario.xnme = 850000000000 := by delta scenario; norm_num
    have h1 : (0.001 : ℝ) < 850000000000 := by norm_num
    linarith
  · -- `xe3_set_slope`
    intro s b c h
    delta xe3_ xe2_; try dsimp only
  · -- `linearFallback_margin`: Whenever the loop at `L8922` is left, the last test `xe3_(hz) -
    -- nme < 0.001` has failed: the density at `hz` exceeds `nme` by at least 0.001.
    intro n
    induction n with
    | zero =>
      intro s hhmin hf1 rrrr s1 h
      simp [linearFallback_zero] at h
    | succ n ih =>
      intro s hhmin hf1 rrrr s1 h
      by_cases hnow : xe3_ { s with hz := hhmin + (hf1 - hhmin) * rrrr }
          (hhmin + (hf1 - hhmin) * rrrr) - s.xnme < 0.001
      · simp only [linearFallback_succ, hnow, if_true] at h
        exact ih _ _ _ _ _ h
      · simp only [linearFallback_succ, hnow, if_false, Option.some.injEq] at h
        rw [← h]
        simp only [xe3_set_slope]
        exact not_lt.mp hnow

/-- C15: with the guard 88 and `d = (x - hx)/sc`, `sc ≠ 0`: for `d >= 88`, `eptr_`
returns `d`, `epst_` returns 1 and `epla_` returns 0; for `d <= -88` all three return
0; for `|d| < 88` they return `ln(1 + e^d)`, `1/(1 + e^-d)` and `e^d/(1 + e^d)^2`. -/
theorem epstein_guard (x sc hx : ℝ) (_hsc : sc ≠ 0) :
    (88 ≤ (x - hx) / sc →
      eptr_ x sc hx = (x - hx) / sc ∧ epst_ x sc hx = 1 ∧ epla_ x sc hx = 0) ∧
    ((x - hx) / sc ≤ -88 →
      eptr_ x sc hx = 0 ∧ epst_ x sc hx = 0 ∧ epla_ x sc hx = 0) ∧
    (|(x - hx) / sc| < 88 →
      eptr_ x sc hx = Real.log (1 + Real.exp ((x - hx) / sc)) ∧
      epst_ x sc hx = 1 / (1 + Real.exp (-((x - hx) / sc))) ∧
      epla_ x sc hx = Real.exp ((x - hx) / sc) / (1 + Real.exp ((x - hx) / sc)) ^ 2) := by
  refine ⟨fun h => ?_, fun h => ?_, fun h => ?_⟩
  · have h1 : ¬ |(x - hx) / sc| < 88 := by
      rw [abs_of_nonneg (by linarith)]
      linarith
    have h2 : (x - hx) / sc > 0 := by linarith
    delta eptr_ epst_ epla_; delta argmax; simp only [h1, h2, if_false, if_true, and_self]
  · have h1 : ¬ |(x - hx) / sc| < 88 := by
      rw [abs_of_nonpos (by linarith)]
      linarith
    have h2 : ¬ (x - hx) / sc > 0 := by linarith
    delta eptr_ epst_ epla_; delta argmax; simp only [h1, h2, if_false, and_self]
  · delta eptr_ epst_ epla_; delta argmax; simp only [h, if_true]
    refine ⟨by rw [add_comm], by rw [add_comm], ?_⟩
    rw [add_comm, sq]

theorem epstein_guard_witness :
    (100 : ℝ) ≠ 0 ∧ eptr_ 8800 100 0 = (8800 - 0) / 100 ∧ epst_ 8800 100 0 = 1 ∧
      epla_ 8800 100 0 = 0 :=
  ⟨by norm_num, (epstein_guard 8800 100 0 (by norm_num)).1 (by norm_num)⟩

/-- C16 (counterexample): at `x = -8800`, `sc = 100`, `hx = 0` the normalized argument
is `d = -88`, so `|d| >= 88`, and `eptr_` returns 0, not `|d| = 88`. -/
theorem eptr_negative_saturation :
    |((-8800 : ℝ) - 0) / 100| ≥ 88 ∧ eptr_ (-8800) 100 0 = 0 ∧
      eptr_ (-8800) 100 0 ≠ |((-8800 : ℝ) - 0) / 100| := by
  have hd : ((-8800 : ℝ) - 0) / 100 = -88 := by norm_num
  have ha : |(-88 : ℝ)| = 88 := by norm_num [abs_of_neg]
  have h0 : eptr_ (-8800) 100 0 = 0 := by
    delta eptr_; delta argmax; simp only [hd, ha]
    norm_num
  refine ⟨by rw [hd, ha], h0, ?_⟩
  rw [h0, hd, ha]
  norm_num

/-- C16 (amended): for `|d| >= 88` with `d = (x - hx)/sc`, `eptr_` returns `d` when
`d > 0` and 0 when `d < 0`, that is `max d 0`; it equals `|d|` exactly when `d >= 88`. -/
theorem eptr_saturation (x sc hx : ℝ) (h : 88 ≤ |(x - hx) / sc|) :
    eptr_ x sc hx = max ((x - hx) / sc) 0 ∧
      (88 ≤ (x - hx) / sc → eptr_ x sc hx = |(x - hx) / sc|) ∧
      ((x - hx) / sc ≤ -88 → eptr_ x sc hx = 0) := by
  have h1 : ¬ |(x - hx) / sc| < 88 := not_lt.mpr h
  by_cases h2 : (x - hx) / sc > 0
  · have e : eptr_ x sc hx = (x - hx) / sc := by
      delta eptr_; delta argmax; simp only [h1, h2, if_false, if_true]
    refine ⟨by rw [e, max_eq_left h2.le], fun _ => by rw [e, abs_of_pos h2], fun h3 => ?_⟩
    linarith
  · have e : eptr_ x sc hx = 0 := by
      delta eptr_; delta argmax; simp only [h1, h2, if_false]
    refine ⟨by rw [e, max_eq_right (not_lt.mp h2)], fun h3 => ?_, fun _ => e⟩
    linarith

theorem eptr_saturation_witness :
    (88 : ℝ) ≤ |((-8800 : ℝ) - 0) / 100| ∧
      eptr_ (-8800) 100 0 = max (((-8800 : ℝ) - 0) / 100) 0 :=
  have h : (88 : ℝ) ≤ |((-8800 : ℝ) - 0) / 100| := by
    have hd : ((-8800 : ℝ) - 0) / 100 = -88 := by norm_num
    rw [hd]
    norm_num [abs_of_neg]
  ⟨h, (eptr_saturation (-8800) 100 0 h).1⟩

set_option maxHeartbeats 4000000 in
/-- Facts about the topside formula: the derivatives of `eptr_`, of the exponent `xe1_y` and of
`xe1_`, and the state `topsideExample` on the heights 300 to 301. -/
theorem topside_facts :
    -- `epstein_unsaturated_nhds`
    (∀ (x sc hx : ℝ) (_ : |(x - hx) / sc| < 88),
        ∀ᶠ y in nhds x, |(y - hx) / sc| < 88) ∧
    -- `eptr_hasDerivAt`
    (∀ (x sc hx : ℝ) (_ : sc ≠ 0) (_ : |(x - hx) / sc| < 88),
        HasDerivAt (fun y => eptr_ y sc hx) (epst_ x sc hx / sc) x) ∧
    -- `dxe1n_eq`
    (∀ (s : Blocks ℝ) (h : ℝ) (_ : s.hmf2 ≠ 1000),
        dxe1n_ s h = -s.eta * epst_ (xe1_x s h) s.beta 394.5 +
          s.zeta * (1 - epst_ (xe1_x s h) 100 300)) ∧
    -- `xe1_y_hasDerivAt`
    (∀ (s : Blocks ℝ) (h : ℝ) (_ : s.hmf2 ≠ 1000) (_ : s.beta ≠ 0)
        (_ : TopsideUnsaturated s h), HasDerivAt (xe1_y s) (-dxe1n_ s h) h) ∧
    -- `xe1_hasDerivAt`
    (∀ (s : Blocks ℝ) (h : ℝ) (_ : s.hmf2 ≠ 1000) (_ : s.beta ≠ 0)
        (_ : TopsideUnsaturated s h),
        HasDerivAt (xe1_ s) (s.xnmf2 * Real.exp (-xe1_y s h) * dxe1n_ s h) h) ∧
    -- `exp_two_lt_eight`
    (Real.exp 2 < 8) ∧
    -- `eptr_bounds`
    (∀ (x sc hx : ℝ) (_ : 0 ≤ (x - hx) / sc) (_ : (x - hx) / sc ≤ 2),
        0 < eptr_ x sc hx ∧ eptr_ x sc hx < 8) ∧
    -- `topsideExample_x`
    (∀ (h : ℝ), xe1_x topsideExample h = h - 50) ∧
    -- `topsideExample_unsaturated`
    (∀ (h : ℝ) (_ : h ∈ Set.Icc (300 : ℝ) 301),
        TopsideUnsaturated topsideExample h) ∧
    -- `topsideExample_slope`
    (∀ (h : ℝ) (_ : h ∈ Set.Icc (300 : ℝ) 301),
        dxe1n_ topsideExample h < 0) := by
  obtain ⟨-, -, xe1_eq_clip, -⟩ := peak_facts
  refine and_of_imp ?_ fun epstein_unsaturated_nhds => and_of_imp ?_ fun eptr_hasDerivAt =>
    and_of_imp ?_ fun dxe1n_eq => and_of_imp ?_ fun xe1_y_hasDerivAt =>
    and_of_imp ?_ fun xe1_hasDerivAt => and_of_imp ?_ fun exp_two_lt_eight =>
    and_of_imp ?_ fun eptr_bounds => and_of_imp ?_ fun topsideExample_x =>
    and_of_imp ?_ fun topsideExample_unsaturated => ?_
  · -- `epstein_unsaturated_nhds`
    intro x sc hx hd
    have hc : ContinuousAt (fun y : ℝ => |(y - hx) / sc|) x := by fun_prop
    exact hc.eventually (Iio_mem_nhds hd)
  · -- `eptr_hasDerivAt`
    intro x sc hx hsc hd
    have hnear := epstein_unsaturated_nhds x sc hx hd
    have hu : HasDerivAt (fun y : ℝ => (y - hx) / sc) (1 / sc) x :=
      ((hasDerivAt_id x).sub_const hx).div_const sc
    have hpos : 0 < Real.exp ((x - hx) / sc) := Real.exp_pos _
    have heq : (fun y => eptr_ y sc hx) =ᶠ[nhds x]
        fun y => Real.log (Real.exp ((y - hx) / sc) + 1) :=
      hnear.mono (fun y hy => by delta eptr_; delta argmax; simp only [hy, if_true])
    have hg : HasDerivAt (fun y : ℝ => Real.exp ((y - hx) / sc) + 1)
        (Real.exp ((x - hx) / sc) * (1 / sc)) x := (hu.exp).add_const 1
    have hne : Real.exp ((x - hx) / sc) + 1 ≠ 0 := by linarith
    have hq := hg.log hne
    refine (hq.congr_of_eventuallyEq heq).congr_deriv ?_
    delta epst_; delta argmax; simp only [hd, if_true]
    rw [Real.exp_neg]
    field_simp
    ring
  · -- `dxe1n_eq`
    intro s h hh
    have h1 : (1000 : ℝ) - s.hmf2 ≠ 0 := sub_ne_zero.mpr (Ne.symm hh)
    have e : (h - s.hmf2) / (1000 - s.hmf2) * 700 + (300 - s.delta) = xe1_x s h := by
      delta xe1_x
      field_simp
    delta dxe1n_
    simp only [e]
  · -- `xe1_y_hasDerivAt`: Where no guard is active, the exponent of `xe1_` has the derivative
    -- `-dxe1n_`.
    intro s h hh hb hu
    have h1 : (1000 : ℝ) - s.hmf2 ≠ 0 := sub_ne_zero.mpr (Ne.symm hh)
    have hdx : ((1000 : ℝ) - s.hmf2) / 700 ≠ 0 := div_ne_zero h1 (by norm_num)
    have hm : HasDerivAt (fun y : ℝ => (y - s.hmf2) / ((1000 - s.hmf2) / 700))
        (1 / ((1000 - s.hmf2) / 700)) h :=
      ((hasDerivAt_id h).sub_const s.hmf2).div_const _
    have hx : HasDerivAt (xe1_x s) (1 / ((1000 - s.hmf2) / 700)) h := hm.add_const _
    have he1 := (eptr_hasDerivAt (xe1_x s h) s.beta 394.5 hb hu.1).comp h hx
    have he2 := (eptr_hasDerivAt (xe1_x s h) 100 300 (by norm_num) hu.2.1).comp h hx
    have hy := ((((he1.sub_const (eptr_ (300 - s.delta) s.beta 394.5)).const_mul
      (s.beta * s.eta)).add ((((he2.sub_const (eptr_ (300 - s.delta) 100 300)).mul_const
        100).sub hm).const_mul s.zeta)).mul_const ((1000 - s.hmf2) / 700))
    have hy1 : HasDerivAt (xe1_y s) _ h := hy
    refine hy1.congr_deriv ?_
    rw [dxe1n_eq s h hh]
    field_simp
    ring
  · -- `xe1_hasDerivAt`: Where no guard is active, `xe1_` has the logarithmic derivative
    -- `dxe1n_`.
    intro s h hh hb hu
    have hy := xe1_y_hasDerivAt s h hh hb hu
    have hnear : ∀ᶠ z in nhds h, |xe1_y s z| < 88 :=
      (continuous_abs.continuousAt.comp hy.continuousAt).eventually (Iio_mem_nhds hu.2.2)
    have heq : xe1_ s =ᶠ[nhds h] fun z => s.xnmf2 * Real.exp (-xe1_y s z) :=
      hnear.mono (fun z hz => by
        have hn : ¬ argmax < |xe1_y s z| := not_lt.mpr hz.le
        rw [xe1_eq_clip]
        simp only [hn, if_false])
    have hd := (hy.neg.exp).const_mul s.xnmf2
    refine (hd.congr_of_eventuallyEq heq).congr_deriv ?_
    ring
  · -- `exp_two_lt_eight`
    have h1 := Real.exp_one_lt_d9
    have hp := Real.exp_pos 1
    have e : Real.exp 2 = Real.exp 1 * Real.exp 1 := by
      rw [← Real.exp_add]
      norm_num
    rw [e]
    nlinarith
  · -- `eptr_bounds`
    intro x sc hx h0 h2
    have hd : |(x - hx) / sc| < 88 := by
      rw [abs_of_nonneg h0]
      linarith
    have hpos : 0 < Real.exp ((x - hx) / sc) := Real.exp_pos _
    have hle : Real.exp ((x - hx) / sc) ≤ Real.exp 2 := Real.exp_le_exp.mpr h2
    have h8 := exp_two_lt_eight
    delta eptr_; delta argmax; simp only [hd, if_true]
    constructor
    · exact Real.log_pos (by linarith)
    · have := Real.log_le_sub_one_of_pos (show 0 < Real.exp ((x - hx) / sc) + 1 by linarith)
      linarith
  · -- `topsideExample_x`
    intro h
    delta xe1_x; delta topsideExample scenario; try dsimp only
    norm_num
    ring
  · -- `topsideExample_unsaturated`
    intro h hm
    obtain ⟨ha, hb⟩ := hm
    have hx := topsideExample_x h
    have hbeta : topsideExample.beta = -128 := rfl
    refine ⟨?_, ?_, ?_⟩
    · rw [hx, hbeta, abs_lt]
      constructor
      · rw [lt_div_iff_of_neg (by norm_num)]
        linarith
      · rw [div_lt_iff_of_neg (by norm_num)]
        linarith
    · rw [hx, abs_lt]
      constructor
      · rw [lt_div_iff₀ (by norm_num)]
        linarith
      · rw [div_lt_iff₀ (by norm_num)]
        linarith
    · have hy : xe1_y topsideExample h =
          -128 * (3 / 50) * (eptr_ (h - 50) (-128) 394.5 - eptr_ 250 (-128) 394.5) := by
        delta xe1_y
        delta topsideExample scenario; try dsimp only
        norm_num
        rw [show h - 300 + 250 = h - 50 by ring]
      have b1 := eptr_bounds (h - 50) (-128) 394.5
        (by rw [le_div_iff_of_neg (by norm_num)]; linarith)
        (by rw [div_le_iff_of_neg (by norm_num)]; linarith)
      have b2 := eptr_bounds 250 (-128) 394.5 (by norm_num) (by norm_num)
      rw [hy, abs_lt]
      constructor <;> linarith [b1.1, b1.2, b2.1, b2.2]
  · -- `topsideExample_slope`
    intro h hm
    have hu := topsideExample_unsaturated h hm
    rw [dxe1n_eq topsideExample h (by delta topsideExample scenario; norm_num)]
    have hp : 0 < epst_ (xe1_x topsideExample h) topsideExample.beta 394.5 := by
      delta epst_; delta argmax; simp only [hu.1, if_true]
      positivity
    have e1 : topsideExample.eta = 3 / 50 := rfl
    have e2 : topsideExample.zeta = 0 := rfl
    rw [e1, e2]
    linarith

/-- C17: for `sc ≠ 0` and `|(x - hx)/sc| < 88`, the derivative of `epst_` with respect
to `x` is `epla_/sc` and the derivative of `eptr_` with respect to `x` is `epst_/sc`. -/
theorem epstein_derivatives (x sc hx : ℝ) (hsc : sc ≠ 0) (hd : |(x - hx) / sc| < 88) :
    HasDerivAt (fun y => epst_ y sc hx) (epla_ x sc hx / sc) x ∧
      HasDerivAt (fun y => eptr_ y sc hx) (epst_ x sc hx / sc) x := by
  obtain ⟨epstein_unsaturated_nhds, -, -, -, -, -, -, -, -, -⟩ := topside_facts
  have hnear := epstein_unsaturated_nhds x sc hx hd
  have hu : HasDerivAt (fun y : ℝ => (y - hx) / sc) (1 / sc) x :=
    ((hasDerivAt_id x).sub_const hx).div_const sc
  have hpos : 0 < Real.exp ((x - hx) / sc) := Real.exp_pos _
  have hposn : 0 < Real.exp (-((x - hx) / sc)) := Real.exp_pos _
  constructor
  · have heq : (fun y => epst_ y sc hx) =ᶠ[nhds x]
        fun y => 1 / (Real.exp (-((y - hx) / sc)) + 1) :=
      hnear.mono (fun y hy => by delta epst_; delta argmax; simp only [hy, if_true])
    have hg : HasDerivAt (fun y : ℝ => Real.exp (-((y - hx) / sc)) + 1)
        (Real.exp (-((x - hx) / sc)) * -(1 / sc)) x := (hu.neg.exp).add_const 1
    have hne : Real.exp (-((x - hx) / sc)) + 1 ≠ 0 := by linarith
    have hq := (hasDerivAt_const x (1 : ℝ)).div hg hne
    refine (hq.congr_of_eventuallyEq heq).congr_deriv ?_
    delta epla_; delta argmax; simp only [hd, if_true]
    rw [Real.exp_neg]
    field_simp
    ring
  · have heq : (fun y => eptr_ y sc hx) =ᶠ[nhds x]
        fun y => Real.log (Real.exp ((y - hx) / sc) + 1) :=
      hnear.mono (fun y hy => by delta eptr_; delta argmax; simp only [hy, if_true])
    have hg : HasDerivAt (fun y : ℝ => Real.exp ((y - hx) / sc) + 1)
        (Real.exp ((x - hx) / sc) * (1 / sc)) x := (hu.exp).add_const 1
    have hne : Real.exp ((x - hx) / sc) + 1 ≠ 0 := by linarith
    have hq := hg.log hne
    refine (hq.congr_of_eventuallyEq heq).congr_deriv ?_
    delta epst_; delta argmax; simp only [hd, if_true]
    rw [Real.exp_neg]
    field_simp
    ring

theorem epstein_derivatives_witness :
    (100 : ℝ) ≠ 0 ∧ |((0 : ℝ) - 0) / 100| < 88 ∧
      HasDerivAt (fun y => epst_ y 100 0) (epla_ 0 100 0 / 100) 0 ∧
      HasDerivAt (fun y => eptr_ y 100 0) (epst_ 0 100 0 / 100) 0 :=
  ⟨by norm_num, by norm_num, epstein_derivatives 0 100 0 (by norm_num) (by norm_num)⟩

/-- C18 (counterexample): at `sc = 0` (here `x = 1`, `hx = 0`) the opening quotient
`(x - hx)/sc` of each of the three functions is a division by zero. -/
theorem epstein_zero_scale :
    eptrChecked 1 0 0 = none ∧ epstChecked 1 0 0 = none ∧ eplaChecked 1 0 0 = none := by
  delta eptrChecked epstChecked eplaChecked
  simp

/-- C18 (amended): for every `x`, `hx` and every scale `sc ≠ 0` the three functions
return a value and no operation is undefined: the quotient has a nonzero divisor, the
logarithm in `eptr_` has a positive argument, and the divisors `exp(-d) + 1` of `epst_`
and `d2*d2` of `epla_` are nonzero. -/
theorem epstein_total (x sc hx : ℝ) (hsc : sc ≠ 0) :
    eptrChecked x sc hx = some (eptr_ x sc hx) ∧
      epstChecked x sc hx = some (epst_ x sc hx) ∧
      eplaChecked x sc hx = some (epla_ x sc hx) ∧
      0 < Real.exp ((x - hx) / sc) + 1 ∧
      Real.exp (-((x - hx) / sc)) + 1 ≠ 0 ∧
      (Real.exp ((x - hx) / sc) + 1) * (Real.exp ((x - hx) / sc) + 1) ≠ 0 := by
  have h1 : 0 < Real.exp ((x - hx) / sc) + 1 := by positivity
  have h2 : 0 < Real.exp (-((x - hx) / sc)) + 1 := by positivity
  refine ⟨by delta eptrChecked; simp [hsc], by delta epstChecked; simp [hsc],
    by delta eplaChecked; simp [hsc],
    h1, ne_of_gt h2, mul_ne_zero (ne_of_gt h1) (ne_of_gt h1)⟩

theorem epstein_total_witness :
    (100 : ℝ) ≠ 0 ∧ eptrChecked 8800 100 0 = some (eptr_ 8800 100 0) ∧
      epstChecked 8800 100 0 = some (epst_ 8800 100 0) ∧
      eplaChecked 8800 100 0 = some (epla_ 8800 100 0) :=
  have r := epstein_total 8800 100 0 (by norm_num)
  ⟨by norm_num, r.1, r.2.1, r.2.2.1⟩

/-! ## The valley fit (C11 - C14) -/

set_option maxHeartbeats 4000000 in
/-- Facts about the valley fit `tal_`: its coefficients, the values and the derivative of the
polynomial they define, and the meaning of the extremum flag. -/
theorem tal_facts :
    -- `tal_coeffs`
    (∀ (a d w s : ℝ),
        ∃ z1 : ℝ, (d > 0 → z1 = -d / (a * 100 * a)) ∧
          (¬ d > 0 → z1 = Real.log (1 - -d / 100) / (a * a)) ∧
          (tal_ a d w s).spt4 = (z1 * (w - a * 2) * w + s / (w * 2) * (a - w) * a) * 2 /
            (a * w * (a - w) * (a - w) * (a - w)) ∧
          (tal_ a d w s).spt3 = z1 * (w * 2 - a * 3) / (a * (a - w) * (a - w)) -
            (a * 2 + w) * (tal_ a d w s).spt4 ∧
          (tal_ a d w s).spt2 = z1 * (-2) / a - a * 2 * (tal_ a d w s).spt3 -
            a * 3 * a * (tal_ a d w s).spt4 ∧
          (tal_ a d w s).spt1 = z1 - a * ((tal_ a d w s).spt2 +
            a * ((tal_ a d w s).spt3 + a * (tal_ a d w s).spt4))) ∧
    -- `tal_at_deepest`
    (∀ (a z1 s1 s2 s3 s4 : ℝ) (_ : a ≠ 0)
        (_ : s2 = z1 * (-2) / a - a * 2 * s3 - a * 3 * a * s4)
        (_ : s1 = z1 - a * (s2 + a * (s3 + a * s4))),
        s1 * a ^ 2 + s2 * a ^ 3 + s3 * a ^ 4 + s4 * a ^ 5 = a * a * z1 ∧
          2 * s1 * a + 3 * s2 * a ^ 2 + 4 * s3 * a ^ 3 + 5 * s4 * a ^ 4 = 0) ∧
    -- `tal_at_width`
    (∀ (a w z1 z3 s1 s2 s3 s4 : ℝ) (_ : a ≠ 0) (_ : w ≠ 0) (_ : a ≠ w)
        (_ : s4 = (z1 * (w - a * 2) * w + z3 * (a - w) * a) * 2 /
          (a * w * (a - w) * (a - w) * (a - w)))
        (_ : s3 = z1 * (w * 2 - a * 3) / (a * (a - w) * (a - w)) - (a * 2 + w) * s4)
        (_ : s2 = z1 * (-2) / a - a * 2 * s3 - a * 3 * a * s4)
        (_ : s1 = z1 - a * (s2 + a * (s3 + a * s4))),
        s1 * w ^ 2 + s2 * w ^ 3 + s3 * w ^ 4 + s4 * w ^ 5 = 0 ∧
          2 * s1 * w + 3 * s2 * w ^ 2 + 4 * s3 * w ^ 3 + 5 * s4 * w ^ 4 = 2 * w * z3) ∧
    -- `ite_true_decide`
    (∀ (P Q : Prop) [Decidable P] [Decidable Q],
        (if P then true else decide Q) = true ↔ P ∨ Q) ∧
    -- `tal_aus6_iff_root`
    (∀ (a w s1 s3 s4 : ℝ),
        tal_aus6 a w s1 s3 s4 = true ↔
          ∃ x, 0 < x ∧ x < w ∧
            x * x + (s3 * 4 / (s4 * 5) + a) * x + s1 * (-2) / (s4 * 5 * a) = 0) ∧
    -- `tal_example_spt4`
    ((tal_ 10 5 20 (1 / 100)).spt4 ≠ 0) := by
  refine and_of_imp ?_ fun tal_coeffs => and_of_imp ?_ fun tal_at_deepest =>
    and_of_imp ?_ fun tal_at_width => and_of_imp ?_ fun ite_true_decide =>
    and_of_imp ?_ fun tal_aus6_iff_root => ?_
  · -- `tal_coeffs`: the coefficients returned by `tal_`, written over the depth term `z1`.
    intro a d w s
    refine ⟨if d > 0 then -d / (a * 100 * a)
      else Real.log (1 - (if d > 0 then d else -d) / 100) / (a * a), ?_, ?_, rfl, rfl, rfl, rfl⟩
    · intro hd
      simp only [hd, if_true]
    · intro hd
      simp only [hd, if_false]
  · -- `tal_at_deepest`
    intro a z1 s1 s2 s3 s4 ha h2 h1
    have h2a : s2 * a = z1 * (-2) - a * 2 * s3 * a - a * 3 * a * s4 * a := by
      rw [h2]
      field_simp
      ring
    constructor
    · rw [h1]; ring
    · rw [h1]
      linear_combination a * h2a
  · -- `tal_at_width`
    intro a w z1 z3 s1 s2 s3 s4 ha hw hne h4 h3 h2 h1
    have hd : a - w ≠ 0 := sub_ne_zero.mpr hne
    subst h1 h2 h3 h4
    constructor
    · field_simp
      ring
    · field_simp
      ring
  · -- `ite_true_decide`
    intro P Q _ _
    by_cases h : P <;> simp [h]
  · -- `tal_aus6_iff_root`: the flag computed at the end of `tal_` is raised exactly when the
    -- quadratic `x*x + b*x + c` has a real root strictly between 0 and `shbr`.
    intro a w s1 s3 s4
    unfold tal_aus6
    simp only []
    generalize s3 * 4 / (s4 * 5) + a = b
    generalize s1 * (-2) / (s4 * 5 * a) = c
    by_cases hz : b * b / 4 - c < 0
    · simp only [hz, if_true, Bool.false_eq_true, false_iff, not_exists, not_and]
      intro x _ _ h
      nlinarith [sq_nonneg (x + b / 2)]
    · simp only [hz, if_false]
      have hz0 : 0 ≤ b * b / 4 - c := not_lt.mp hz
      have hz3 : Real.sqrt (b * b / 4 - c) * Real.sqrt (b * b / 4 - c) = b * b / 4 - c :=
        Real.mul_self_sqrt hz0
      have hz3n : 0 ≤ Real.sqrt (b * b / 4 - c) := Real.sqrt_nonneg _
      generalize Real.sqrt (b * b / 4 - c) = z3 at hz3 hz3n
      have hfac : ∀ x, x * x + b * x + c = (x - (-(b / 2) + z3)) * (x - (-(b / 2) - z3)) := by
        intro x
        linear_combination hz3
      have hroot : (∃ x, 0 < x ∧ x < w ∧ x * x + b * x + c = 0) ↔
          (0 < -(b / 2) - z3 ∧ -(b / 2) - z3 < w) ∨ (0 < -(b / 2) + z3 ∧ -(b / 2) + z3 < w) := by
        constructor
        · rintro ⟨x, h0, hw, hx⟩
          rw [hfac] at hx
          rcases mul_eq_zero.mp hx with h | h
          · right
            have : x = -(b / 2) + z3 := by linarith
            rw [← this]
            exact ⟨h0, hw⟩
          · left
            have : x = -(b / 2) - z3 := by linarith
            rw [← this]
            exact ⟨h0, hw⟩
        · rintro (⟨h0, hw⟩ | ⟨h0, hw⟩)
          · exact ⟨_, h0, hw, by rw [hfac]; simp⟩
          · exact ⟨_, h0, hw, by rw [hfac]; simp⟩
      rw [hroot]
      by_cases ht : 1e-15 < |z3|
      · simp only [ht, if_true]
        rw [ite_true_decide]
      · simp only [ht, if_false]
        rw [ite_true_decide]
        have hc : c = (-(b / 2) + z3) * (-(b / 2) - z3) := by linear_combination hz3
        have hq : (c / (-(b / 2) + z3) > 0 ∧ c / (-(b / 2) + z3) < w) ↔
            (0 < -(b / 2) - z3 ∧ -(b / 2) - z3 < w) := by
          by_cases h1 : -(b / 2) + z3 = 0
          · rw [h1, div_zero]
            constructor
            · intro h
              exact absurd h.1 (lt_irrefl 0)
            · intro h
              have : -(b / 2) - z3 ≤ 0 := by linarith
              exact absurd h.1 (not_lt.mpr this)
          · have : c / (-(b / 2) + z3) = -(b / 2) - z3 := by
              rw [hc]
              exact mul_div_cancel_left₀ _ h1
            rw [this]
        rw [hq]
  · -- `tal_example_spt4`
    have e : (tal_ 10 5 20 (1 / 100)).spt4 = 1 / 4000000 := by
      delta tal_
      norm_num
    rw [e]
    norm_num

theorem talY_hasDerivAt (r : TalResult ℝ) (x : ℝ) :
    HasDerivAt (talY r)
      (2 * r.spt1 * x + 3 * r.spt2 * x ^ 2 + 4 * r.spt3 * x ^ 3 + 5 * r.spt4 * x ^ 4) x := by
  have h := ((((hasDerivAt_const x (1 : ℝ)).add ((hasDerivAt_pow 2 x).const_mul r.spt1)).add
    ((hasDerivAt_pow 3 x).const_mul r.spt2)).add
    ((hasDerivAt_pow 4 x).const_mul r.spt3)).add ((hasDerivAt_pow 5 x).const_mul r.spt4)
  have h1 : HasDerivAt (talY r) _ x := h
  refine h1.congr_deriv ?_
  norm_num
  ring

/-- C11: for `shabr ≠ 0`, `shbr ≠ 0`, `shabr ≠ shbr` and `sdelta > 0`, the coefficients
returned by `tal_` make `y(x) = 1 + spt1*x^2 + spt2*x^3 + spt3*x^4 + spt4*x^5` satisfy
`y(0) = 1` and `y(shabr) = 1 - sdelta/100` exactly. -/
theorem tal_fit_depth (shabr sdelta shbr sdtdh0 : ℝ) (ha : shabr ≠ 0) (_hw : shbr ≠ 0)
    (_hne : shabr ≠ shbr) (hd : sdelta > 0) :
    talY (tal_ shabr sdelta shbr sdtdh0) 0 = 1 ∧
      talY (tal_ shabr sdelta shbr sdtdh0) shabr = 1 - sdelta / 100 := by
  obtain ⟨tal_coeffs, tal_at_deepest, -, -, -, -⟩ := tal_facts
  obtain ⟨z1, hz, _, _, _, h2, h1⟩ := tal_coeffs shabr sdelta shbr sdtdh0
  have hv := (tal_at_deepest shabr z1 _ _ _ _ ha h2 h1).1
  constructor
  · delta talY; simp
  · have e : talY (tal_ shabr sdelta shbr sdtdh0) shabr = 1 + shabr * shabr * z1 := by
      delta talY
      linarith
    rw [e, hz hd]
    field_simp
    ring

theorem tal_fit_depth_witness :
    (10 : ℝ) ≠ 0 ∧ (20 : ℝ) ≠ 0 ∧ (10 : ℝ) ≠ 20 ∧ (5 : ℝ) > 0 ∧
      talY (tal_ 10 5 20 (1 / 100)) 0 = 1 ∧
      talY (tal_ 10 5 20 (1 / 100)) 10 = 1 - 5 / 100 :=
  have r := tal_fit_depth 10 5 20 (1 / 100) (by norm_num) (by norm_num) (by norm_num)
    (by norm_num)
  ⟨by norm_num, by norm_num, by norm_num, by norm_num, r.1, r.2⟩

/-- C12: for `shabr ≠ 0`, `shbr ≠ 0`, `shabr ≠ shbr` and `sdelta > 0`, the polynomial
fitted by `tal_` has `y'(shabr) = 0`, `y'(shbr) = sdtdh0` and `y(shbr) = 1`. -/
theorem tal_fit_slopes (shabr sdelta shbr sdtdh0 : ℝ) (ha : shabr ≠ 0) (hw : shbr ≠ 0)
    (hne : shabr ≠ shbr) (_hd : sdelta > 0) :
    HasDerivAt (talY (tal_ shabr sdelta shbr sdtdh0)) 0 shabr ∧
      HasDerivAt (talY (tal_ shabr sdelta shbr sdtdh0)) sdtdh0 shbr ∧
      talY (tal_ shabr sdelta shbr sdtdh0) shbr = 1 := by
  obtain ⟨tal_coeffs, tal_at_deepest, tal_at_width, -, -, -⟩ := tal_facts
  obtain ⟨z1, _, _, h4, h3, h2, h1⟩ := tal_coeffs shabr sdelta shbr sdtdh0
  have hA := (tal_at_deepest shabr z1 _ _ _ _ ha h2 h1).2
  have hW := tal_at_width shabr shbr z1 (sdtdh0 / (shbr * 2)) _ _ _ _ ha hw hne h4 h3 h2 h1
  refine ⟨?_, ?_, ?_⟩
  · exact (talY_hasDerivAt _ shabr).congr_deriv hA
  · refine (talY_hasDerivAt _ shbr).congr_deriv ?_
    rw [hW.2]
    field_simp
    ring
  · delta talY
    linarith [hW.1]

theorem tal_fit_slopes_witness :
    (10 : ℝ) ≠ 0 ∧ (20 : ℝ) ≠ 0 ∧ (10 : ℝ) ≠ 20 ∧ (5 : ℝ) > 0 ∧
      HasDerivAt (talY (tal_ 10 5 20 (1 / 100))) 0 10 ∧
      HasDerivAt (talY (tal_ 10 5 20 (1 / 100))) (1 / 100) 20 ∧
      talY (tal_ 10 5 20 (1 / 100)) 20 = 1 :=
  have r := tal_fit_slopes 10 5 20 (1 / 100) (by norm_num) (by norm_num) (by norm_num)
    (by norm_num)
  ⟨by norm_num, by norm_num, by norm_num, by norm_num, r.1, r.2.1, r.2.2⟩

/-- C13: for a negative `sdelta` with `0 < |sdelta| < 100` (`shabr ≠ 0`, `shbr ≠ 0`,
`shabr ≠ shbr`) the coefficients of `tal_` are fitted to the logarithm:
`Y(x) = exp(spt1*x^2 + spt2*x^3 + spt3*x^4 + spt4*x^5)` has `Y(0) = 1`,
`Y(shabr) = 1 - |sdelta|/100` and `Y(x) > 0` for every `x`. -/
theorem tal_fit_log (shabr sdelta shbr sdtdh0 : ℝ) (ha : shabr ≠ 0) (_hw : shbr ≠ 0)
    (_hne : shabr ≠ shbr) (hneg : sdelta < 0) (hlt : |sdelta| < 100) :
    talExpY (tal_ shabr sdelta shbr sdtdh0) 0 = 1 ∧
      talExpY (tal_ shabr sdelta shbr sdtdh0) shabr = 1 - |sdelta| / 100 ∧
      ∀ x, 0 < talExpY (tal_ shabr sdelta shbr sdtdh0) x := by
  obtain ⟨tal_coeffs, tal_at_deepest, -, -, -, -⟩ := tal_facts
  obtain ⟨z1, _, hz, _, _, h2, h1⟩ := tal_coeffs shabr sdelta shbr sdtdh0
  have hv := (tal_at_deepest shabr z1 _ _ _ _ ha h2 h1).1
  have hnd : ¬ sdelta > 0 := by linarith
  have habs : |sdelta| = -sdelta := abs_of_neg hneg
  have hpos : 0 < 1 - -sdelta / 100 := by
    rw [← habs]
    linarith
  refine ⟨by delta talExpY; simp, ?_, fun x => Real.exp_pos _⟩
  delta talExpY
  rw [hv, hz hnd, habs]
  have e : shabr * shabr * (Real.log (1 - -sdelta / 100) / (shabr * shabr)) =
      Real.log (1 - -sdelta / 100) := by
    field_simp
  rw [e, Real.exp_log hpos]

theorem tal_fit_log_witness :
    (10 : ℝ) ≠ 0 ∧ (20 : ℝ) ≠ 0 ∧ (10 : ℝ) ≠ 20 ∧ (-5 : ℝ) < 0 ∧ |(-5 : ℝ)| < 100 ∧
      talExpY (tal_ 10 (-5) 20 (1 / 100)) 0 = 1 ∧
      talExpY (tal_ 10 (-5) 20 (1 / 100)) 10 = 1 - |(-5 : ℝ)| / 100 :=
  have hl : |(-5 : ℝ)| < 100 := by
    rw [abs_of_neg (by norm_num)]
    norm_num
  have r := tal_fit_log 10 (-5) 20 (1 / 100) (by norm_num) (by norm_num) (by norm_num)
    (by norm_num) hl
  ⟨by norm_num, by norm_num, by norm_num, by norm_num, hl, r.1, r.2.1⟩

/-- C14: for `shabr ≠ 0` and `spt4 ≠ 0`, the derivative of the polynomial fitted by
`tal_` is `y'(x) = 5*spt4*x*(x - shabr)*(x^2 + b*x + c)` with
`b = 4*spt3/(5*spt4) + shabr`, `c = -2*spt1/(5*spt4*shabr)`, and `tal_` returns
`aus6 = true` if and only if `x^2 + b*x + c` has a real root strictly inside
`(0, shbr)`. -/
theorem tal_extremum_flag (shabr sdelta shbr sdtdh0 : ℝ) (ha : shabr ≠ 0)
    (h4 : (tal_ shabr sdelta shbr sdtdh0).spt4 ≠ 0) :
    (∀ x, HasDerivAt (talY (tal_ shabr sdelta shbr sdtdh0))
      (5 * (tal_ shabr sdelta shbr sdtdh0).spt4 * x * (x - shabr) *
        (x ^ 2 + tal_b shabr (tal_ shabr sdelta shbr sdtdh0) * x +
          tal_c shabr (tal_ shabr sdelta shbr sdtdh0))) x) ∧
      ((tal_ shabr sdelta shbr sdtdh0).aus6 = true ↔
        ∃ x, 0 < x ∧ x < shbr ∧
          x ^ 2 + tal_b shabr (tal_ shabr sdelta shbr sdtdh0) * x +
            tal_c shabr (tal_ shabr sdelta shbr sdtdh0) = 0) := by
  obtain ⟨tal_coeffs, tal_at_deepest, -, -, tal_aus6_iff_root, -⟩ := tal_facts
  obtain ⟨z1, _, _, _, _, h2, h1⟩ := tal_coeffs shabr sdelta shbr sdtdh0
  have hA := (tal_at_deepest shabr z1 _ _ _ _ ha h2 h1).2
  constructor
  · intro x
    refine (talY_hasDerivAt _ x).congr_deriv ?_
    delta tal_b tal_c; try dsimp only
    generalize (tal_ shabr sdelta shbr sdtdh0).spt1 = s1 at hA h4 ⊢
    generalize (tal_ shabr sdelta shbr sdtdh0).spt2 = s2 at hA h4 ⊢
    generalize (tal_ shabr sdelta shbr sdtdh0).spt3 = s3 at hA h4 ⊢
    generalize (tal_ shabr sdelta shbr sdtdh0).spt4 = s4 at hA h4 ⊢
    have hB : 2 * s1 + 3 * s2 * shabr + 4 * s3 * shabr ^ 2 + 5 * s4 * shabr ^ 3 = 0 := by
      have hm : shabr * (2 * s1 + 3 * s2 * shabr + 4 * s3 * shabr ^ 2 + 5 * s4 * shabr ^ 3)
          = 0 := by linear_combination hA
      exact (mul_eq_zero.mp hm).resolve_left ha
    field_simp
    linear_combination 25 * x ^ 2 * s4 ^ 2 * hB
  · have hflag : (tal_ shabr sdelta shbr sdtdh0).aus6 =
        tal_aus6 shabr shbr (tal_ shabr sdelta shbr sdtdh0).spt1
          (tal_ shabr sdelta shbr sdtdh0).spt3 (tal_ shabr sdelta shbr sdtdh0).spt4 := rfl
    rw [hflag, tal_aus6_iff_root]
    delta tal_b tal_c; simp only [sq]

theorem tal_extremum_flag_witness :
    (10 : ℝ) ≠ 0 ∧ (tal_ 10 5 20 (1 / 100)).spt4 ≠ 0 ∧
      ((tal_ 10 5 20 (1 / 100)).aus6 = true ↔
        ∃ x, 0 < x ∧ x < (20 : ℝ) ∧
          x ^ 2 + tal_b 10 (tal_ 10 5 20 (1 / 100)) * x +
            tal_c 10 (tal_ 10 5 20 (1 / 100)) = 0) := by
  obtain ⟨-, -, -, -, -, tal_example_spt4⟩ := tal_facts
  exact
    ⟨by norm_num, tal_example_spt4,
      (tal_extremum_flag 10 5 20 (1 / 100) (by norm_num) tal_example_spt4).2⟩

/-! ## The root finder (C7 - C10) -/

set_option maxHeartbeats 4000000 in
/-- Facts about the root finder `regfa1_`: the bracket invariant is kept by every label of the
loop, and the loop returns with it once the pass bound is large enough. -/
theorem regfa_facts :
    -- `mem_uIcc_of_convex`
    (∀ (x1 x2 t : ℝ) (_ : 0 ≤ t) (_ : t ≤ 1),
        x1 + t * (x2 - x1) ∈ Set.uIcc x1 x2) ∧
    -- `regfa_quotient_defined`
    (∀ (f1 f2 : ℝ) (_ : f1 * f2 ≤ 0) (_ : f1 ≠ 0),
        f2 - f1 ≠ 0) ∧
    -- `regfa_falsi_mem`
    (∀ (x1 x2 f1 f2 : ℝ) (_ : f1 * f2 ≤ 0) (_ : f1 ≠ 0),
        (x1 * f2 - x2 * f1) / (f2 - f1) ∈ Set.uIcc x1 x2) ∧
    -- `regfa_subdivision_mem`
    (∀ (x1 x2 : ℝ) (ng : ℤ) (_ : 2 ≤ ng) (links : Bool),
        x1 + (if links then (x2 - x1) / (ng : ℝ)
          else (x2 - x1) / (ng : ℝ) * ((ng - 1 : ℤ) : ℝ)) ∈ Set.uIcc x1 x2) ∧
    -- `regfa_sign_kept`
    (∀ (f1 f2 fx : ℝ) (_ : f1 * f2 ≤ 0) (_ : f1 * fx > 0),
        fx * f2 ≤ 0 ∧ fx ≠ 0) ∧
    -- `regfa_counters`
    (∀ (lfd evals : ℕ) (ep eps : ℝ) (_ : lfd = evals % 21)
        (_ : ep = eps * 10 ^ (evals / 21)),
        (if lfd + 1 > 20 then 0 else lfd + 1) = (evals + 1) % 21 ∧
          (if lfd + 1 > 20 then ep * 10 else ep) = eps * 10 ^ ((evals + 1) / 21)) ∧
    -- `l400_bracket`
    (∀ (f : ℝ → ℝ) (fw eps a b : ℝ) (s : Regfa ℝ)
        (_ : s.Bracket eps a b) (_ : s.f1 ≠ 0),
        (s.l400 f fw).Bracket eps a b ∧ (s.l400 f fw).f1 ≠ 0 ∧
          (s.l400 f fw).evals = s.evals + 1 ∧
          ((s.l400 f fw).x = (s.l400 f fw).x1 ∨ (s.l400 f fw).x = (s.l400 f fw).x2) ∧
          (s.Sampled f fw → (s.l400 f fw).Sampled f fw)) ∧
    -- `l300_bracket`
    (∀ (eps a b : ℝ) (s : Regfa ℝ) (_ : s.Bracket eps a b),
        s.l300.Bracket eps a b ∧ s.l300.f1 = s.f1 ∧ s.l300.evals = s.evals ∧
          (∀ f fw, s.Sampled f fw → s.l300.Sampled f fw)) ∧
    -- `double_bracket`
    (∀ (eps a b : ℝ) (s : Regfa ℝ) (_ : s.Bracket eps a b),
        s.double.Bracket eps a b ∧ s.double.f1 = s.f1 ∧ s.double.evals = s.evals ∧
          (∀ f fw, s.Sampled f fw → s.double.Sampled f fw)) ∧
    -- `l200_bracket`
    (∀ (eps a b : ℝ) (s : Regfa ℝ) (_ : s.Bracket eps a b)
        (_ : s.f1 ≠ 0),
        ∃ s2, s.l200 = some s2 ∧ s2.Bracket eps a b ∧ s2.f1 = s.f1 ∧ s2.evals = s.evals ∧
          (∀ f fw, s.Sampled f fw → s2.Sampled f fw)) ∧
    -- `regfa_width_le`
    (∀ (eps a b : ℝ) (s : Regfa ℝ) (_ : s.Bracket eps a b),
        |s.x2 - s.x1| ≤ |b - a|) ∧
    -- `regfa_ep_large`
    (∀ (eps a b : ℝ) (N : ℕ) (s : Regfa ℝ) (_ : s.Bracket eps a b)
        (_ : 0 < eps) (_ : |b - a| ≤ eps * 10 ^ N) (_ : 21 * N ≤ s.evals),
        |s.x2 - s.x1| ≤ s.ep) ∧
    -- `regfaLoop_zero`
    (∀ (f : ℝ → ℝ) (fw : ℝ) (s : Regfa ℝ),
        regfaLoop f fw 0 s = Outcome.outOfFuel) ∧
    -- `regfaLoop_succ`
    (∀ (f : ℝ → ℝ) (fw : ℝ) (n : ℕ) (s : Regfa ℝ),
        regfaLoop f fw (n + 1) s =
          if |(s.l400 f fw).x2 - (s.l400 f fw).x1| ≤ (s.l400 f fw).ep then
            Outcome.done (s.l400 f fw)
          else if (s.l400 f fw).k then regfaLoop f fw n (s.l400 f fw).l300
          else
            match (s.l400 f fw).double.l200 with
            | none => Outcome.undefinedQuotient
            | some s2 => regfaLoop f fw n s2) ∧
    -- `regfaLoop_spec`
    (∀ (f : ℝ → ℝ) (fw eps a b : ℝ),
        ∀ (fuel : ℕ) (s : Regfa ℝ), s.Bracket eps a b → s.f1 ≠ 0 →
          (∃ s1, regfaLoop f fw fuel s = Outcome.done s1 ∧ s1.Bracket eps a b ∧
            (s1.x = s1.x1 ∨ s1.x = s1.x2) ∧ |s1.x2 - s1.x1| ≤ s1.ep ∧ s.evals < s1.evals ∧
            (s.Sampled f fw → s1.Sampled f fw)) ∨
          (regfaLoop f fw fuel s = Outcome.outOfFuel ∧
            ∀ N : ℕ, 0 < eps → |b - a| ≤ eps * 10 ^ N → s.evals + fuel < 21 * N ∨ fuel = 0)) ∧
    -- `regfaLoop_schalt`
    (∀ (f : ℝ → ℝ) (fw : ℝ),
        ∀ (fuel : ℕ) (s s1 : Regfa ℝ), regfaLoop f fw fuel s = Outcome.done s1 →
          s1.schalt = s.schalt) ∧
    -- `regfa1_spec`
    (∀ (f : ℝ → ℝ) (a b fx11 fx22 eps fw : ℝ)
        (_ : (fx11 - fw) * (fx22 - fw) ≤ 0) (_ : fx11 - fw ≠ 0) (fuel : ℕ),
        (∃ s1, regfa1_ fuel a b fx11 fx22 eps fw f = Outcome.done s1 ∧ s1.Bracket eps a b ∧
          (s1.x = s1.x1 ∨ s1.x = s1.x2) ∧ |s1.x2 - s1.x1| ≤ s1.ep ∧ 0 < s1.evals ∧
          (fx11 = f a → fx22 = f b → s1.Sampled f fw)) ∨
        (regfa1_ fuel a b fx11 fx22 eps fw f = Outcome.outOfFuel ∧
          ∀ N : ℕ, 0 < eps → |b - a| ≤ eps * 10 ^ N → fuel < 21 * N ∨ fuel = 0)) ∧
    -- `regfa_exists_relaxations`
    (∀ (eps w : ℝ) (_ : 0 < eps), ∃ N : ℕ, w ≤ eps * 10 ^ N) ∧
    -- `regfa1_returns_bracket`
    (∀ (f : ℝ → ℝ) (a b fx11 fx22 eps fw : ℝ) (_ : 0 < eps)
        (_ : (fx11 - fw) * (fx22 - fw) ≤ 0) (_ : fx11 - fw ≠ 0),
        ∃ N : ℕ, ∀ fuel, N ≤ fuel →
          ∃ s1, regfa1_ fuel a b fx11 fx22 eps fw f = Outcome.done s1 ∧ s1.Bracket eps a b ∧
            (s1.x = s1.x1 ∨ s1.x = s1.x2) ∧ |s1.x2 - s1.x1| ≤ s1.ep ∧ 0 < s1.evals ∧
            (fx11 = f a → fx22 = f b → s1.Sampled f fw)) ∧
    -- `regfa1_first_on_target`
    (∀ (f : ℝ → ℝ) (a b fx11 fx22 eps fw : ℝ) (_ : 0 ≤ eps)
        (_ : fx11 - fw = 0) (_ : fx22 - fw ≠ 0) (n : ℕ),
        ∃ s1, regfa1_ (n + 1) a b fx11 fx22 eps fw f = Outcome.done s1 ∧ s1.schalt = false ∧
          s1.x = a ∧ s1.evals = 1) ∧
    -- `mem_uIcc_of_mul_nonpos`
    (∀ (u v w : ℝ) (_ : (u - w) * (v - w) ≤ 0), w ∈ Set.uIcc u v) ∧
    -- `l400_nested`
    (∀ (f : ℝ → ℝ) (fw : ℝ) (s : Regfa ℝ)
        (_ : s.x ∈ Set.uIcc s.x1 s.x2) (_ : s.f1 * s.f2 ≤ 0) (_ : s.Sampled f fw),
        Set.uIcc (s.l400 f fw).x1 (s.l400 f fw).x2 ⊆ Set.uIcc s.x1 s.x2 ∧
          (f (s.l400 f fw).x1 - fw) * (f (s.l400 f fw).x2 - fw) ≤ 0) ∧
    -- `regfa1_first_on_target_state`
    (∀ (f : ℝ → ℝ) (a b fx11 fx22 eps fw : ℝ)
        (_ : 0 ≤ eps) (_ : fx11 - fw = 0) (_ : fx22 - fw ≠ 0) (n : ℕ),
        regfa1_ (n + 1) a b fx11 fx22 eps fw f =
          Outcome.done { schalt := false, x := a, x1 := a, x2 := a, f1 := 0, f2 := f a - fw,
                         ep := eps, ng := 2, lfd := 1, k := true, links := false, l1 := false,
                         evals := 1 }) := by
  refine and_of_imp ?_ fun mem_uIcc_of_convex => and_of_imp ?_ fun regfa_quotient_defined =>
    and_of_imp ?_ fun regfa_falsi_mem => and_of_imp ?_ fun regfa_subdivision_mem =>
    and_of_imp ?_ fun regfa_sign_kept => and_of_imp ?_ fun regfa_counters =>
    and_of_imp ?_ fun l400_bracket => and_of_imp ?_ fun l300_bracket =>
    and_of_imp ?_ fun double_bracket => and_of_imp ?_ fun l200_bracket =>
    and_of_imp ?_ fun regfa_width_le => and_of_imp ?_ fun regfa_ep_large =>
    and_of_imp ?_ fun regfaLoop_zero => and_of_imp ?_ fun regfaLoop_succ =>
    and_of_imp ?_ fun regfaLoop_spec => and_of_imp ?_ fun regfaLoop_schalt =>
    and_of_imp ?_ fun regfa1_spec => and_of_imp ?_ fun regfa_exists_relaxations =>
    and_of_imp ?_ fun regfa1_returns_bracket => and_of_imp ?_ fun regfa1_first_on_target =>
    and_of_imp ?_ fun mem_uIcc_of_mul_nonpos => and_of_imp ?_ fun l400_nested => ?_
  · -- `mem_uIcc_of_convex`
    intro x1 x2 t h0 h1
    rcases le_total x1 x2 with h | h
    · rw [Set.uIcc_of_le h]
      constructor <;> nlinarith
    · rw [Set.uIcc_of_ge h]
      constructor <;> nlinarith
  · -- `regfa_quotient_defined`
    intro f1 f2 hs h1
    intro h
    have e : f2 = f1 := by linarith
    rw [e] at hs
    have : 0 < f1 * f1 := mul_self_pos.mpr h1
    linarith
  · -- `regfa_falsi_mem`
    intro x1 x2 f1 f2 hs h1
    have hd := regfa_quotient_defined f1 f2 hs h1
    have e : (x1 * f2 - x2 * f1) / (f2 - f1) = x1 + (-f1 / (f2 - f1)) * (x2 - x1) := by
      field_simp
      ring
    rw [e]
    rcases lt_or_gt_of_ne h1 with hn | hp
    · have h2 : 0 ≤ f2 := by nlinarith
      have hpos : 0 < f2 - f1 := by linarith
      exact mem_uIcc_of_convex x1 x2 _ (div_nonneg (by linarith) hpos.le)
        ((div_le_one hpos).mpr (by linarith))
    · have h2 : f2 ≤ 0 := by nlinarith
      have hpos : 0 < f1 - f2 := by linarith
      have e2 : -f1 / (f2 - f1) = f1 / (f1 - f2) := by
        rw [← neg_sub f1 f2, neg_div_neg_eq]
      rw [e2]
      exact mem_uIcc_of_convex x1 x2 _ (div_nonneg hp.le hpos.le)
        ((div_le_one hpos).mpr (by linarith))
  · -- `regfa_subdivision_mem`
    intro x1 x2 ng hng links
    have hr : (2 : ℝ) ≤ (ng : ℝ) := by exact_mod_cast hng
    have hpos : (0 : ℝ) < (ng : ℝ) := by linarith
    cases links
    · have e : x1 + (if false = true then (x2 - x1) / (ng : ℝ)
          else (x2 - x1) / (ng : ℝ) * ((ng - 1 : ℤ) : ℝ)) =
          x1 + (((ng : ℝ) - 1) / (ng : ℝ)) * (x2 - x1) := by
        simp only [Bool.false_eq_true, if_false]
        push_cast
        field_simp
        ring
      rw [e]
      exact mem_uIcc_of_convex x1 x2 _ (div_nonneg (by linarith) hpos.le)
        ((div_le_one hpos).mpr (by linarith))
    · have e : x1 + (if true = true then (x2 - x1) / (ng : ℝ)
          else (x2 - x1) / (ng : ℝ) * ((ng - 1 : ℤ) : ℝ)) =
          x1 + (1 / (ng : ℝ)) * (x2 - x1) := by
        simp only [if_true]
        field_simp
      rw [e]
      exact mem_uIcc_of_convex x1 x2 _ (div_nonneg (by linarith) hpos.le)
        ((div_le_one hpos).mpr (by linarith))
  · -- `regfa_sign_kept`
    intro f1 f2 fx hs hl
    constructor
    · by_contra hc
      have hc1 : 0 < fx * f2 := not_le.mp hc
      have h1 : 0 < (f1 * fx) * (fx * f2) := mul_pos hl hc1
      have h2 : (f1 * f2) * (fx * fx) ≤ 0 :=
        mul_nonpos_of_nonpos_of_nonneg hs (mul_self_nonneg fx)
      have e : (f1 * fx) * (fx * f2) = (f1 * f2) * (fx * fx) := by ring
      linarith
    · rintro rfl
      simp at hl
  · -- `regfa_counters`
    intro lfd evals ep eps hl he
    by_cases h : lfd + 1 > 20
    · have e1 : (evals + 1) / 21 = evals / 21 + 1 := by omega
      simp only [h, if_true, e1, he, pow_succ]
      exact ⟨by omega, by ring⟩
    · have e1 : (evals + 1) / 21 = evals / 21 := by omega
      simp only [h, if_false, e1, he]
      exact ⟨by omega, trivial⟩
  · -- `l400_bracket`
    intro f fw eps a b s h h1
    have hc := regfa_counters s.lfd s.evals s.ep eps h.2.2.2.2.2.1 h.2.2.2.2.2.2
    by_cases hl : s.f1 * (f s.x - fw) > 0
    · have e : s.l400 f fw =
          { s with ep := if s.lfd + 1 > 20 then s.ep * 10 else s.ep,
                   lfd := if s.lfd + 1 > 20 then 0 else s.lfd + 1,
                   links := true, k := !s.k, evals := s.evals + 1,
                   x1 := s.x, f1 := f s.x - fw } := by
        delta Regfa.l400; simp [hl]
      rw [e]
      have hk := regfa_sign_kept s.f1 s.f2 (f s.x - fw) h.2.1 hl
      refine ⟨⟨h.1, hk.1, h.2.2.1, Set.left_mem_uIcc, ?_, hc.1, hc.2⟩, hk.2, rfl,
        Or.inl rfl, fun hs => ⟨rfl, hs.2⟩⟩
      exact (Set.uIcc_subset_uIcc h.2.2.2.1 Set.right_mem_uIcc).trans h.2.2.2.2.1
    · have e : s.l400 f fw =
          { s with ep := if s.lfd + 1 > 20 then s.ep * 10 else s.ep,
                   lfd := if s.lfd + 1 > 20 then 0 else s.lfd + 1,
                   links := false, k := !s.k, evals := s.evals + 1,
                   x2 := s.x, f2 := f s.x - fw } := by
        delta Regfa.l400; simp [hl]
      rw [e]
      refine ⟨⟨h.1, not_lt.mp hl, h.2.2.1, Set.right_mem_uIcc, ?_, hc.1, hc.2⟩, h1, rfl,
        Or.inr rfl, fun hs => ⟨hs.1, rfl⟩⟩
      exact (Set.uIcc_subset_uIcc Set.left_mem_uIcc h.2.2.2.1).trans h.2.2.2.2.1
  · -- `l300_bracket`
    intro eps a b s h
    refine ⟨⟨h.1, h.2.1, h.2.2.1, ?_, h.2.2.2.2.1, h.2.2.2.2.2.1, h.2.2.2.2.2.2⟩, rfl, rfl,
      fun f fw hs => hs⟩
    exact regfa_subdivision_mem s.x1 s.x2 s.ng h.2.2.1 s.links
  · -- `double_bracket`
    intro eps a b s h
    by_cases hc : ((s.links && !s.l1) || (!s.links && s.l1)) = true
    · have e : s.double = { s with ng := s.ng * 2 } := by
        delta Regfa.double; simp only [hc, if_true]
      rw [e]
      refine ⟨⟨h.1, h.2.1, ?_, h.2.2.2.1, h.2.2.2.2.1, h.2.2.2.2.2.1, h.2.2.2.2.2.2⟩, rfl, rfl,
        fun f fw hs => hs⟩
      have := h.2.2.1
      show 2 ≤ s.ng * 2
      omega
    · have e : s.double = s := by
        delta Regfa.double
        exact if_neg hc
      rw [e]
      exact ⟨h, rfl, rfl, fun f fw hs => hs⟩
  · -- `l200_bracket`
    intro eps a b s h h1
    have hd := regfa_quotient_defined s.f1 s.f2 h.2.1 h1
    refine ⟨{ s with x := (s.x1 * s.f2 - s.x2 * s.f1) / (s.f2 - s.f1) }, ?_,
      ⟨h.1, h.2.1, h.2.2.1, ?_, h.2.2.2.2.1, h.2.2.2.2.2.1, h.2.2.2.2.2.2⟩, rfl, rfl,
        fun f fw hs => hs⟩
    · delta Regfa.l200; simp only [hd, if_false]
    · exact regfa_falsi_mem s.x1 s.x2 s.f1 s.f2 h.2.1 h1
  · -- `regfa_width_le`
    intro eps a b s h
    exact Set.abs_sub_le_of_uIcc_subset_uIcc h.2.2.2.2.1
  · -- `regfa_ep_large`
    intro eps a b N s h heps hN he
    have hw := regfa_width_le eps a b s h
    have hdiv : N ≤ s.evals / 21 := by omega
    have hpow : (10 : ℝ) ^ N ≤ 10 ^ (s.evals / 21) :=
      pow_le_pow_right₀ (by norm_num) hdiv
    rw [h.2.2.2.2.2.2]
    have := mul_le_mul_of_nonneg_left hpow heps.le
    linarith
  · -- `regfaLoop_zero`
    intro f fw s
    exact rfl
  · -- `regfaLoop_succ`
    intro f fw n s
    exact rfl
  · -- `regfaLoop_spec`: the loop of `regfa1_`, entered with the invariant and a nonzero `f1`:
    -- it either returns, with the invariant kept, the point `x` at an end of the bracket and
    -- the bracket no wider than `ep`, or the pass bound was reached; the latter does not
    -- happen once the bound covers `21*N` evaluations with `|b - a| <= eps*10^N`.
    intro f fw eps a b
    intro fuel
    induction fuel with
    | zero =>
      intro s _ _
      exact Or.inr ⟨rfl, fun N _ _ => Or.inr rfl⟩
    | succ n ih =>
      intro s h h1
      obtain ⟨hb, hf, hev, hend, hsam⟩ := l400_bracket f fw eps a b s h h1
      by_cases hexit : |(s.l400 f fw).x2 - (s.l400 f fw).x1| ≤ (s.l400 f fw).ep
      · left
        refine ⟨s.l400 f fw, ?_, hb, hend, hexit, by omega, hsam⟩
        simp only [regfaLoop_succ, hexit, if_true]
      · have hnext : ∀ s2 : Regfa ℝ, s2.Bracket eps a b → s2.f1 ≠ 0 →
            s2.evals = s.evals + 1 → (s.Sampled f fw → s2.Sampled f fw) →
            regfaLoop f fw (n + 1) s = regfaLoop f fw n s2 →
            (∃ s1, regfaLoop f fw (n + 1) s = Outcome.done s1 ∧ s1.Bracket eps a b ∧
              (s1.x = s1.x1 ∨ s1.x = s1.x2) ∧ |s1.x2 - s1.x1| ≤ s1.ep ∧
              s.evals < s1.evals ∧ (s.Sampled f fw → s1.Sampled f fw)) ∨
            (regfaLoop f fw (n + 1) s = Outcome.outOfFuel ∧
              ∀ N : ℕ, 0 < eps → |b - a| ≤ eps * 10 ^ N →
                s.evals + (n + 1) < 21 * N ∨ n + 1 = 0) := by
          intro s2 hb2 hf2 hev2 hsam2 hrun
          rcases ih s2 hb2 hf2 with ⟨s1, hr, hB, hE, hW, hlt, hS⟩ | ⟨hr, hfuel⟩
          · left
            exact ⟨s1, by rw [hrun, hr], hB, hE, hW, by omega, fun hs => hS (hsam2 hs)⟩
          · right
            refine ⟨by rw [hrun, hr], fun N heps hN => ?_⟩
            left
            rcases hfuel N heps hN with hlt | hz
            · omega
            · by_contra hcon
              have hge : 21 * N ≤ (s.l400 f fw).evals := by omega
              exact hexit (regfa_ep_large eps a b N _ hb heps hN hge)
        by_cases hk : (s.l400 f fw).k = true
        · obtain ⟨hb3, hf3, hev3, hsam3⟩ := l300_bracket eps a b _ hb
          refine hnext (s.l400 f fw).l300 hb3 (by rw [hf3]; exact hf) (by rw [hev3, hev])
            (fun hs => hsam3 f fw (hsam hs)) ?_
          simp only [regfaLoop_succ, hexit, if_false, hk, if_true]
        · obtain ⟨hbd, hfd, hevd, hsamd⟩ := double_bracket eps a b _ hb
          obtain ⟨s2, hl2, hb2, hf2, hev2, hsam2⟩ :=
            l200_bracket eps a b _ hbd (by rw [hfd]; exact hf)
          refine hnext s2 hb2 (by rw [hf2, hfd]; exact hf) (by rw [hev2, hevd, hev])
            (fun hs => hsam2 f fw (hsamd f fw (hsam hs))) ?_
          simp only [regfaLoop_succ, hexit, if_false, hk, hl2]
          simp
  · -- `regfaLoop_schalt`
    intro f fw
    intro fuel
    induction fuel with
    | zero =>
      intro s s1 h
      simp [regfaLoop_zero] at h
    | succ n ih =>
      intro s s1 h
      have h4 : (s.l400 f fw).schalt = s.schalt := by
        delta Regfa.l400
        simp only []
        split <;> rfl
      by_cases hexit : |(s.l400 f fw).x2 - (s.l400 f fw).x1| ≤ (s.l400 f fw).ep
      · simp only [regfaLoop_succ, hexit, if_true, Outcome.done.injEq] at h
        rw [← h, h4]
      · by_cases hk : (s.l400 f fw).k = true
        · simp only [regfaLoop_succ, hexit, if_false, hk, if_true] at h
          rw [ih _ _ h]
          exact h4
        · simp only [regfaLoop_succ, hexit, if_false, hk] at h
          have hd : (s.l400 f fw).double.schalt = (s.l400 f fw).schalt := by
            delta Regfa.double
            split <;> rfl
          cases hl : (s.l400 f fw).double.l200 with
          | none =>
            rw [hl] at h
            simp at h
          | some s2 =>
            rw [hl] at h
            have h2 : s2.schalt = (s.l400 f fw).double.schalt := by
              delta Regfa.l200 at hl
              split at hl
              · simp at hl
              · simp only [Option.some.injEq] at hl
                rw [← hl]
            rw [ih _ _ h, h2, hd, h4]
  · -- `regfa1_spec`: the run of `regfa1_` on seeds that do not lie strictly on the same side
    -- of the target, the first one off the target.
    intro f a b fx11 fx22 eps fw hs h1 fuel
    have hd := regfa_quotient_defined _ _ hs h1
    have hrun : regfa1_ fuel a b fx11 fx22 eps fw f = regfaLoop f fw fuel
        { Regfa.start a b fx11 fx22 eps fw with
          x := (a * (fx22 - fw) - b * (fx11 - fw)) / ((fx22 - fw) - (fx11 - fw)) } := by
      delta regfa1_ Regfa.start Regfa.l200; simp only [hs, hd, if_true, if_false]
    have hB : Regfa.Bracket eps a b
        { Regfa.start a b fx11 fx22 eps fw with
          x := (a * (fx22 - fw) - b * (fx11 - fw)) / ((fx22 - fw) - (fx11 - fw)) } :=
      ⟨rfl, hs, le_refl 2, regfa_falsi_mem a b _ _ hs h1, subset_rfl, rfl, by
        show eps = eps * 10 ^ (0 / 21)
        norm_num⟩
    rcases regfaLoop_spec f fw eps a b fuel _ hB h1 with ⟨s1, hr, hB1, hE, hW, hlt, hS⟩ | ⟨hr, hf⟩
    · left
      refine ⟨s1, by rw [hrun, hr], hB1, hE, hW, by omega, fun e1 e2 => hS ?_⟩
      exact ⟨by show fx11 - fw = f a - fw; rw [e1], by show fx22 - fw = f b - fw; rw [e2]⟩
    · right
      refine ⟨by rw [hrun, hr], fun N heps hN => ?_⟩
      rcases hf N heps hN with h | h
      · left
        have : (0 : ℕ) + fuel < 21 * N := h
        omega
      · exact Or.inr h
  · -- `regfa_exists_relaxations`
    intro eps w heps
    obtain ⟨n, hn⟩ := pow_unbounded_of_one_lt (w / eps) (by norm_num : (1 : ℝ) < 10)
    refine ⟨n, ?_⟩
    have := (div_lt_iff₀ heps).mp hn
    linarith
  · -- `regfa1_returns_bracket`: with a positive tolerance and seeds on opposite sides (the
    -- first one off the target), `regfa1_` returns once the pass bound is large enough.
    intro f a b fx11 fx22 eps fw heps hs h1
    obtain ⟨N, hN⟩ := regfa_exists_relaxations eps |b - a| heps
    refine ⟨21 * N + 1, fun fuel hfuel => ?_⟩
    rcases regfa1_spec f a b fx11 fx22 eps fw hs h1 fuel with h | ⟨_, hf⟩
    · exact h
    · rcases hf N heps hN with h | h <;> omega
  · -- `regfa1_first_on_target`: with the first seed on the target and the second one off it,
    -- the first regula-falsi point is `x11` and `regfa1_` returns after one evaluation.
    intro f a b fx11 fx22 eps fw heps h1 h2 n
    have hx : (a * (fx22 - fw) - b * 0) / (fx22 - fw) = a := by
      field_simp
    have hw : |a - a| ≤ eps := by simpa using heps
    have hl : ¬ ((0 : ℝ) * (f a - fw) > 0) := by simp
    refine ⟨{ schalt := false, x := a, x1 := a, x2 := a, f1 := 0, f2 := f a - fw,
              ep := eps, ng := 2, lfd := 1, k := true, links := false, l1 := false,
              evals := 1 }, ?_, rfl, rfl, rfl⟩
    delta regfa1_ Regfa.start Regfa.l200
    simp only [h1, zero_mul, le_refl, if_true, sub_zero, h2, if_false, hx, regfaLoop_succ]
    delta Regfa.l400
    simp only [hl, decide_False, Bool.false_eq_true, if_false, hw, if_true]
    simp
    intro hneg
    exact absurd heps (not_le.mpr hneg)
  · -- `mem_uIcc_of_mul_nonpos`
    intro u v w h
    rcases le_total u v with h1 | h1
    · rw [Set.uIcc_of_le h1]
      constructor <;> by_contra hc <;> push_neg at hc <;> nlinarith
    · rw [Set.uIcc_of_ge h1]
      constructor <;> by_contra hc <;> push_neg at hc <;> nlinarith
  · -- `l400_nested`
    intro f fw s hm hs hS
    by_cases hl : s.f1 * (f s.x - fw) > 0
    · have e1 : (s.l400 f fw).x1 = s.x := by delta Regfa.l400; simp [hl]
      have e2 : (s.l400 f fw).x2 = s.x2 := by delta Regfa.l400; simp [hl]
      rw [e1, e2]
      refine ⟨Set.uIcc_subset_uIcc hm Set.right_mem_uIcc, ?_⟩
      rw [← hS.2]
      exact (regfa_sign_kept s.f1 s.f2 (f s.x - fw) hs hl).1
    · have e1 : (s.l400 f fw).x1 = s.x1 := by delta Regfa.l400; simp [hl]
      have e2 : (s.l400 f fw).x2 = s.x := by delta Regfa.l400; simp [hl]
      rw [e1, e2]
      refine ⟨Set.uIcc_subset_uIcc Set.left_mem_uIcc hm, ?_⟩
      rw [← hS.1]
      exact not_lt.mp hl
  · -- `regfa1_first_on_target_state`
    intro f a b fx11 fx22 eps fw heps h1 h2 n
    have hx : (a * (fx22 - fw) - b * 0) / (fx22 - fw) = a := by
      field_simp
    have hw : |a - a| ≤ eps := by simpa using heps
    have hl : ¬ ((0 : ℝ) * (f a - fw) > 0) := by simp
    delta regfa1_ Regfa.start Regfa.l200
    simp only [h1, zero_mul, le_refl, if_true, sub_zero, h2, if_false, hx, regfaLoop_succ]
    delta Regfa.l400
    simp only [hl, decide_False, Bool.false_eq_true, if_false, hw, if_true]
    simp
    intro hneg
    exact absurd heps (not_le.mpr hneg)

/-- C8: for every `f` and seeds `a`, `b` whose values are of opposite sign relative to
the target `fw`, every `x` returned by `regfa1_` lies in the closed interval between
`a` and `b`, and for a positive tolerance such an `x` is returned. -/
theorem regfa1_in_bracket (f : ℝ → ℝ) (a b fx11 fx22 eps fw : ℝ)
    (hs : (fx11 - fw) * (fx22 - fw) < 0) :
    (∀ fuel s, regfa1_ fuel a b fx11 fx22 eps fw f = Outcome.done s →
      min a b ≤ s.x ∧ s.x ≤ max a b) ∧
    (0 < eps → ∃ N : ℕ, ∀ fuel, N ≤ fuel →
      ∃ s, regfa1_ fuel a b fx11 fx22 eps fw f = Outcome.done s ∧
        s.schalt = false ∧ min a b ≤ s.x ∧ s.x ≤ max a b) := by
  obtain ⟨-, -, -, -, -, -, -, -, -, -, -, -, -, -, -, -, regfa1_spec, -, regfa1_returns_bracket,
    -, -, -, -⟩ := regfa_facts
  have h1 : fx11 - fw ≠ 0 := by
    intro h0
    rw [h0, zero_mul] at hs
    exact lt_irrefl 0 hs
  constructor
  · intro fuel s hrun
    rcases regfa1_spec f a b fx11 fx22 eps fw hs.le h1 fuel with ⟨s1, hr, hB, _⟩ | ⟨hr, _⟩
    · rw [hrun] at hr
      have e : s = s1 := Outcome.done.inj hr
      rw [e]
      exact (Set.mem_uIcc.mp (hB.2.2.2.2.1 hB.2.2.2.1)).elim
        (fun h => ⟨by simp [h.1], by simp [h.2]⟩)
        (fun h => ⟨by simp [h.1], by simp [h.2]⟩)
    · rw [hrun] at hr
      simp at hr
  · intro heps
    obtain ⟨N, hN⟩ := regfa1_returns_bracket f a b fx11 fx22 eps fw heps hs.le h1
    refine ⟨N, fun fuel hfuel => ?_⟩
    obtain ⟨s, hr, hB, _⟩ := hN fuel hfuel
    have hm : s.x ∈ Set.Icc (min a b) (max a b) := hB.2.2.2.2.1 hB.2.2.2.1
    exact ⟨s, hr, hB.1, hm.1, hm.2⟩

theorem regfa1_in_bracket_witness :
    ((1 : ℝ) - 2) * (4 - 2) < 0 ∧
      ∀ fuel s, regfa1_ fuel 1 2 1 4 (1 / 1000) 2 (fun x => x * x) = Outcome.done s →
        min 1 2 ≤ s.x ∧ s.x ≤ max 1 2 :=
  ⟨by norm_num, (regfa1_in_bracket (fun x => x * x) 1 2 1 4 (1 / 1000) 2 (by norm_num)).1⟩

set_option maxHeartbeats 2000000 in
/-- Single passes of the loop of `regfa1_`: a pass that returns, a section pass, a regula-falsi
pass, and the passes of the run on the step function `jumpAtOne`. -/
theorem regfa_run_facts :
    -- `regfaLoop_exit`
    (∀ (f : ℝ → ℝ) (fw : ℝ) (n : ℕ) (s : Regfa ℝ)
        (_ : |(s.l400 f fw).x2 - (s.l400 f fw).x1| ≤ (s.l400 f fw).ep),
        regfaLoop f fw (n + 1) s = Outcome.done (s.l400 f fw)) ∧
    -- `regfaLoop_section`
    (∀ (f : ℝ → ℝ) (fw : ℝ) (n : ℕ) (s : Regfa ℝ)
        (_ : ¬ |(s.l400 f fw).x2 - (s.l400 f fw).x1| ≤ (s.l400 f fw).ep)
        (_ : (s.l400 f fw).k = true),
        regfaLoop f fw (n + 1) s = regfaLoop f fw n (s.l400 f fw).l300) ∧
    -- `regfaLoop_falsi`
    (∀ (f : ℝ → ℝ) (fw : ℝ) (n : ℕ) (s s2 : Regfa ℝ)
        (_ : ¬ |(s.l400 f fw).x2 - (s.l400 f fw).x1| ≤ (s.l400 f fw).ep)
        (_ : (s.l400 f fw).k = false) (_ : (s.l400 f fw).double.l200 = some s2),
        regfaLoop f fw (n + 1) s = regfaLoop f fw n s2) ∧
    -- `bisect_section_pass`
    (∀ (n j : ℕ) (w e : ℝ) (lk l1b : Bool) (_ : 0 < w)
        (_ : ¬ w / 2 ≤ e) (_ : j + 1 ≤ 20),
        regfaLoop jumpAtOne 0 (n + 1) (bisectState j w e false lk l1b) =
          regfaLoop jumpAtOne 0 n (bisectState (j + 1) (w / 2) e true true true)) ∧
    -- `bisect_falsi_pass`
    (∀ (n j : ℕ) (w e : ℝ) (_ : 0 < w)
        (_ : ¬ w / 2 ≤ e) (_ : j + 1 ≤ 20),
        regfaLoop jumpAtOne 0 (n + 1) (bisectState j w e true true true) =
          regfaLoop jumpAtOne 0 n (bisectState (j + 1) (w / 2) e false true true)) ∧
    -- `bisect_last_pass`
    (∀ (n j : ℕ) (w e : ℝ) (_ : 0 < w) (_ : w / 2 ≤ e)
        (_ : j + 1 ≤ 20),
        regfaLoop jumpAtOne 0 (n + 1) (bisectState j w e true true true) =
          Outcome.done { schalt := false, x := 1 - w / 2, x1 := 1 - w / 2, x2 := 1, f1 := -1,
                         f2 := 1, ep := e, ng := 2, lfd := j + 1, k := false, links := true,
                         l1 := true, evals := j + 1 }) ∧
    -- `bisect_passes`
    (∀ (e : ℝ) (_ : e < (1 / 4) ^ 9),
        ∀ m : ℕ, m ≤ 9 → ∃ lk l1b : Bool, ∀ n : ℕ,
          regfaLoop jumpAtOne 0 (n + 2 * m) (bisectState 0 1 e false false false) =
            regfaLoop jumpAtOne 0 n (bisectState (2 * m) ((1 / 4) ^ m) e false lk l1b)) := by
  obtain ⟨-, -, -, -, -, -, -, -, -, -, -, -, -, regfaLoop_succ, -, -, -, -, -, -, -, -, -⟩
    := regfa_facts
  refine and_of_imp ?_ fun regfaLoop_exit => and_of_imp ?_ fun regfaLoop_section =>
    and_of_imp ?_ fun regfaLoop_falsi => and_of_imp ?_ fun bisect_section_pass =>
    and_of_imp ?_ fun bisect_falsi_pass => and_of_imp ?_ fun bisect_last_pass => ?_
  · -- `regfaLoop_exit`
    intro f fw n s h
    simp only [regfaLoop_succ, h, if_true]
  · -- `regfaLoop_section`
    intro f fw n s hne hk
    simp only [regfaLoop_succ, hne, if_false, hk, if_true]
  · -- `regfaLoop_falsi`
    intro f fw n s s2 hne hk h2
    simp only [regfaLoop_succ, hne, if_false, hk, Bool.false_eq_true, h2]
  · -- `bisect_section_pass`
    intro n j w e lk l1b hw hne hj
    have hx : (1 : ℝ) - w / 2 < 1 := by linarith
    have hj2 : ¬ (j + 1 > 20) := by omega
    have hl : (-1 : ℝ) * (jumpAtOne (1 - w / 2) - 0) > 0 := by
      delta jumpAtOne; simp only [hx, if_true]
      norm_num
    have e1 : (bisectState j w e false lk l1b).l400 jumpAtOne 0 =
        { schalt := false, x := 1 - w / 2, x1 := 1 - w / 2, x2 := 1, f1 := -1, f2 := 1, ep := e,
          ng := 2, lfd := j + 1, k := true, links := true, l1 := l1b, evals := j + 1 } := by
      delta Regfa.l400 bisectState
      simp only [hl, hj2, decide_True, if_true, if_false, Bool.not_false]
      delta jumpAtOne; simp only [hx, if_true]
      norm_num
    have hab : |(1 : ℝ) - (1 - w / 2)| = w / 2 := by
      rw [show (1 : ℝ) - (1 - w / 2) = w / 2 by ring]
      exact abs_of_pos (by linarith)
    rw [regfaLoop_section jumpAtOne 0 n _ (by rw [e1]; simpa only [hab] using hne)
      (by rw [e1]), e1]
    congr 1
    delta Regfa.l300 bisectState; simp only [if_true]
    norm_num
    ring_nf
  · -- `bisect_falsi_pass`
    intro n j w e hw hne hj
    have hx : (1 : ℝ) - w / 2 < 1 := by linarith
    have hj2 : ¬ (j + 1 > 20) := by omega
    have hl : (-1 : ℝ) * (jumpAtOne (1 - w / 2) - 0) > 0 := by
      delta jumpAtOne; simp only [hx, if_true]
      norm_num
    have e1 : (bisectState j w e true true true).l400 jumpAtOne 0 =
        { schalt := false, x := 1 - w / 2, x1 := 1 - w / 2, x2 := 1, f1 := -1, f2 := 1, ep := e,
          ng := 2, lfd := j + 1, k := false, links := true, l1 := true, evals := j + 1 } := by
      delta Regfa.l400 bisectState
      simp only [hl, hj2, decide_True, if_true, if_false, Bool.not_true]
      delta jumpAtOne; simp only [hx, if_true]
      norm_num
    have hab : |(1 : ℝ) - (1 - w / 2)| = w / 2 := by
      rw [show (1 : ℝ) - (1 - w / 2) = w / 2 by ring]
      exact abs_of_pos (by linarith)
    refine regfaLoop_falsi jumpAtOne 0 n _ _ (by rw [e1]; simpa only [hab] using hne)
      (by rw [e1]) ?_
    rw [e1]
    delta Regfa.double Regfa.l200 bisectState; try dsimp only
    norm_num
    ring_nf
  · -- `bisect_last_pass`
    intro n j w e hw hle hj
    have hx : (1 : ℝ) - w / 2 < 1 := by linarith
    have hj2 : ¬ (j + 1 > 20) := by omega
    have hl : (-1 : ℝ) * (jumpAtOne (1 - w / 2) - 0) > 0 := by
      delta jumpAtOne; simp only [hx, if_true]
      norm_num
    have e1 : (bisectState j w e true true true).l400 jumpAtOne 0 =
        { schalt := false, x := 1 - w / 2, x1 := 1 - w / 2, x2 := 1, f1 := -1, f2 := 1, ep := e,
          ng := 2, lfd := j + 1, k := false, links := true, l1 := true, evals := j + 1 } := by
      delta Regfa.l400 bisectState
      simp only [hl, hj2, decide_True, if_true, if_false, Bool.not_true]
      delta jumpAtOne; simp only [hx, if_true]
      norm_num
    have hab : |(1 : ℝ) - (1 - w / 2)| = w / 2 := by
      rw [show (1 : ℝ) - (1 - w / 2) = w / 2 by ring]
      exact abs_of_pos (by linarith)
    rw [regfaLoop_exit jumpAtOne 0 n _ (by rw [e1]; simpa only [hab] using hle), e1]
  · -- `bisect_passes`
    intro e he
    intro m
    induction m with
    | zero =>
      intro _
      exact ⟨false, false, fun n => by simp⟩
    | succ m ih =>
      intro hm
      obtain ⟨lk, l1b, h⟩ := ih (by omega)
      refine ⟨true, true, fun n => ?_⟩
      have hw : (0 : ℝ) < (1 / 4) ^ m := by positivity
      have hge : ((1 : ℝ) / 4) ^ 9 ≤ (1 / 4) ^ (m + 1) :=
        pow_le_pow_of_le_one (by norm_num) (by norm_num) (by omega)
      have hq : ((1 : ℝ) / 4) ^ (m + 1) = (1 / 4) ^ m / 2 / 2 := by
        rw [pow_succ]
        ring
      have h1 : ¬ ((1 : ℝ) / 4) ^ m / 2 ≤ e := by
        rw [hq] at hge
        intro hc
        linarith
      have h2 : ¬ ((1 : ℝ) / 4) ^ m / 2 / 2 ≤ e := by
        rw [hq] at hge
        intro hc
        linarith
      have hf : n + 2 * (m + 1) = (n + 2) + 2 * m := by ring
      rw [hf, h (n + 2), bisect_section_pass (n + 1) (2 * m) _ e lk l1b hw h1 (by omega),
        bisect_falsi_pass n (2 * m + 1) _ e (by linarith) h2 (by omega), hq,
        show 2 * m + 1 + 1 = 2 * (m + 1) by ring]

/-- C9 (counterexample): for the continuous `f(x) = 100*x*x - 30`, target 0, tolerance 1
and the seeds 0, 1 with the values `f(0) = -30`, `f(1) = 70` of opposite sign, the first
regula-falsi point `x = 3/10` replaces `x1`, the bracket `[3/10, 1]` is no wider than
the tolerance, and `regfa1_` returns `x = 3/10`, where `|f(x) - fw| = 21 > 1`. -/
theorem regfa1_residual_example :
    ∃ s, regfa1_ 100 0 1 (-30) 70 1 0 (fun x => 100 * x * x - 30) = Outcome.done s ∧
      s.x = 3 / 10 ∧ s.schalt = false ∧ ¬ |(100 * s.x * s.x - 30) - 0| ≤ 1 := by
  obtain ⟨regfaLoop_exit, -, -, -, -, -, -⟩ := regfa_run_facts
  refine ⟨{ schalt := false, x := 3 / 10, x1 := 3 / 10, x2 := 1, f1 := -21, f2 := 70,
            ep := 1, ng := 2, lfd := 1, k := true, links := true, l1 := false,
            evals := 1 }, ?_, rfl, rfl, ?_⟩
  · have hrun : regfa1_ 100 0 1 (-30) 70 1 0 (fun x => 100 * x * x - 30) =
        regfaLoop (fun x => 100 * x * x - 30) 0 (99 + 1)
          { schalt := false, x := 3 / 10, x1 := 0, x2 := 1, f1 := -30, f2 := 70, ep := 1,
            ng := 2, lfd := 0, k := false, links := false, l1 := false, evals := 0 } := by
      delta regfa1_ Regfa.start Regfa.l200; try dsimp only
      norm_num
    have h4 : Regfa.l400 (fun x => 100 * x * x - 30) 0
          { schalt := false, x := 3 / 10, x1 := 0, x2 := 1, f1 := -30, f2 := 70, ep := 1,
            ng := 2, lfd := 0, k := false, links := false, l1 := false, evals := 0 } =
          { schalt := false, x := 3 / 10, x1 := 3 / 10, x2 := 1, f1 := -21, f2 := 70,
            ep := 1, ng := 2, lfd := 1, k := true, links := true, l1 := false,
            evals := 1 } := by
      delta Regfa.l400; try dsimp only
      norm_num
    rw [hrun, regfaLoop_exit _ _ _ _ (by rw [h4]; norm_num [abs_of_pos]), h4]
  · norm_num [abs_of_neg]

/-- C9 (amended): for every continuous `f`, tolerance `eps > 0` and seeds with
`f(a) - fw` and `f(b) - fw` of opposite sign, `regfa1_` returns an end `x` of a bracket
`[x1, x2]` no wider than `ep = eps*10^(evals/21)` (the tolerance after the relaxations
made), and that bracket contains a point `z` with `f(z) = fw`; so `|x - z| <= ep`.
The bound is on the distance to a solution, not on `|f(x) - fw|`. -/
theorem regfa1_root_within_ep (f : ℝ → ℝ) (hf : Continuous f) (a b eps fw : ℝ)
    (heps : 0 < eps) (hs : (f a - fw) * (f b - fw) < 0) :
    ∃ N : ℕ, ∀ fuel, N ≤ fuel →
      ∃ s, regfa1_ fuel a b (f a) (f b) eps fw f = Outcome.done s ∧ s.schalt = false ∧
        (s.x = s.x1 ∨ s.x = s.x2) ∧ |s.x2 - s.x1| ≤ s.ep ∧
        s.ep = eps * 10 ^ (s.evals / 21) ∧
        ∃ z, z ∈ Set.uIcc s.x1 s.x2 ∧ f z = fw ∧ |s.x - z| ≤ s.ep := by
  obtain ⟨-, -, -, -, -, -, -, -, -, -, -, -, -, -, -, -, -, -, regfa1_returns_bracket, -,
    mem_uIcc_of_mul_nonpos, -, -⟩ := regfa_facts
  have h1 : f a - fw ≠ 0 := by
    intro h0
    rw [h0, zero_mul] at hs
    exact lt_irrefl 0 hs
  obtain ⟨N, hN⟩ := regfa1_returns_bracket f a b (f a) (f b) eps fw heps hs.le h1
  refine ⟨N, fun fuel hfuel => ?_⟩
  obtain ⟨s, hr, hB, hE, hW, _, hS⟩ := hN fuel hfuel
  obtain ⟨hs1, hs2⟩ := hS rfl rfl
  have hsign : (f s.x1 - fw) * (f s.x2 - fw) ≤ 0 := by
    rw [← hs1, ← hs2]
    exact hB.2.1
  have hfw : fw ∈ Set.uIcc (f s.x1) (f s.x2) := mem_uIcc_of_mul_nonpos _ _ _ hsign
  obtain ⟨z, hz, hfz⟩ := intermediate_value_uIcc hf.continuousOn hfw
  have hd : |s.x - z| ≤ |s.x2 - s.x1| :=
    Set.abs_sub_le_of_uIcc_subset_uIcc (Set.uIcc_subset_uIcc hz hB.2.2.2.1)
  exact ⟨s, hr, hB.1, hE, hW, hB.2.2.2.2.2.2, z, hz, hfz, hd.trans hW⟩

theorem regfa1_root_within_ep_witness :
    Continuous (fun x : ℝ => x) ∧ (0 : ℝ) < 1 / 1000 ∧
      (((0 : ℝ) - 1 / 2) * (1 - 1 / 2) < 0) ∧
      ∃ N : ℕ, ∀ fuel, N ≤ fuel →
        ∃ s, regfa1_ fuel 0 1 0 1 (1 / 1000) (1 / 2) (fun x => x) = Outcome.done s ∧
          s.schalt = false ∧ (s.x = s.x1 ∨ s.x = s.x2) ∧ |s.x2 - s.x1| ≤ s.ep ∧
          s.ep = 1 / 1000 * 10 ^ (s.evals / 21) ∧
          ∃ z, z ∈ Set.uIcc s.x1 s.x2 ∧ (fun x : ℝ => x) z = 1 / 2 ∧ |s.x - z| ≤ s.ep :=
  ⟨continuous_id, by norm_num, by norm_num,
    regfa1_root_within_ep (fun x => x) continuous_id 0 1 (1 / 1000) (1 / 2) (by norm_num)
      (by norm_num)⟩

/-- C10: when both seed values equal the target, `f1 = f2 = 0` passes the test
`f1*f2 <= 0` and the quotient at `L200` is `0/0`: the run has no return, whatever the
pass bound, the tolerance and `f` are. -/
theorem regfa1_degenerate_seeds (f : ℝ → ℝ) (a b eps fw : ℝ) (fuel : ℕ) :
    regfa1_ fuel a b fw fw eps fw f = Outcome.undefinedQuotient := by
  delta regfa1_ Regfa.start Regfa.l200; simp

/-! ## The `B1` ladder (C19, C20) -/

set_option maxHeartbeats 2000000 in
/-- Facts about the `B1` ladder: the values `b1` takes, the retries of a run whose searches all
fail, and the look-ups in the table `b0b1`. -/
theorem ladder_facts :
    -- `B1Rung_next`
    (∀ (b1 : ℝ) (_ : B1Rung b1) (_ : ¬ b1 > 4.5), B1Rung (b1 + 0.5)) ∧
    -- `state_root`
    (∀ (st : Ladder ℝ) (hst hf1 : ℝ), (Resolved.root st hst hf1).state = st) ∧
    -- `state_linear`
    (∀ (st : Ladder ℝ), (Resolved.linear st).state = st) ∧
    -- `state_outOfFuel`
    (∀ (st : Ladder ℝ), (Resolved.outOfFuel st).state = st) ∧
    -- `ladder_zero`
    (∀ (gulb0 : Bool) (b0cnew : ℝ) (f1top : Blocks ℝ → ℝ → Bool × ℝ)
        (hstSearch : Blocks ℝ → ℝ → Bool → HstSearch ℝ) (l : Label) (st : Ladder ℝ),
        ladder gulb0 b0cnew f1top hstSearch 0 l st = Resolved.outOfFuel st) ∧
    -- `ladder_l924`
    (∀ (gulb0 : Bool) (b0cnew : ℝ) (f1top : Blocks ℝ → ℝ → Bool × ℝ)
        (hstSearch : Blocks ℝ → ℝ → Bool → HstSearch ℝ) (n : ℕ) (st : Ladder ℝ),
        ladder gulb0 b0cnew f1top hstSearch (n + 1) Label.l924 st =
          if st.f1reg then
            let st1 : Ladder ℝ :=
              { st with s := { st.s with hmf1 := (f1top st.s st.nmf1).2 },
                        tried := st.tried ++ [st.s.b1] }
            if (f1top st.s st.nmf1).1 then
              ladder gulb0 b0cnew f1top hstSearch n Label.l9244 { st1 with iregfa := 1 }
            else ladder gulb0 b0cnew f1top hstSearch n Label.l380 st1
          else ladder gulb0 b0cnew f1top hstSearch n Label.l380 st) ∧
    -- `ladder_l9244`
    (∀ (gulb0 : Bool) (b0cnew : ℝ) (f1top : Blocks ℝ → ℝ → Bool × ℝ)
        (hstSearch : Blocks ℝ → ℝ → Bool → HstSearch ℝ) (n : ℕ) (st : Ladder ℝ),
        ladder gulb0 b0cnew f1top hstSearch (n + 1) Label.l9244 st =
          if st.s.b1 > 4.5 ∧ st.iregfa = 1 then
            ladder gulb0 b0cnew f1top hstSearch n Label.l380
              { st with s := { st.s with hmf1 := 0, c1 := 0, b1 := 3 }, nmf1 := 0, f1reg := false }
          else if st.s.b1 > 4.5 ∧ st.iregfa = 2 then Resolved.linear st
          else
            let b1 := st.s.b1 + 0.5
            let b0 := if gulb0 then b0cnew / b0b1.getD (⌊b1 * 2 - 5⌋ - 1).toNat 0 else st.s.b0
            ladder gulb0 b0cnew f1top hstSearch n Label.l924
              { st with s := { st.s with b1 := b1, b0 := b0 } }) ∧
    -- `ladder_l380`
    (∀ (gulb0 : Bool) (b0cnew : ℝ) (f1top : Blocks ℝ → ℝ → Bool × ℝ)
        (hstSearch : Blocks ℝ → ℝ → Bool → HstSearch ℝ) (n : ℕ) (st : Ladder ℝ),
        ladder gulb0 b0cnew f1top hstSearch (n + 1) Label.l380 st =
          match hstSearch st.s st.nmf1 st.f1reg with
          | HstSearch.found hst hf1 =>
            Resolved.root { st with s := { st.s with hst := hst }, hf1 := hf1,
                                    tried := st.tried ++ [st.s.b1] } hst hf1
          | HstSearch.failed xxmin hhmin hf1 =>
            let st1 : Ladder ℝ :=
              { st with iregfa := 2, hhmin := hhmin, hf1 := hf1, tried := st.tried ++ [st.s.b1] }
            if xxmin / st.s.xnme < 1.3 then
              ladder gulb0 b0cnew f1top hstSearch n Label.l9244 st1
            else Resolved.linear st1) ∧
    -- `ladder_rungs`
    (∀ (gulb0 : Bool) (b0cnew : ℝ) (f1top : Blocks ℝ → ℝ → Bool × ℝ)
        (hstSearch : Blocks ℝ → ℝ → Bool → HstSearch ℝ),
        ∀ (fuel : ℕ) (l : Label) (st : Ladder ℝ), B1Rung st.s.b1 → (∀ v ∈ st.tried, B1Rung v) →
          (l = Label.l9244 → st.iregfa = 1 ∨ st.iregfa = 2) →
          ∀ v ∈ (ladder gulb0 b0cnew f1top hstSearch fuel l st).state.tried, B1Rung v) ∧
    -- `ladder_retry`
    (∀ (gulb0 : Bool) (b0cnew : ℝ) (f1top : Blocks ℝ → ℝ → Bool × ℝ)
        (hstSearch : Blocks ℝ → ℝ → Bool → HstSearch ℝ) (_ : ∀ s n, (f1top s n).1 = true)
        (n : ℕ) (st : Ladder ℝ) (_ : st.f1reg = true) (_ : ¬ st.s.b1 > 4.5),
        ladder gulb0 b0cnew f1top hstSearch (n + 2) Label.l924 st =
          ladder gulb0 b0cnew f1top hstSearch n Label.l924
            { st with s := { st.s with hmf1 := (f1top st.s st.nmf1).2, b1 := st.s.b1 + 0.5,
                                       b0 := if gulb0 then b0cnew /
                                         b0b1.getD (⌊(st.s.b1 + 0.5) * 2 - 5⌋ - 1).toNat 0
                                         else st.s.b0 },
                      tried := st.tried ++ [st.s.b1], iregfa := 1 }) ∧
    -- `ladder_omit`
    (∀ (gulb0 : Bool) (b0cnew : ℝ) (f1top : Blocks ℝ → ℝ → Bool × ℝ)
        (hstSearch : Blocks ℝ → ℝ → Bool → HstSearch ℝ) (_ : ∀ s n, (f1top s n).1 = true)
        (n : ℕ) (st : Ladder ℝ) (_ : st.f1reg = true) (_ : st.s.b1 > 4.5),
        ladder gulb0 b0cnew f1top hstSearch (n + 2) Label.l924 st =
          ladder gulb0 b0cnew f1top hstSearch n Label.l380
            { st with s := { st.s with hmf1 := 0, c1 := 0, b1 := 3 }, nmf1 := 0, f1reg := false,
                      tried := st.tried ++ [st.s.b1], iregfa := 1 }) ∧
    -- `ladder_all_fail`
    (∀ (gulb0 : Bool) (b0cnew : ℝ) (f1top : Blocks ℝ → ℝ → Bool × ℝ)
        (hstSearch : Blocks ℝ → ℝ → Bool → HstSearch ℝ) (_ : ∀ s n, (f1top s n).1 = true)
        (s : Blocks ℝ) (nmf1 : ℝ) (n : ℕ),
        ∃ st, ladder gulb0 b0cnew f1top hstSearch (n + 2 + 2 + 2 + 2 + 2) Label.l924
            (Ladder.start s nmf1 true) = ladder gulb0 b0cnew f1top hstSearch n Label.l380 st ∧
          st.s.hmf1 = 0 ∧ st.nmf1 = 0 ∧ st.s.c1 = 0 ∧ st.s.b1 = 3 ∧ st.f1reg = false ∧
          st.tried = [3, 3.5, 4, 4.5, 5] ∧ st.s.xnme = s.xnme) ∧
    -- `ladderLog_zero`
    (∀ (gulb0 : Bool) (b0cnew : ℝ) (f1top : Blocks ℝ → ℝ → Bool × ℝ)
        (hstSearch : Blocks ℝ → ℝ → Bool → HstSearch ℝ) (l : Label) (st : Ladder ℝ),
        ladderLog gulb0 b0cnew f1top hstSearch 0 l st = ([], [])) ∧
    -- `ladderLog_l924`
    (∀ (gulb0 : Bool) (b0cnew : ℝ) (f1top : Blocks ℝ → ℝ → Bool × ℝ)
        (hstSearch : Blocks ℝ → ℝ → Bool → HstSearch ℝ) (n : ℕ) (st : Ladder ℝ),
        ladderLog gulb0 b0cnew f1top hstSearch (n + 1) Label.l924 st =
          if st.f1reg then
            let st1 : Ladder ℝ :=
              { st with s := { st.s with hmf1 := (f1top st.s st.nmf1).2 },
                        tried := st.tried ++ [st.s.b1] }
            let r :=
              if (f1top st.s st.nmf1).1 then
                ladderLog gulb0 b0cnew f1top hstSearch n Label.l9244 { st1 with iregfa := 1 }
              else ladderLog gulb0 b0cnew f1top hstSearch n Label.l380 st1
            ({ hst := false, b1 := st.s.b1, b0 := st.s.b0 } :: r.1, r.2)
          else ladderLog gulb0 b0cnew f1top hstSearch n Label.l380 st) ∧
    -- `ladderLog_l9244`
    (∀ (gulb0 : Bool) (b0cnew : ℝ) (f1top : Blocks ℝ → ℝ → Bool × ℝ)
        (hstSearch : Blocks ℝ → ℝ → Bool → HstSearch ℝ) (n : ℕ) (st : Ladder ℝ),
        ladderLog gulb0 b0cnew f1top hstSearch (n + 1) Label.l9244 st =
          if st.s.b1 > 4.5 ∧ st.iregfa = 1 then
            ladderLog gulb0 b0cnew f1top hstSearch n Label.l380
              { st with s := { st.s with hmf1 := 0, c1 := 0, b1 := 3 }, nmf1 := 0, f1reg := false }
          else if st.s.b1 > 4.5 ∧ st.iregfa = 2 then ([], [])
          else
            let b1 := st.s.b1 + 0.5
            let b0 := if gulb0 then b0cnew / b0b1.getD (⌊b1 * 2 - 5⌋ - 1).toNat 0 else st.s.b0
            let r := ladderLog gulb0 b0cnew f1top hstSearch n Label.l924
              { st with s := { st.s with b1 := b1, b0 := b0 } }
            (r.1, if gulb0 then ⌊b1 * 2 - 5⌋ :: r.2 else r.2)) ∧
    -- `ladderLog_l380`
    (∀ (gulb0 : Bool) (b0cnew : ℝ) (f1top : Blocks ℝ → ℝ → Bool × ℝ)
        (hstSearch : Blocks ℝ → ℝ → Bool → HstSearch ℝ) (n : ℕ) (st : Ladder ℝ),
        ladderLog gulb0 b0cnew f1top hstSearch (n + 1) Label.l380 st =
          match hstSearch st.s st.nmf1 st.f1reg with
          | HstSearch.found _ _ => ([{ hst := true, b1 := st.s.b1, b0 := st.s.b0 }], [])
          | HstSearch.failed xxmin hhmin hf1 =>
            let st1 : Ladder ℝ :=
              { st with iregfa := 2, hhmin := hhmin, hf1 := hf1, tried := st.tried ++ [st.s.b1] }
            let r :=
              if xxmin / st.s.xnme < 1.3 then
                ladderLog gulb0 b0cnew f1top hstSearch n Label.l9244 st1
              else ([], [])
            ({ hst := true, b1 := st.s.b1, b0 := st.s.b0 } :: r.1, r.2)) ∧
    -- `ladderLog_tried`
    (∀ (gulb0 : Bool) (b0cnew : ℝ) (f1top : Blocks ℝ → ℝ → Bool × ℝ)
        (hstSearch : Blocks ℝ → ℝ → Bool → HstSearch ℝ),
        ∀ (fuel : ℕ) (l : Label) (st : Ladder ℝ),
          (ladder gulb0 b0cnew f1top hstSearch fuel l st).state.tried =
            st.tried ++ (ladderLog gulb0 b0cnew f1top hstSearch fuel l st).1.map Searched.b1) ∧
    -- `b0b1_index_bounds`
    (∀ (b1 : ℝ) (_ : B1Rung b1),
        1 ≤ ⌊b1 * 2 - 5⌋ ∧ ⌊b1 * 2 - 5⌋ ≤ 5) ∧
    -- `ladderLog_lookups`
    (∀ (gulb0 : Bool) (b0cnew : ℝ) (f1top : Blocks ℝ → ℝ → Bool × ℝ)
        (hstSearch : Blocks ℝ → ℝ → Bool → HstSearch ℝ),
        ∀ (fuel : ℕ) (l : Label) (st : Ladder ℝ), B1Rung st.s.b1 →
          (l = Label.l9244 → st.iregfa = 1 ∨ st.iregfa = 2) →
          ∀ i ∈ (ladderLog gulb0 b0cnew f1top hstSearch fuel l st).2, 1 ≤ i ∧ i ≤ 5) ∧
    -- `b0b1_index_shift`
    (∀ (b1 : ℝ), (⌊b1 * 2 - 5⌋ - 1).toNat = ⌊2 * b1 - 6⌋.toNat) ∧
    -- `ladderLog_b0`
    (∀ (b0cnew : ℝ) (f1top : Blocks ℝ → ℝ → Bool × ℝ)
        (hstSearch : Blocks ℝ → ℝ → Bool → HstSearch ℝ),
        ∀ (fuel : ℕ) (l : Label) (st : Ladder ℝ), B1Rung st.s.b1 →
          (l = Label.l9244 → st.iregfa = 1 ∨ st.iregfa = 2) →
          (st.s.b0 = b0cnew / b0b1.getD ⌊2 * st.s.b1 - 6⌋.toNat 0 ∨
            (st.f1reg = false ∧ st.s.b1 = 3 ∧ st.s.b0 = b0cnew / b0b1.getD 4 0)) →
          ∀ p ∈ (ladderLog true b0cnew f1top hstSearch fuel l st).1,
            (p.hst = false → p.b0 = b0cnew / b0b1.getD ⌊2 * p.b1 - 6⌋.toNat 0) ∧
            (p.b0 = b0cnew / b0b1.getD ⌊2 * p.b1 - 6⌋.toNat 0 ∨
              (p.hst = true ∧ p.b1 = 3 ∧ p.b0 = b0cnew / b0b1.getD 4 0))) ∧
    -- `ladderLog_retry`
    (∀ (b0cnew : ℝ) (f1top : Blocks ℝ → ℝ → Bool × ℝ)
        (hstSearch : Blocks ℝ → ℝ → Bool → HstSearch ℝ) (_ : ∀ s n, (f1top s n).1 = true)
        (n : ℕ) (st : Ladder ℝ) (_ : st.f1reg = true) (_ : ¬ st.s.b1 > 4.5) (p : Searched ℝ)
        (_ : p ∈ (ladderLog true b0cnew f1top hstSearch n Label.l924
            { st with s := { st.s with hmf1 := (f1top st.s st.nmf1).2, b1 := st.s.b1 + 0.5,
                                       b0 := b0cnew /
                                         b0b1.getD (⌊(st.s.b1 + 0.5) * 2 - 5⌋ - 1).toNat 0 },
                      tried := st.tried ++ [st.s.b1], iregfa := 1 }).1),
        p ∈ (ladderLog true b0cnew f1top hstSearch (n + 2) Label.l924 st).1) ∧
    -- `ladderLog_omit`
    (∀ (b0cnew : ℝ) (f1top : Blocks ℝ → ℝ → Bool × ℝ)
        (hstSearch : Blocks ℝ → ℝ → Bool → HstSearch ℝ) (_ : ∀ s n, (f1top s n).1 = true)
        (n : ℕ) (st : Ladder ℝ) (_ : st.f1reg = true) (_ : st.s.b1 > 4.5),
        ({ hst := true, b1 := 3, b0 := st.s.b0 } : Searched ℝ) ∈
          (ladderLog true b0cnew f1top hstSearch (n + 1 + 2) Label.l924 st).1) := by
  refine and_of_imp ?_ fun B1Rung_next => and_of_imp ?_ fun state_root =>
    and_of_imp ?_ fun state_linear => and_of_imp ?_ fun state_outOfFuel =>
    and_of_imp ?_ fun ladder_zero => and_of_imp ?_ fun ladder_l924 =>
    and_of_imp ?_ fun ladder_l9244 => and_of_imp ?_ fun ladder_l380 =>
    and_of_imp ?_ fun ladder_rungs => and_of_imp ?_ fun ladder_retry =>
    and_of_imp ?_ fun ladder_omit => and_of_imp ?_ fun ladder_all_fail =>
    and_of_imp ?_ fun ladderLog_zero => and_of_imp ?_ fun ladderLog_l924 =>
    and_of_imp ?_ fun ladderLog_l9244 => and_of_imp ?_ fun ladderLog_l380 =>
    and_of_imp ?_ fun ladderLog_tried => and_of_imp ?_ fun b0b1_index_bounds =>
    and_of_imp ?_ fun ladderLog_lookups => and_of_imp ?_ fun b0b1_index_shift =>
    and_of_imp ?_ fun ladderLog_b0 => and_of_imp ?_ fun ladderLog_retry => ?_
  · -- `B1Rung_next`
    intro b1 h hle
    rcases h with h | h | h | h | h
    · right; left; rw [h]; norm_num
    · right; right; left; rw [h]; norm_num
    · right; right; right; left; rw [h]; norm_num
    · right; right; right; right; rw [h]; norm_num
    · exact absurd (by rw [h]; norm_num) hle
  · -- `state_root`
    intro st hst hf1
    exact rfl
  · -- `state_linear`
    intro st
    exact rfl
  · -- `state_outOfFuel`
    intro st
    exact rfl
  · -- `ladder_zero`
    intro gulb0 b0cnew f1top hstSearch l st
    exact rfl
  · -- `ladder_l924`
    intro gulb0 b0cnew f1top hstSearch n st
    exact rfl
  · -- `ladder_l9244`
    intro gulb0 b0cnew f1top hstSearch n st
    exact rfl
  · -- `ladder_l380`
    intro gulb0 b0cnew f1top hstSearch n st
    exact rfl
  · -- `ladder_rungs`: Every search of a run is started with `b1` on one of the five rungs,
    -- whatever the searches return and wherever the run stands when the bound is reached.
    intro gulb0 b0cnew f1top hstSearch
    intro fuel
    induction fuel with
    | zero =>
      intro l st _ ht _
      exact ht
    | succ n ih =>
      intro l st hb ht hi
      have n924 : Label.l924 = Label.l9244 → ∀ st1 : Ladder ℝ, st1.iregfa = 1 ∨ st1.iregfa = 2 :=
        fun h => Label.noConfusion h
      have n380 : Label.l380 = Label.l9244 → ∀ st1 : Ladder ℝ, st1.iregfa = 1 ∨ st1.iregfa = 2 :=
        fun h => Label.noConfusion h
      have hadd : ∀ v ∈ st.tried ++ [st.s.b1], B1Rung v := by
        intro v hv
        rcases List.mem_append.mp hv with h | h
        · exact ht v h
        · rw [List.mem_singleton.mp h]
          exact hb
      cases l with
      | l924 =>
        rw [ladder_l924]
        by_cases hf : st.f1reg = true
        · by_cases hsch : (f1top st.s st.nmf1).1 = true
          · simp only [hf, hsch, if_true]
            exact ih _ _ hb hadd (fun _ => Or.inl rfl)
          · simp only [hf, hsch, if_true, if_false]
            exact ih _ _ hb hadd (fun h => n380 h _)
        · simp only [hf, if_false]
          exact ih _ _ hb ht (fun h => n380 h _)
      | l9244 =>
        rw [ladder_l9244]
        by_cases h1 : st.s.b1 > 4.5 ∧ st.iregfa = 1
        · simp only [h1, and_self, if_true]
          exact ih _ _ (Or.inl rfl) ht (fun h => n380 h _)
        · by_cases h2 : st.s.b1 > 4.5 ∧ st.iregfa = 2
          · simp only [h1, h2, and_self, if_true, if_false]
            exact ht
          · simp only [h1, h2, if_false]
            have hgt : ¬ st.s.b1 > 4.5 := by
              intro hgt
              rcases hi rfl with h | h
              · exact h1 ⟨hgt, h⟩
              · exact h2 ⟨hgt, h⟩
            exact ih _ _ (B1Rung_next _ hb hgt) ht (fun h => n924 h _)
      | l380 =>
        rw [ladder_l380]
        cases hh : hstSearch st.s st.nmf1 st.f1reg with
        | found hst hf1 =>
          simp only [hh]
          exact hadd
        | failed xxmin hhmin hf1 =>
          simp only [hh]
          by_cases hx : xxmin / st.s.xnme < 1.3
          · simp only [hx, if_true]
            exact ih _ _ hb hadd (fun _ => Or.inr rfl)
          · simp only [hx, if_false]
            exact hadd
  · -- `ladder_retry`: One pass from `L924` to `L9244` and back when the search on `xe2_` fails
    -- and `b1` is not above 4.5: `b1` is raised by 0.5 and the value just tried is recorded.
    intro gulb0 b0cnew f1top hstSearch hfail n st hf hle
    simp only [ladder_l924, ladder_l9244, hf, hfail, if_true, hle, false_and, if_false]
  · -- `ladder_omit`: the pass from `L924` through `L9244` to `L7398` and `L380` when the
    -- search on `xe2_` fails with `b1` above 4.5.
    intro gulb0 b0cnew f1top hstSearch hfail n st hf hgt
    simp only [ladder_l924, ladder_l9244, hf, hfail, if_true, hgt, and_self]
  · -- `ladder_all_fail`: When the search on `xe2_` fails at every call, a run entered at
    -- `L924` with an F1 region tries `b1 = 3, 3.5, 4, 4.5, 5`, then takes `L7398` and stands
    -- at `L380` with the F1 region removed.
    intro gulb0 b0cnew f1top hstSearch hfail s nmf1 n
    refine ⟨_, (ladder_retry gulb0 b0cnew f1top hstSearch hfail _ _ rfl
      (by delta Ladder.start; norm_num)).trans
      ((ladder_retry gulb0 b0cnew f1top hstSearch hfail _ _ rfl
        (by delta Ladder.start; norm_num)).trans
      ((ladder_retry gulb0 b0cnew f1top hstSearch hfail _ _ rfl
        (by delta Ladder.start; norm_num)).trans
      ((ladder_retry gulb0 b0cnew f1top hstSearch hfail _ _ rfl
        (by delta Ladder.start; norm_num)).trans
      (ladder_omit gulb0 b0cnew f1top hstSearch hfail _ _ rfl
        (by delta Ladder.start; norm_num))))), rfl, rfl, rfl, rfl, rfl, ?_, rfl⟩
    delta Ladder.start; norm_num
  · -- `ladderLog_zero`
    intro gulb0 b0cnew f1top hstSearch l st
    exact rfl
  · -- `ladderLog_l924`
    intro gulb0 b0cnew f1top hstSearch n st
    exact rfl
  · -- `ladderLog_l9244`
    intro gulb0 b0cnew f1top hstSearch n st
    exact rfl
  · -- `ladderLog_l380`
    intro gulb0 b0cnew f1top hstSearch n st
    exact rfl
  · -- `ladderLog_tried`: the searches recorded by `ladderLog` are those of `ladder`: their
    -- values of `b1` are the entries that the run appends to `tried`.
    intro gulb0 b0cnew f1top hstSearch
    intro fuel
    induction fuel with
    | zero =>
      intro l st
      simp [ladder_zero, ladderLog_zero, state_outOfFuel]
    | succ n ih =>
      intro l st
      cases l with
      | l924 =>
        rw [ladder_l924, ladderLog_l924]
        by_cases hf : st.f1reg = true
        · by_cases hsch : (f1top st.s st.nmf1).1 = true
          · simp only [hf, hsch, if_true]
            rw [ih]
            simp
          · simp only [hf, hsch, if_true, if_false, Bool.false_eq_true]
            rw [ih]
            simp
        · simp only [hf, if_false]
          exact ih _ _
      | l9244 =>
        rw [ladder_l9244, ladderLog_l9244]
        by_cases h1 : st.s.b1 > 4.5 ∧ st.iregfa = 1
        · simp only [h1, and_self, if_true]
          exact ih _ _
        · by_cases h2 : st.s.b1 > 4.5 ∧ st.iregfa = 2
          · simp only [h1, h2, and_self, if_true, if_false]
            simp [state_root, state_linear, state_outOfFuel]
          · simp only [h1, h2, if_false]
            exact ih _ _
      | l380 =>
        rw [ladder_l380, ladderLog_l380]
        cases hh : hstSearch st.s st.nmf1 st.f1reg with
        | found hst hf1 =>
          simp [state_root, state_linear, state_outOfFuel]
        | failed xxmin hhmin hf1 =>
          simp only
          by_cases hx : xxmin / st.s.xnme < 1.3
          · simp only [hx, if_true]
            rw [ih]
            simp
          · simp only [hx, if_false]
            simp [state_root, state_linear, state_outOfFuel]
  · -- `b0b1_index_bounds`
    intro b1 h
    rcases h with h | h | h | h | h
    · rw [h, show (3 : ℝ) * 2 - 5 = ((1 : ℤ) : ℝ) by norm_num, Int.floor_intCast]
      norm_num
    · rw [h, show (3.5 : ℝ) * 2 - 5 = ((2 : ℤ) : ℝ) by norm_num, Int.floor_intCast]
      norm_num
    · rw [h, show (4 : ℝ) * 2 - 5 = ((3 : ℤ) : ℝ) by norm_num, Int.floor_intCast]
      norm_num
    · rw [h, show (4.5 : ℝ) * 2 - 5 = ((4 : ℤ) : ℝ) by norm_num, Int.floor_intCast]
      norm_num
    · rw [h, show (5 : ℝ) * 2 - 5 = ((5 : ℤ) : ℝ) by norm_num, Int.floor_intCast]
      norm_num
  · -- `ladderLog_lookups`: Every look-up of a run is made with an index between 1 and 5,
    -- whatever the searches return.
    intro gulb0 b0cnew f1top hstSearch
    intro fuel
    induction fuel with
    | zero =>
      intro l st _ _ i hi
      simp [ladderLog_zero] at hi
    | succ n ih =>
      intro l st hb hi
      have n924 : Label.l924 = Label.l9244 → ∀ st1 : Ladder ℝ, st1.iregfa = 1 ∨ st1.iregfa = 2 :=
        fun h => Label.noConfusion h
      have n380 : Label.l380 = Label.l9244 → ∀ st1 : Ladder ℝ, st1.iregfa = 1 ∨ st1.iregfa = 2 :=
        fun h => Label.noConfusion h
      cases l with
      | l924 =>
        rw [ladderLog_l924]
        by_cases hf : st.f1reg = true
        · by_cases hsch : (f1top st.s st.nmf1).1 = true
          · simp only [hf, hsch, if_true]
            exact ih _ _ hb (fun _ => Or.inl rfl)
          · simp only [hf, hsch, if_true, if_false, Bool.false_eq_true]
            exact ih _ _ hb (fun h => n380 h _)
        · simp only [hf, if_false]
          exact ih _ _ hb (fun h => n380 h _)
      | l9244 =>
        rw [ladderLog_l9244]
        by_cases h1 : st.s.b1 > 4.5 ∧ st.iregfa = 1
        · simp only [h1, and_self, if_true]
          exact ih _ _ (Or.inl rfl) (fun h => n380 h _)
        · by_cases h2 : st.s.b1 > 4.5 ∧ st.iregfa = 2
          · simp only [h1, h2, and_self, if_true, if_false]
            intro i hi
            simp at hi
          · simp only [h1, h2, if_false]
            have hgt : ¬ st.s.b1 > 4.5 := by
              intro hgt
              rcases hi rfl with h | h
              · exact h1 ⟨hgt, h⟩
              · exact h2 ⟨hgt, h⟩
            have hnext := B1Rung_next _ hb hgt
            have hrec := ih Label.l924
              { st with s := { st.s with b1 := st.s.b1 + 0.5,
                                         b0 := if gulb0 = true then b0cnew /
                                           b0b1.getD (⌊(st.s.b1 + 0.5) * 2 - 5⌋ - 1).toNat 0
                                           else st.s.b0 } }
              hnext (fun h => n924 h _)
            intro i hi
            cases gulb0 with
            | false =>
              simp only [Bool.false_eq_true, if_false] at hi hrec
              exact hrec i hi
            | true =>
              simp only [if_true] at hi hrec
              rcases List.mem_cons.mp hi with h | h
              · rw [h]
                exact b0b1_index_bounds _ hnext
              · exact hrec i h
      | l380 =>
        rw [ladderLog_l380]
        cases hh : hstSearch st.s st.nmf1 st.f1reg with
        | found hst hf1 =>
          intro i hi
          simp at hi
        | failed xxmin hhmin hf1 =>
          simp only
          by_cases hx : xxmin / st.s.xnme < 1.3
          · simp only [hx, if_true]
            exact ih _ _ hb (fun _ => Or.inr rfl)
          · simp only [hx, if_false]
            intro i hi
            simp at hi
  · -- `b0b1_index_shift`
    intro b1
    rw [← Int.floor_sub_one, show b1 * 2 - 5 - 1 = 2 * b1 - 6 by ring]
  · -- `ladderLog_b0`: with `b0` taken from the table, every search on `xe2_` runs with the
    -- entry of the table for the current `b1`, and so does every `HST` search but those made
    -- between the removal of the F1 region and the next change of `b1`, which run with `b1 =
    -- 3` and the entry for `b1 = 5`.
    intro b0cnew f1top hstSearch
    intro fuel
    induction fuel with
    | zero =>
      intro l st _ _ _ p hp
      simp [ladderLog_zero] at hp
    | succ n ih =>
      intro l st hb hi hc
      have n924 : Label.l924 = Label.l9244 → ∀ st1 : Ladder ℝ, st1.iregfa = 1 ∨ st1.iregfa = 2 :=
        fun h => Label.noConfusion h
      have n380 : Label.l380 = Label.l9244 → ∀ st1 : Ladder ℝ, st1.iregfa = 1 ∨ st1.iregfa = 2 :=
        fun h => Label.noConfusion h
      cases l with
      | l924 =>
        rw [ladderLog_l924]
        by_cases hf : st.f1reg = true
        · have hcons : st.s.b0 = b0cnew / b0b1.getD ⌊2 * st.s.b1 - 6⌋.toNat 0 := by
            rcases hc with h | ⟨h, _⟩
            · exact h
            · rw [hf] at h
              exact absurd h (by simp)
          by_cases hsch : (f1top st.s st.nmf1).1 = true
          · simp only [hf, hsch, if_true]
            intro p hp
            rcases List.mem_cons.mp hp with h | h
            · rw [h]
              exact ⟨fun _ => hcons, Or.inl hcons⟩
            · refine ih _ _ ?_ ?_ ?_ p h
              · exact hb
              · exact fun _ => Or.inl rfl
              · exact Or.inl hcons
          · simp only [hf, hsch, if_true, if_false, Bool.false_eq_true]
            intro p hp
            rcases List.mem_cons.mp hp with h | h
            · rw [h]
              exact ⟨fun _ => hcons, Or.inl hcons⟩
            · refine ih _ _ ?_ ?_ ?_ p h
              · exact hb
              · exact fun h => n380 h _
              · exact Or.inl hcons
        · simp only [hf, if_false]
          exact ih _ _ hb (fun h => n380 h _) hc
      | l9244 =>
        rw [ladderLog_l9244]
        by_cases h1 : st.s.b1 > 4.5 ∧ st.iregfa = 1
        · simp only [h1, and_self, if_true]
          have h5 : st.s.b1 = 5 := by
            rcases hb with h | h | h | h | h
            · exact absurd h1.1 (by rw [h]; norm_num)
            · exact absurd h1.1 (by rw [h]; norm_num)
            · exact absurd h1.1 (by rw [h]; norm_num)
            · exact absurd h1.1 (by rw [h]; norm_num)
            · exact h
          have hold : st.s.b0 = b0cnew / b0b1.getD 4 0 := by
            rcases hc with h | ⟨_, h, _⟩
            · rw [h, h5, show (2 : ℝ) * 5 - 6 = ((4 : ℤ) : ℝ) by norm_num, Int.floor_intCast]
              rfl
            · rw [h5] at h
              exact absurd h (by norm_num)
          exact ih _ _ (Or.inl rfl) (fun h => n380 h _) (Or.inr ⟨rfl, rfl, hold⟩)
        · by_cases h2 : st.s.b1 > 4.5 ∧ st.iregfa = 2
          · simp only [h1, h2, and_self, if_true, if_false]
            intro p hp
            simp at hp
          · simp only [h1, h2, if_false, if_true]
            have hgt : ¬ st.s.b1 > 4.5 := by
              intro hgt
              rcases hi rfl with h | h
              · exact h1 ⟨hgt, h⟩
              · exact h2 ⟨hgt, h⟩
            refine ih _ _ (B1Rung_next _ hb hgt) (fun h => n924 h _) (Or.inl ?_)
            show b0cnew / b0b1.getD (⌊(st.s.b1 + 0.5) * 2 - 5⌋ - 1).toNat 0 =
              b0cnew / b0b1.getD ⌊2 * (st.s.b1 + 0.5) - 6⌋.toNat 0
            rw [b0b1_index_shift]
      | l380 =>
        rw [ladderLog_l380]
        have hthis : (st.s.b0 = b0cnew / b0b1.getD ⌊2 * st.s.b1 - 6⌋.toNat 0 ∨
            (true = true ∧ st.s.b1 = 3 ∧ st.s.b0 = b0cnew / b0b1.getD 4 0)) := by
          rcases hc with h | ⟨_, h, h3⟩
          · exact Or.inl h
          · exact Or.inr ⟨rfl, h, h3⟩
        cases hh : hstSearch st.s st.nmf1 st.f1reg with
        | found hst hf1 =>
          intro p hp
          simp only [List.mem_singleton] at hp
          rw [hp]
          exact ⟨fun h => absurd h (by simp), hthis⟩
        | failed xxmin hhmin hf1 =>
          simp only
          by_cases hx : xxmin / st.s.xnme < 1.3
          · simp only [hx, if_true]
            intro p hp
            rcases List.mem_cons.mp hp with h | h
            · rw [h]
              exact ⟨fun h => absurd h (by simp), hthis⟩
            · refine ih _ _ ?_ ?_ ?_ p h
              · exact hb
              · exact fun _ => Or.inr rfl
              · exact hc
          · simp only [hx, if_false]
            intro p hp
            simp only [List.mem_singleton] at hp
            rw [hp]
            exact ⟨fun h => absurd h (by simp), hthis⟩
  · -- `ladderLog_retry`
    intro b0cnew f1top hstSearch hfail n st hf hle p hp
    cases st with
    | mk s0 nmf1 f1reg iregfa hhmin hf1 tried =>
      simp only at hf hle hp
      subst hf
      simp only [ladderLog_l924, ladderLog_l9244, hfail, if_true, hle, false_and, if_false]
      exact List.mem_cons_of_mem _ hp
  · -- `ladderLog_omit`
    intro b0cnew f1top hstSearch hfail n st hf hgt
    simp only [ladderLog_l924, ladderLog_l9244, hf, hfail, if_true, hgt, and_self]
    refine List.mem_cons_of_mem _ ?_
    rw [ladderLog_l380]
    dsimp only
    cases hstSearch { st.s with hmf1 := 0, c1 := 0, b1 := 3 } 0 false with
    | found hst hf1 => simp
    | failed xxmin hhmin hf1 => simp

/-- C19 (counterexample): with an F1 region and a search on `xe2_` that fails at every
call, the run started with `b1 = 3` makes that search at `b1 = 5` as well: the test
`b1 > 4.5` at `L9244` comes before `b1 += .5`, so from `b1 = 4.5` the ladder goes on to
5 and jumps back to `L924`. -/
theorem ladder_tries_five :
    (5 : ℝ) > 4.5 ∧
    (5 : ℝ) ∈ (ladder false 0 (fun _ _ => (true, 0)) (fun _ _ _ => HstSearch.found 150 200)
      (1 + 2 + 2 + 2 + 2 + 2) Label.l924 (Ladder.start scenario 100000000000 true)).state.tried
    := by
  obtain ⟨-, state_root, -, -, -, -, -, ladder_l380, -, -, -, ladder_all_fail, -, -, -, -, -, -,
    -, -, -, -, -⟩ := ladder_facts
  obtain ⟨st, hrun, _, _, _, _, _, ht, _⟩ := ladder_all_fail false 0 (fun _ _ => (true, 0))
    (fun _ _ _ => HstSearch.found 150 200) (fun _ _ => rfl) scenario 100000000000 1
  refine ⟨by norm_num, ?_⟩
  rw [hrun]
  simp only [ladder_l380, state_root, ht]
  simp

/-- C19 (amended): the search is entered with `b1 = 3`; whatever the searches return,
every root search (on `xe2_` at `L924` or for `HST` at `L380`) is started with `b1` equal
to 3, 3.5, 4, 4.5 or 5, at every point of the run.  The largest value tried is 5, not
4.5. -/
theorem ladder_b1_values (gulb0 : Bool) (b0cnew : ℝ) (f1top : Blocks ℝ → ℝ → Bool × ℝ)
    (hstSearch : Blocks ℝ → ℝ → Bool → HstSearch ℝ) (s : Blocks ℝ) (nmf1 : ℝ) (f1reg : Bool)
    (fuel : ℕ) :
    (Ladder.start s nmf1 f1reg).s.b1 = 3 ∧
    ∀ v ∈ (ladder gulb0 b0cnew f1top hstSearch fuel Label.l924
        (Ladder.start s nmf1 f1reg)).state.tried,
      (v = 3 ∨ v = 3.5 ∨ v = 4 ∨ v = 4.5 ∨ v = 5) ∧ v ≤ 5 := by
  obtain ⟨-, -, -, -, -, -, -, -, ladder_rungs, -, -, -, -, -, -, -, -, -, -, -, -, -, -⟩
    := ladder_facts
  refine ⟨rfl, fun v hv => ?_⟩
  have h := ladder_rungs gulb0 b0cnew f1top hstSearch fuel Label.l924
    (Ladder.start s nmf1 f1reg) (Or.inl rfl) (fun v hv => by delta Ladder.start at hv; simp at hv)
    (fun h => Label.noConfusion h) v hv
  refine ⟨h, ?_⟩
  rcases h with h | h | h | h | h <;> rw [h] <;> norm_num

/-- C28 (counterexample): in the state `scenario`, with `hhmin = hf1 = 300`, the loop of
the linear fallback is left on its first pass (`rrrr = 0.5`) with
`xe3_(hz) - nme >= 0.001`, so `|xe3_(hz) - nme| < 0.001` does not hold on exit. -/
theorem linearFallback_exit_not_close :
    ∃ s1, linearFallback scenario 300 300 1 (1 / 2) = some s1 ∧
      ¬ |xe3_ s1 s1.hz - s1.xnme| < 0.001 := by
  obtain ⟨-, -, -, -, -, -, linearFallback_result, scenario_fallback_exit, -,
    linearFallback_margin⟩ := linearFallback_facts
  obtain ⟨s1, hrun, _⟩ := linearFallback_result 1 scenario 300 300 (1 / 2) 0 (by norm_num)
    scenario_fallback_exit
  refine ⟨s1, hrun, ?_⟩
  have hm := linearFallback_margin 1 scenario 300 300 (1 / 2) s1 hrun
  rw [abs_of_nonneg (by linarith)]
  exact not_lt.mpr hm

/-- C28 (amended): in the linear fallback the fraction `rrrr` (start 0.5, step 0.1,
`hz = hhmin + (hf1 - hhmin)*rrrr`) is raised while `xe3_(hz) - nme < 0.001`; on exit of
the loop `xe3_(hz) - nme >= 0.001`, and the loop is left on the first pass whose test
fails. -/
theorem linearFallback_exit_test (s : Blocks ℝ) (hhmin hf1 rrrr : ℝ) (n : ℕ) :
    (∀ s1, linearFallback s hhmin hf1 n rrrr = some s1 →
      0.001 ≤ xe3_ s1 s1.hz - s1.xnme) ∧
    (∀ m, m < n →
      ¬ (xe3_ s (hhmin + (hf1 - hhmin) * (rrrr + m * 0.1)) - s.xnme < 0.001) →
      ∃ s1, linearFallback s hhmin hf1 n rrrr = some s1 ∧
        0.001 ≤ xe3_ s1 s1.hz - s1.xnme) := by
  obtain ⟨-, -, -, -, -, -, linearFallback_result, -, -, linearFallback_margin⟩
    := linearFallback_facts
  refine ⟨fun s1 h => linearFallback_margin n s hhmin hf1 rrrr s1 h, fun m hm hexit => ?_⟩
  obtain ⟨s1, hrun, _⟩ := linearFallback_result n s hhmin hf1 rrrr m hm hexit
  exact ⟨s1, hrun, linearFallback_margin n s hhmin hf1 rrrr s1 hrun⟩

/-! ## The D-region crossover (C27) -/

set_option maxHeartbeats 2000000 in
/-- C27: with the D-region parameters set as in `iri90_` (`fp2 = -fp1^2/2`, `xdx` and
`dxdx` the density and slope of the lower branch at `hdx = hmd + f1`, `xkk` and `d1`
computed from them; `f1 > 0`, `nmd > 0`, `nme > 0`, `xdx ≠ nme`, `dxdx ≠ 0`,
`hme > hdx`), the upper branch `nme*exp(-d1*(hme - h)^xkk)` of `xe6_` evaluated at
`h = hdx` equals `xdx = xe6_(hdx)`, it is the value of `xe6_` above `hdx`, and it tends to
`nme` as `h` tends to `hme` when `xkk > 0`. -/
theorem dregion_crossover (s t : Blocks ℝ) (nmd hmd f0 f1 f2 : ℝ)
    (ht : t = s.setDRegion nmd hmd f0 f1 f2) (hf1 : 0 < f1) (hnmd : 0 < nmd)
    (hnme : 0 < s.xnme) (_hne : dregion_xdx nmd f0 f1 ≠ s.xnme)
    (hd : dregion_dxdx nmd f0 f1 ≠ 0) (hh : hmd + f1 < s.hme) :
    t.xnme * Real.exp (-t.d1 * (t.hme - t.hdx) ^ t.xkk) = xe6_ t t.hdx ∧
      xe6_ t t.hdx = dregion_xdx nmd f0 f1 ∧
      (∀ h, t.hdx < h → xe6_ t h = t.xnme * Real.exp (-t.d1 * (t.hme - h) ^ t.xkk)) ∧
      (0 < t.xkk → Filter.Tendsto (fun h => t.xnme * Real.exp (-t.d1 * (t.hme - h) ^ t.xkk))
        (nhds t.hme) (nhds t.xnme)) := by
  have setDRegion_fields : ∀ (s : Blocks ℝ) (nmd hmd f0 f1 f2 : ℝ),
        (s.setDRegion nmd hmd f0 f1 f2).hdx = hmd + f1 ∧
          (s.setDRegion nmd hmd f0 f1 f2).hme = s.hme ∧
          (s.setDRegion nmd hmd f0 f1 f2).xnme = s.xnme ∧
          (s.setDRegion nmd hmd f0 f1 f2).xkk =
            -dregion_dxdx nmd f0 f1 * (s.hme - (hmd + f1)) /
              (dregion_xdx nmd f0 f1 * Real.log (dregion_xdx nmd f0 f1 / s.xnme)) ∧
          (s.setDRegion nmd hmd f0 f1 f2).d1 =
            dregion_dxdx nmd f0 f1 / (dregion_xdx nmd f0 f1 *
              (s.setDRegion nmd hmd f0 f1 f2).xkk *
              (s.hme - (hmd + f1)) ^ ((s.setDRegion nmd hmd f0 f1 f2).xkk - 1)) := by
    intro s nmd hmd f0 f1 f2
    refine ⟨rfl, rfl, rfl, ?_, ?_⟩
    · delta Blocks.setDRegion dregion_dxdx dregion_xdx
      simp only [add_sub_cancel_left]
    · delta Blocks.setDRegion dregion_dxdx dregion_xdx
      simp only [add_sub_cancel_left]
  have xe6_at_hdx : ∀ (s : Blocks ℝ) (nmd hmd f0 f1 f2 : ℝ) (_ : 0 < f1),
        xe6_ (s.setDRegion nmd hmd f0 f1 f2) (hmd + f1) = dregion_xdx nmd f0 f1 := by
    intro s nmd hmd f0 f1 f2 hf1
    have h1 : ¬ hmd + f1 > hmd + f1 := lt_irrefl _
    delta xe6_ Blocks.setDRegion dregion_xdx; simp only [h1, if_false, add_sub_cancel_left, hf1,
      gt_iff_lt, if_true]
  have dregion_exponent : ∀ (xdx dxdx nme x : ℝ) (_ : 0 < x) (_ : 0 < xdx)
        (_ : dxdx ≠ 0),
        dxdx / (xdx * (-dxdx * x / (xdx * Real.log (xdx / nme))) *
            x ^ (-dxdx * x / (xdx * Real.log (xdx / nme)) - 1)) *
          x ^ (-dxdx * x / (xdx * Real.log (xdx / nme))) = -Real.log (xdx / nme) := by
    -- `dregion_exponent`: the exponent of the upper branch at the crossover: `d1 * x^xkk =
    -- -ln(xdx/nme)` for `x = hme - hdx > 0`.
    intro xdx dxdx nme x hx hxdx hd
    have hp : 0 < x ^ (-dxdx * x / (xdx * Real.log (xdx / nme))) := Real.rpow_pos_of_pos hx _
    rw [Real.rpow_sub_one hx.ne']
    generalize x ^ (-dxdx * x / (xdx * Real.log (xdx / nme))) = p at hp
    have hx0 : x ≠ 0 := hx.ne'
    have hxd : xdx ≠ 0 := hxdx.ne'
    have hp0 : p ≠ 0 := hp.ne'
    field_simp
    ring
  obtain ⟨e1, e2, e3, e4, e5⟩ := setDRegion_fields s nmd hmd f0 f1 f2
  have hxdx : 0 < dregion_xdx nmd f0 f1 := mul_pos hnmd (Real.exp_pos _)
  have hx : 0 < s.hme - (hmd + f1) := by linarith
  have hat := xe6_at_hdx s nmd hmd f0 f1 f2 hf1
  subst ht
  refine ⟨?_, ?_, ?_, ?_⟩
  · rw [e1, hat, e2, e3, e5, e4, neg_mul,
      dregion_exponent (dregion_xdx nmd f0 f1) (dregion_dxdx nmd f0 f1) s.xnme
        (s.hme - (hmd + f1)) hx hxdx hd, neg_neg,
      Real.exp_log (div_pos hxdx hnme)]
    field_simp
  · rw [e1, hat]
  · intro h hgt
    have hgt1 : h > (s.setDRegion nmd hmd f0 f1 f2).hdx := hgt
    delta xe6_
    simp only [hgt1, if_true]
  · intro hk
    have hc : ContinuousAt (fun h : ℝ => (s.setDRegion nmd hmd f0 f1 f2).xnme *
        Real.exp (-(s.setDRegion nmd hmd f0 f1 f2).d1 *
          ((s.setDRegion nmd hmd f0 f1 f2).hme - h) ^ (s.setDRegion nmd hmd f0 f1 f2).xkk))
        (s.setDRegion nmd hmd f0 f1 f2).hme := by
      have hr : ContinuousAt (fun h : ℝ => ((s.setDRegion nmd hmd f0 f1 f2).hme - h) ^
          (s.setDRegion nmd hmd f0 f1 f2).xkk) (s.setDRegion nmd hmd f0 f1 f2).hme :=
        (Real.continuousAt_rpow_const _ _ (Or.inr hk.le)).comp
          (continuousAt_const.sub continuousAt_id)
      exact continuousAt_const.mul (Real.continuous_exp.continuousAt.comp
        (continuousAt_const.mul hr))
    have hv : (s.setDRegion nmd hmd f0 f1 f2).xnme *
        Real.exp (-(s.setDRegion nmd hmd f0 f1 f2).d1 *
          ((s.setDRegion nmd hmd f0 f1 f2).hme - (s.setDRegion nmd hmd f0 f1 f2).hme) ^
            (s.setDRegion nmd hmd f0 f1 f2).xkk) = (s.setDRegion nmd hmd f0 f1 f2).xnme := by
      rw [sub_self, Real.zero_rpow hk.ne']
      simp
    have := hc.tendsto
    rw [hv] at this
    exact this

set_option maxHeartbeats 1000000 in
theorem dregion_crossover_witness :
    (0 : ℝ) < 5 ∧ (0 : ℝ) < 150000000000 ∧ 0 < scenario.xnme ∧
      dregion_xdx 150000000000 0 5 ≠ scenario.xnme ∧ dregion_dxdx 150000000000 0 5 ≠ 0 ∧
      (81 : ℝ) + 5 < scenario.hme ∧
      (scenario.setDRegion 150000000000 81 0 5 5).xnme *
          Real.exp (-(scenario.setDRegion 150000000000 81 0 5 5).d1 *
            ((scenario.setDRegion 150000000000 81 0 5 5).hme -
              (scenario.setDRegion 150000000000 81 0 5 5).hdx) ^
            (scenario.setDRegion 150000000000 81 0 5 5).xkk) =
        xe6_ (scenario.setDRegion 150000000000 81 0 5 5)
          (scenario.setDRegion 150000000000 81 0 5 5).hdx := by
  have dregion_example_xdx : dregion_xdx 150000000000 0 5 = 150000000000 * Real.exp 1 := by
    delta dregion_xdx
    norm_num
  exact
    have hne : dregion_xdx 150000000000 0 5 ≠ scenario.xnme := by
      rw [dregion_example_xdx]
      have h1 := Real.exp_one_gt_d9
      have e : scenario.xnme = 150000000000 := rfl
      rw [e]
      intro h
      nlinarith
    have hd : dregion_dxdx 150000000000 0 5 ≠ 0 := by
      have e : dregion_dxdx 150000000000 0 5 = dregion_xdx 150000000000 0 5 * (3 / 5) := by
        delta dregion_dxdx
        norm_num
      rw [e, dregion_example_xdx]
      have := Real.exp_pos 1
      positivity
    ⟨by norm_num, by norm_num, by delta scenario; norm_num, hne, hd, by delta scenario; norm_num,
      (dregion_crossover scenario _ 150000000000 81 0 5 5 rfl (by norm_num) (by norm_num)
        (by delta scenario; norm_num) hne hd (by delta scenario; norm_num)).1⟩

/-! ## The calendar round trip (C26) -/

set_option maxRecDepth 100000 in
theorem moda_month_day_cases :
    ∀ m : Fin 12, ∀ d : Fin 31, d.val < monthDays.getD m.val 0 →
      moda_1 (moda_0 (m.val + 1) (d.val + 1)) = some ((m.val + 1 : ℤ), (d.val + 1 : ℤ)) := by
  decide

set_option maxRecDepth 100000 in
theorem moda_day_of_year_cases :
    ∀ n : Fin 365,
      (moda_1 (n.val + 1)).map (fun p => moda_0 p.1 p.2) = some (n.val + 1 : ℤ) := by
  decide

/-- C26: `moda_` round-trips calendar dates: for every month in 1..12 and every day in
1..(days of that month in a non-leap year), the day of year computed with `in = 0` and
fed back with `in = 1` returns the same month and day; for every day of year in 1..365,
`in = 1` followed by `in = 0` returns the same day of year. -/
theorem moda_roundtrip :
    (∀ month day : ℕ, 1 ≤ month → month ≤ 12 → 1 ≤ day →
      day ≤ monthDays.getD (month - 1) 0 →
      moda_1 (moda_0 month day) = some ((month : ℤ), (day : ℤ))) ∧
    (∀ doy : ℕ, 1 ≤ doy → doy ≤ 365 →
      ∃ m d, moda_1 doy = some (m, d) ∧ moda_0 m d = doy) := by
  constructor
  · intro month day hm1 hm hd1 hd
    have hd31 : day ≤ 31 := by
      have : ∀ m : Fin 12, monthDays.getD m.val 0 ≤ 31 := by decide
      exact hd.trans (this ⟨month - 1, by omega⟩)
    have h := moda_month_day_cases ⟨month - 1, by omega⟩ ⟨day - 1, by omega⟩
      (by show day - 1 < monthDays.getD (month - 1) 0; omega)
    have e1 : (((month - 1 : ℕ) : ℤ) + 1) = (month : ℤ) := by omega
    have e2 : (((day - 1 : ℕ) : ℤ) + 1) = (day : ℤ) := by omega
    simp only [e1, e2] at h
    exact h
  · intro doy h1 h365
    have h := moda_day_of_year_cases ⟨doy - 1, by omega⟩
    have e1 : (((doy - 1 : ℕ) : ℤ) + 1) = (doy : ℤ) := by omega
    simp only [e1] at h
    cases hr : moda_1 doy with
    | none =>
      rw [hr] at h
      simp at h
    | some p =>
      rw [hr] at h
      simp only [Option.map_some', Option.some.injEq] at h
      exact ⟨p.1, p.2, rfl, h⟩

theorem moda_examples :
    moda_0 3 1 = 60 ∧ moda_1 60 = some (3, 1) ∧ moda_1 365 = some (12, 31) := by
  decide

/-! ## Termination of the resolver loops (C21) -/

/-- C21: in the state `lowPeak` (no F1 region, `hmf2 = hef`, `nmf2 < nme`) the height
`hf1 = hef + (hmf2 - hef)*rathh` is `hef` for every `rathh`, `xe3_(hf1) = nmf2 < nme` on
every pass, and the loop at `L3973` is not left, whatever the bound on its passes. -/
theorem startHeight_no_exit (n : ℕ) (rathh : ℝ) : startHeight lowPeak n rathh = none := by
  obtain ⟨-, xe2_at_hmf2, -, startHeight_succ⟩ := peak_facts
  induction n generalizing rathh with
  | zero => rfl
  | succ n ih =>
    have hh : lowPeak.hef + (lowPeak.hmf2 - lowPeak.hef) * rathh = lowPeak.hmf2 := by
      delta lowPeak scenario; simp
    have hx2 : xe2_ lowPeak lowPeak.hmf2 = lowPeak.xnmf2 :=
      xe2_at_hmf2 lowPeak (by delta lowPeak scenario; norm_num)
    have hx3 : xe3_ lowPeak lowPeak.hmf2 = 100000000000 := by
      delta xe3_
      rw [hx2]
      delta lowPeak scenario; simp
    have hlt : xe3_ lowPeak (lowPeak.hef + (lowPeak.hmf2 - lowPeak.hef) * rathh) <
        lowPeak.xnme := by
      rw [hh, hx3]
      delta lowPeak scenario; norm_num
    simp only [startHeight_succ, hlt, if_true]
    exact ih _

/-! ## The layer-function output and fit (C22 - C25, C30) -/

/-- C24 (counterexample): with the layer-function representation selected and
`iiqu = 2`, the density stored for the height 300 (inside the range 80..1000) is -9,
while the piecewise model of the state `scenario` gives `xe_(300) = 1e12`. -/
theorem outf_quality_two_example :
    outfDensity false true 2 80 1000 (fun _ => 0) (xe_ scenario) 300 = -9 ∧
      xe_ scenario 300 = 1000000000000 ∧
      outfDensity false true 2 80 1000 (fun _ => 0) (xe_ scenario) 300 ≠ xe_ scenario 300 := by
  obtain ⟨xe1_at_hmf2, -, -, -⟩ := peak_facts
  have h1 : outfDensity false true 2 80 1000 (fun _ => 0) (xe_ scenario) 300 = -9 := by
    delta outfDensity; norm_num
  have h2 : xe_ scenario 300 = 1000000000000 := by
    have e : xe_ scenario 300 = xe1_ scenario scenario.hmf2 := by
      delta xe_
      delta scenario; norm_num
    rw [e, xe1_at_hmf2]
    rfl
  refine ⟨h1, h2, ?_⟩
  rw [h1, h2]
  norm_num

/-- C24 (amended): for a requested height inside the density range (`noden` not set),
when the layer-function representation is selected the density is `xen_(height)` if the
fit quality is below 2 and the value -9 if it is 2; the piecewise value `xe_(height)` is
produced only when the layer-function representation is not selected. -/
theorem outf_density_cases (iiqu : ℤ) (hnea hnee : ℝ) (xen xe : ℝ → ℝ) (height : ℝ)
    (h1 : hnea ≤ height) (h2 : height ≤ hnee) :
    (iiqu = 2 → outfDensity false true iiqu hnea hnee xen xe height = -9) ∧
      (iiqu < 2 → outfDensity false true iiqu hnea hnee xen xe height = xen height) ∧
      outfDensity false false iiqu hnea hnee xen xe height = xe height := by
  have hr : ¬ (height > hnee ∨ height < hnea) := by
    rintro (h | h) <;> linarith
  refine ⟨fun h => ?_, fun h => ?_, ?_⟩
  · delta outfDensity; simp [hr, h]
  · delta outfDensity; simp [hr, h]
  · delta outfDensity; simp [hr]

theorem outf_density_cases_witness :
    (80 : ℝ) ≤ 300 ∧ (300 : ℝ) ≤ 1000 ∧
      outfDensity false true 2 80 1000 (fun _ => 0) (xe_ scenario) 300 = -9 :=
  ⟨by norm_num, by norm_num,
    (outf_density_cases 2 80 1000 (fun _ => 0) (xe_ scenario) 300 (by norm_num)
      (by norm_num)).1 rfl⟩

/-- One pass of the loop of `inilay_`, and the two ways it goes on a first pass: a pass that
retries and a pass that accepts. -/
theorem inilayLoop_facts :
    -- `inilayLoop_succ`
    (∀ (solve : ℝ → ℝ × Bool) (hxl1t : ℝ) (n iqual : ℕ) (hxl1 amp1 : ℝ)
        (solves : ℕ),
        inilayLoop solve hxl1t (n + 1) iqual hxl1 amp1 solves =
          (let ssin := (solve hxl1).2
           let amp1 := if ssin then amp1 else (solve hxl1).1
           if iqual > 0 then
             some { iqual := if ssin then 2 else iqual, hxl1 := hxl1, amp1 := amp1,
                    solves := solves + 1 }
           else if |amp1| > 10 ∨ ssin = true then
             inilayLoop solve hxl1t n 1 hxl1t amp1 (solves + 1)
           else
             some { iqual := if ssin then 2 else iqual, hxl1 := hxl1, amp1 := amp1,
                    solves := solves + 1 })) ∧
    -- `inilayLoop_retry`
    (∀ (solve : ℝ → ℝ × Bool) (hxl1 hxl1t amp1 : ℝ)
        (_ : |if (solve hxl1).2 = true then amp1 else (solve hxl1).1| > 10 ∨
          (solve hxl1).2 = true),
        inilayLoop solve hxl1t 2 0 hxl1 amp1 0 =
          some { iqual := if (solve hxl1t).2 = true then 2 else 1, hxl1 := hxl1t,
                 amp1 := if (solve hxl1t).2 = true then
                   (if (solve hxl1).2 = true then amp1 else (solve hxl1).1)
                   else (solve hxl1t).1,
                 solves := 2 }) ∧
    -- `inilayLoop_accept`
    (∀ (solve : ℝ → ℝ × Bool) (hxl1 hxl1t amp1 : ℝ)
        (_ : ¬ (|if (solve hxl1).2 = true then amp1 else (solve hxl1).1| > 10 ∨
          (solve hxl1).2 = true)),
        inilayLoop solve hxl1t 2 0 hxl1 amp1 0 =
          some { iqual := if (solve hxl1).2 = true then 2 else 0, hxl1 := hxl1,
                 amp1 := if (solve hxl1).2 = true then amp1 else (solve hxl1).1,
                 solves := 1 }) := by
  refine and_of_imp ?_ fun inilayLoop_succ => and_of_imp ?_ fun inilayLoop_retry => ?_
  · -- `inilayLoop_succ`
    intro solve hxl1t n iqual hxl1 amp1 solves
    exact rfl
  · -- `inilayLoop_retry`
    intro solve hxl1 hxl1t amp1 hc
    simp only [inilayLoop_succ, hc, if_true, Nat.lt_irrefl, if_false, gt_iff_lt, Nat.zero_lt_one]
  · -- `inilayLoop_accept`
    intro solve hxl1 hxl1t amp1 hc
    simp only [inilayLoop_succ, hc, Nat.lt_irrefl, if_false, gt_iff_lt]

/-- C23 (counterexample): when both solves are regular and both give `amp(1) = 20`, the
first one triggers the retry (`|amp(1)| > 10`), and after the retry, which still has
`|amp(1)| > 10`, `inilay_` reports `iqual = 1`, not 2. -/
theorem inilay_retry_large_amplitude :
    ∃ r, inilayLoop (fun _ => (20, false)) 120 2 0 270 0 0 = some r ∧ r.iqual = 1 ∧
      r.solves = 2 ∧ |r.amp1| > 10 ∧ r.iqual ≠ 2 := by
  obtain ⟨inilayLoop_succ, -, -⟩ := inilayLoop_facts
  refine ⟨{ iqual := 1, hxl1 := 120, amp1 := 20, solves := 2 }, ?_, rfl, rfl, ?_, ?_⟩
  · simp only [inilayLoop_succ]
    norm_num
  · norm_num
  · decide

/-- C23 (amended): if the first solve in `inilay_` is singular or yields
`|amp(1)| > 10`, exactly one retry is made, with the alternate height `hxl1t` for
`hxl(1)`; then `iqual = 2` exactly when the retry is singular, and `iqual = 1` when it is
not, whatever `amp(1)` it yields.  If the first solve is regular with `|amp(1)| <= 10`,
no retry is made and `iqual = 0`. -/
theorem inilay_retry_once (solve : ℝ → ℝ × Bool) (hxl1 hxl1t amp1 : ℝ) :
    ∃ r, inilayLoop solve hxl1t 2 0 hxl1 amp1 0 = some r ∧
      (((solve hxl1).2 = true ∨ |(solve hxl1).1| > 10) →
        r.solves = 2 ∧ r.hxl1 = hxl1t ∧ (r.iqual = 2 ↔ (solve hxl1t).2 = true) ∧
        ((solve hxl1t).2 = false → r.iqual = 1)) ∧
      (((solve hxl1).2 = false ∧ |(solve hxl1).1| ≤ 10) →
        r.solves = 1 ∧ r.hxl1 = hxl1 ∧ r.iqual = 0 ∧ r.amp1 = (solve hxl1).1) := by
  obtain ⟨-, inilayLoop_retry, inilayLoop_accept⟩ := inilayLoop_facts
  by_cases hc : |if (solve hxl1).2 = true then amp1 else (solve hxl1).1| > 10 ∨
      (solve hxl1).2 = true
  · refine ⟨_, inilayLoop_retry solve hxl1 hxl1t amp1 hc, fun _ => ?_, fun h => ?_⟩
    · refine ⟨rfl, rfl, ?_, fun h2 => ?_⟩
      · by_cases hs2 : (solve hxl1t).2 = true
        · simp [hs2]
        · simp [hs2]
      · simp [h2]
    · exfalso
      rcases hc with h1 | h1
      · simp only [h.1, Bool.false_eq_true, if_false] at h1
        exact absurd h1 (not_lt.mpr h.2)
      · simp [h.1] at h1
  · refine ⟨_, inilayLoop_accept solve hxl1 hxl1t amp1 hc, fun h => ?_, fun h => ?_⟩
    · exfalso
      apply hc
      rcases h with h | h
      · exact Or.inr h
      · by_cases hs : (solve hxl1).2 = true
        · exact Or.inr hs
        · left
          simp only [hs, if_false]
          exact h
    · refine ⟨rfl, rfl, ?_, ?_⟩
      · simp [h.1]
      · simp [h.1]

/-- C25: the weight `ww(2)` that `inilay_` hands to the fit in the day branch without F1
region (`xnmf1 = 0`) depends on the call made before.  After a night call with
`xnmf2 = 1e12`, `hhalf = 240` the statics are `hfff = 240`, `xfff = 5e11` and the weight
is 1; after a night call with `xnmf2 = 2e11` they are `hfff = 240`, `xfff = 1e11` and the
weight is 0.5, for the same arguments of the day call. -/
theorem inilay_weight_depends_on_history :
    (inilayWeight (inilayWeight ⟨0, 0⟩ true 1000000000000 0 150000000000 0 125 115 240).1
        false 1000000000000 0 150000000000 200 125 115 240).2 = 1 ∧
    (inilayWeight (inilayWeight ⟨0, 0⟩ true 200000000000 0 150000000000 0 125 115 240).1
        false 1000000000000 0 150000000000 200 125 115 240).2 = 0.5 := by
  constructor
  · delta inilayWeight; norm_num
  · delta inilayWeight; norm_num

set_option maxHeartbeats 4000000 in
/-- Facts about the solver `lnglsn_`: the pivot scan, the rows and the flag `aus` after the
elimination passes, and the back substitution. -/
theorem lnglsn_facts :
    -- `pivotScan_zero`
    (∀ (n : ℕ) (a : ℕ → ℕ → ℝ) (k : ℕ) (sc : Scan ℝ),
        pivotScan n a k 0 sc = sc) ∧
    -- `pivotScan_succ`
    (∀ (n : ℕ) (a : ℕ → ℕ → ℝ) (k fuel : ℕ) (sc : Scan ℝ),
        pivotScan n a k (fuel + 1) sc =
          (let l := sc.l + 1
           if l > n then { sc with l := l }
           else
             let hsp := |a l k|
             let izg := if hsp < 1e-8 then sc.izg + 1 else sc.izg
             if hsp ≤ sc.amax then pivotScan n a k fuel { sc with l := l, izg := izg }
             else { sc with l := l, izg := izg })) ∧
    -- `pivotScan_imax`
    (∀ (n : ℕ) (a : ℕ → ℕ → ℝ) (k : ℕ),
        ∀ (fuel : ℕ) (sc : Scan ℝ), (pivotScan n a k fuel sc).imax = sc.imax ∧
          (pivotScan n a k fuel sc).amax = sc.amax) ∧
    -- `diag1110_step`
    (∀ (b : ℕ → ℝ) (k : ℕ) (_ : k = 1 ∨ k = 2 ∨ k = 3),
        elimStep 4 { a := diag1110, b := b, aus := false } k =
          { a := diag1110, b := b, aus := false }) ∧
    -- `elimPrefix_succ`
    (∀ (n : ℕ) (a : ℕ → ℕ → ℝ) (b : ℕ → ℝ) (j : ℕ),
        elimPrefix n a b (j + 1) = elimStep n (elimPrefix n a b j) (j + 1)) ∧
    -- `elimRow_aus`
    (∀ (n k : ℕ) (azv0 : ℝ) (azv : ℕ → ℝ) (st : Lin ℝ) (l : ℕ),
        (elimRow n k azv0 azv st l).aus = st.aus) ∧
    -- `elimRows_aus`
    (∀ (n k : ℕ) (azv0 : ℝ) (azv : ℕ → ℝ) (ls : List ℕ),
        ∀ st : Lin ℝ, (ls.foldl (elimRow n k azv0 azv) st).aus = st.aus) ∧
    -- `elimStep_aus`
    (∀ (n : ℕ) (st : Lin ℝ) (k : ℕ),
        (elimStep n st k).aus = true ↔ st.aus = true ∨ |st.a k k| < 1e-10) ∧
    -- `backSteps_aus`
    (∀ (n : ℕ) (ls : List ℕ),
        ∀ st : Lin ℝ, (ls.foldl (backStep n) st).aus = st.aus) ∧
    -- `lnglsn_aus`
    (∀ (n : ℕ) (a : ℕ → ℕ → ℝ) (b : ℕ → ℝ),
        (lnglsn_ n a b).aus = (elimPrefix n a b (n - 1)).aus) ∧
    -- `pivotScan_izg`
    (∀ (n : ℕ) (a : ℕ → ℕ → ℝ) (k : ℕ),
        ∀ (fuel : ℕ) (sc : Scan ℝ),
          (pivotScan n a k fuel sc).izg ≤ sc.izg + (n - sc.l) ∧
          ((pivotScan n a k fuel sc).izg = sc.izg + (n - sc.l) →
            ∀ l, sc.l < l → l ≤ n → |a l k| < 1e-8)) ∧
    -- `elimRow_a`
    (∀ (n k : ℕ) (azv0 : ℝ) (azv : ℕ → ℝ) (st : Lin ℝ) (l i j : ℕ),
        (elimRow n k azv0 azv st l).a i j =
          if i = l ∧ ¬ |st.a l k| < 1e-8 then
            (if j = k then 0 else if k < j ∧ j ≤ n then st.a l j - st.a l k * azv j else st.a l j)
          else st.a i j) ∧
    -- `elimRow_b`
    (∀ (n k : ℕ) (azv0 : ℝ) (azv : ℕ → ℝ) (st : Lin ℝ) (l i : ℕ),
        (elimRow n k azv0 azv st l).b i =
          if i = l ∧ ¬ |st.a l k| < 1e-8 then st.b l - azv0 * st.a l k else st.b i) ∧
    -- `elimRows_a`
    (∀ (n k : ℕ) (azv0 : ℝ) (azv : ℕ → ℝ) (ls : List ℕ) (_ : ls.Nodup),
        ∀ (st : Lin ℝ) (i j : ℕ),
          ((ls.foldl (elimRow n k azv0 azv) st).a i j =
            if i ∈ ls then (elimRow n k azv0 azv st i).a i j else st.a i j) ∧
          ((ls.foldl (elimRow n k azv0 azv) st).b i =
            if i ∈ ls then (elimRow n k azv0 azv st i).b i else st.b i)) ∧
    -- `elimStep_eq`
    (∀ (n : ℕ) (st : Lin ℝ) (k : ℕ) (_ : st.aus = false)
        (_ : 1e-10 ≤ |st.a k k|),
        elimStep n st k =
          if (pivotScan n st.a k n { l := k, izg := 0, imax := k, amax := |st.a k k| }).izg = n - k
          then st
          else (List.range' (k + 1) (n - k)).foldl
            (elimRow n k (st.b k * (1 / st.a k k)) (fun m => st.a k m * (1 / st.a k k))) st) ∧
    -- `elimStep_row_kept`
    (∀ (n : ℕ) (st : Lin ℝ) (k i : ℕ) (_ : i ≤ k ∨ n < i),
        (∀ j, (elimStep n st k).a i j = st.a i j) ∧ (elimStep n st k).b i = st.b i) ∧
    -- `elimStep_row`
    (∀ (n : ℕ) (st : Lin ℝ) (k : ℕ) (_ : st.aus = false)
        (_ : 1e-6 ≤ |st.a k k|)
        (_ : ∀ l, k < l → l ≤ n → st.a l k = 0 ∨ 1e-8 ≤ |st.a l k|)
        (l : ℕ) (_ : k < l) (_ : l ≤ n),
        (∀ j, (elimStep n st k).a l j =
          if k ≤ j ∧ j ≤ n then st.a l j - st.a l k / st.a k k * st.a k j else st.a l j) ∧
        (elimStep n st k).b l = st.b l - st.a l k / st.a k k * st.b k) ∧
    -- `elimPrefix_row_frozen`
    (∀ (n : ℕ) (a : ℕ → ℕ → ℝ) (b : ℕ → ℝ) (k : ℕ),
        ∀ d, (∀ c, (elimPrefix n a b (k - 1 + d)).a k c = (elimPrefix n a b (k - 1)).a k c) ∧
          (elimPrefix n a b (k - 1 + d)).b k = (elimPrefix n a b (k - 1)).b k) ∧
    -- `elimPrefix_inv`
    (∀ (n : ℕ) (a : ℕ → ℕ → ℝ) (b : ℕ → ℝ)
        (_ : ∀ k, 1 ≤ k → k ≤ n → 1e-6 ≤ |(elimPrefix n a b (k - 1)).a k k|)
        (_ : ∀ k l, 1 ≤ k → k < l → l ≤ n →
          (elimPrefix n a b (k - 1)).a l k = 0 ∨ 1e-8 ≤ |(elimPrefix n a b (k - 1)).a l k|),
        ∀ j, j ≤ n - 1 →
          (elimPrefix n a b j).aus = false ∧
          (∀ c l, 1 ≤ c → c ≤ j → c < l → l ≤ n → (elimPrefix n a b j).a l c = 0) ∧
          (∀ x : ℕ → ℝ,
            (∀ i, 1 ≤ i → i ≤ n → ∑ t ∈ Finset.Icc 1 n, a i t * x t = b i) ↔
            (∀ i, 1 ≤ i → i ≤ n →
              ∑ t ∈ Finset.Icc 1 n, (elimPrefix n a b j).a i t * x t = (elimPrefix n a b j).b i))) ∧
    -- `range'_map_sum`
    (∀ (f : ℕ → ℝ) (s : ℕ),
        ∀ m, ((List.range' s m).map f).sum = ∑ l ∈ Finset.Ico s (s + m), f l) ∧
    -- `backFold_succ`
    (∀ (n m : ℕ) (st : Lin ℝ),
        (List.range' 1 (m + 1)).reverse.foldl (backStep n) st =
          (List.range' 1 m).reverse.foldl (backStep n) (backStep n st (m + 1))) ∧
    -- `backStep_other`
    (∀ (n : ℕ) (st : Lin ℝ) (k i j : ℕ) (_ : ¬ (i = n ∧ j = k)),
        (backStep n st k).a i j = st.a i j) ∧
    -- `backFold_kept`
    (∀ (n : ℕ),
        ∀ (m : ℕ) (st : Lin ℝ),
          (∀ i j, ¬ (i = n ∧ 1 ≤ j ∧ j ≤ m) →
            ((List.range' 1 m).reverse.foldl (backStep n) st).a i j = st.a i j) ∧
          ((List.range' 1 m).reverse.foldl (backStep n) st).b = st.b) ∧
    -- `backFold_rec`
    (∀ (n : ℕ),
        ∀ (m : ℕ), m ≤ n → ∀ (st : Lin ℝ) (k : ℕ), 1 ≤ k → k ≤ m →
          ((List.range' 1 m).reverse.foldl (backStep n) st).a n k =
            if |st.a k k| < 1e-6 then 0
            else (st.b k - ∑ l ∈ Finset.Icc (k + 1) n,
              st.a k l * ((List.range' 1 m).reverse.foldl (backStep n) st).a n l) / st.a k k) ∧
    -- `lnglsn_unique_solution`
    (∀ (n : ℕ) (a : ℕ → ℕ → ℝ) (b : ℕ → ℝ)
        (_ : ∀ k, 1 ≤ k → k ≤ n → 1e-6 ≤ |(elimPrefix n a b (k - 1)).a k k|)
        (_ : ∀ k l, 1 ≤ k → k < l → l ≤ n →
          (elimPrefix n a b (k - 1)).a l k = 0 ∨ 1e-8 ≤ |(elimPrefix n a b (k - 1)).a l k|),
        (lnglsn_ n a b).aus = false ∧
        (∀ i, 1 ≤ i → i ≤ n → ∑ j ∈ Finset.Icc 1 n, a i j * (lnglsn_ n a b).a n j = b i) ∧
        (∀ y : ℕ → ℝ, (∀ i, 1 ≤ i → i ≤ n → ∑ j ∈ Finset.Icc 1 n, a i j * y j = b i) →
          ∀ j, 1 ≤ j → j ≤ n → y j = (lnglsn_ n a b).a n j)) := by
  refine and_of_imp ?_ fun pivotScan_zero => and_of_imp ?_ fun pivotScan_succ =>
    and_of_imp ?_ fun pivotScan_imax => and_of_imp ?_ fun diag1110_step =>
    and_of_imp ?_ fun elimPrefix_succ => and_of_imp ?_ fun elimRow_aus =>
    and_of_imp ?_ fun elimRows_aus => and_of_imp ?_ fun elimStep_aus =>
    and_of_imp ?_ fun backSteps_aus => and_of_imp ?_ fun lnglsn_aus =>
    and_of_imp ?_ fun pivotScan_izg => and_of_imp ?_ fun elimRow_a =>
    and_of_imp ?_ fun elimRow_b => and_of_imp ?_ fun elimRows_a =>
    and_of_imp ?_ fun elimStep_eq => and_of_imp ?_ fun elimStep_row_kept =>
    and_of_imp ?_ fun elimStep_row => and_of_imp ?_ fun elimPrefix_row_frozen =>
    and_of_imp ?_ fun elimPrefix_inv => and_of_imp ?_ fun range'_map_sum =>
    and_of_imp ?_ fun backFold_succ => and_of_imp ?_ fun backStep_other =>
    and_of_imp ?_ fun backFold_kept => and_of_imp ?_ fun backFold_rec => ?_
  · -- `pivotScan_zero`
    intro n a k sc
    exact rfl
  · -- `pivotScan_succ`
    intro n a k fuel sc
    exact rfl
  · -- `pivotScan_imax`: the scan for the pivot never changes `imax`.
    intro n a k
    intro fuel
    induction fuel with
    | zero =>
      intro sc
      exact ⟨rfl, rfl⟩
    | succ m ih =>
      intro sc
      rw [pivotScan_succ]
      by_cases h1 : sc.l + 1 > n
      · simp only [h1, if_true, and_self]
      · by_cases h2 : |a (sc.l + 1) k| ≤ sc.amax
        · simp only [h1, h2, if_true, if_false]
          exact ih _
        · simp only [h1, h2, if_false, and_self]
  · -- `diag1110_step`
    intro b k hk
    rcases hk with rfl | rfl | rfl <;>
      (delta elimStep diag1110; norm_num [pivotScan_succ, pivotScan_zero])
  · -- `elimPrefix_succ`
    intro n a b j
    delta elimPrefix
    rw [List.range'_concat, List.foldl_append, show 1 + 1 * j = j + 1 by ring]
    rfl
  · -- `elimRow_aus`
    intro n k azv0 azv st l
    by_cases h : |st.a l k| < 1e-8 <;> (delta elimRow; simp only [h, if_true, if_false])
  · -- `elimRows_aus`
    intro n k azv0 azv ls
    induction ls with
    | nil => intro st; rfl
    | cons l ls ih =>
      intro st
      rw [List.foldl, ih, elimRow_aus]
  · -- `elimStep_aus`: A pass of the elimination sets `aus` exactly when the diagonal entry it
    -- starts from is below 1e-10 in magnitude; a flag already set stays set.
    intro n st k
    cases hst : st.aus
    · have ham : (pivotScan n st.a k n
        { l := k, izg := 0, imax := k, amax := |st.a k k| }).amax = |st.a k k| :=
        (pivotScan_imax n st.a k n _).2
      by_cases hp : |st.a k k| < 1e-10
      · have hp2 : ¬ (|(|st.a k k|)| ≥ 1e-10) := by
          rw [abs_abs]
          exact not_le.mpr hp
        delta elimStep; simp only [hst, Bool.false_eq_true, if_false, ham, hp2, not_false_eq_true,
          if_true, hp, or_true]
      · have hp2 : |(|st.a k k|)| ≥ 1e-10 := by
          rw [abs_abs]
          exact not_lt.mp hp
        delta elimStep
        simp only [hst, Bool.false_eq_true, if_false, ham, hp2, not_true_eq_false, hp,
          or_false, iff_false]
        split
        · split
          · simp [hst]
          · delta swapRows; simp [hst]
        · rw [elimRows_aus]
          split
          · simp [hst]
          · delta swapRows; simp [hst]
    · delta elimStep; simp [hst]
  · -- `backSteps_aus`
    intro n ls
    induction ls with
    | nil => intro st; rfl
    | cons l ls ih =>
      intro st
      rw [List.foldl, ih]
      rfl
  · -- `lnglsn_aus`
    intro n a b
    have e : lnglsn_ n a b = if (elimPrefix n a b (n - 1)).aus then elimPrefix n a b (n - 1)
        else (List.range' 1 n).reverse.foldl (backStep n) (elimPrefix n a b (n - 1)) := rfl
    rw [e]
    split
    · rfl
    · rw [backSteps_aus]
  · -- `pivotScan_izg`: the scan counts in `izg` at most the rows below row `sc.l`, and counts
    -- all of them only if every entry of column `k` in these rows is below 1e-8 in magnitude.
    intro n a k
    intro fuel
    induction fuel with
    | zero =>
      intro sc
      refine ⟨Nat.le_add_right _ _, fun h l h1 h2 => ?_⟩
      have h0 : (pivotScan n a k 0 sc).izg = sc.izg := rfl
      omega
    | succ m ih =>
      intro sc
      rw [pivotScan_succ]
      by_cases h1 : sc.l + 1 > n
      · simp only [h1, if_true]
        exact ⟨Nat.le_add_right _ _, fun _ l h2 h3 => by omega⟩
      · simp only [h1, if_false]
        have hizg : (if |a (sc.l + 1) k| < 1e-8 then sc.izg + 1 else sc.izg) ≤ sc.izg + 1 := by
          split <;> omega
        have hsmall : (if |a (sc.l + 1) k| < 1e-8 then sc.izg + 1 else sc.izg) = sc.izg + 1 →
            |a (sc.l + 1) k| < 1e-8 := by
          intro h
          by_contra hc
          rw [if_neg hc] at h
          omega
        by_cases h2 : |a (sc.l + 1) k| ≤ sc.amax
        · simp only [h2, if_true]
          generalize (if |a (sc.l + 1) k| < 1e-8 then sc.izg + 1 else sc.izg) = z at hizg hsmall ⊢
          obtain ⟨i1, i2⟩ := ih ⟨sc.l + 1, z, sc.imax, sc.amax⟩
          simp only at i1 i2
          refine ⟨by omega, fun h l h3 h4 => ?_⟩
          rcases Nat.lt_or_ge (sc.l + 1) l with h5 | h5
          · exact i2 (by omega) l h5 h4
          · have : l = sc.l + 1 := by omega
            rw [this]
            exact hsmall (by omega)
        · simp only [h2, if_false]
          refine ⟨by omega, fun h l h3 h4 => ?_⟩
          have : l = sc.l + 1 := by omega
          rw [this]
          exact hsmall (by omega)
  · -- `elimRow_a`
    intro n k azv0 azv st l i j
    by_cases h : |st.a l k| < 1e-8
    · delta elimRow; simp [h]
    · by_cases hi : i = l
      · delta elimRow; simp [h, hi]
      · delta elimRow; simp [h, hi]
  · -- `elimRow_b`
    intro n k azv0 azv st l i
    by_cases h : |st.a l k| < 1e-8
    · delta elimRow; simp [h]
    · by_cases hi : i = l
      · delta elimRow; simp [h, hi]
      · delta elimRow; simp [h, hi]
  · -- `elimRows_a`: the inner loops of a pass change the rows of the list only, each as
    -- `elimRow` changes it in the state the pass starts from.
    intro n k azv0 azv ls hnd
    induction ls with
    | nil =>
      intro st i j
      simp
    | cons l ls ih =>
      intro st i j
      have hl : l ∉ ls := (List.nodup_cons.mp hnd).1
      obtain ⟨ia, ib⟩ := ih (List.nodup_cons.mp hnd).2 (elimRow n k azv0 azv st l) i j
      rw [List.foldl, ia, ib]
      by_cases hi : i ∈ ls
      · have hne : i ≠ l := fun h => hl (h ▸ hi)
        simp only [hi, if_true, List.mem_cons, or_true]
        constructor
        · rw [elimRow_a, elimRow_a n k azv0 azv st i i j]
          simp only [true_and, elimRow_a n k azv0 azv st l i, hne, false_and, if_false]
        · rw [elimRow_b, elimRow_b n k azv0 azv st i i]
          simp only [true_and, elimRow_a n k azv0 azv st l i, elimRow_b n k azv0 azv st l i, hne,
            false_and, if_false]
      · by_cases hil : i = l
        · simp only [hi, if_false, List.mem_cons, hil, true_or, if_true]
          rw [← hil]
          simp [hi]
        · simp only [hi, if_false, List.mem_cons, hil, or_self]
          rw [elimRow_a, elimRow_b]
          simp [hil]
  · -- `elimStep_eq`: A pass that starts with `aus` false from a diagonal entry of magnitude at
    -- least 1e-10 exchanges no rows: it leaves the state as it is when `izg = n - k`, and runs
    -- the inner loops on the rows `k+1..n` otherwise.
    intro n st k haus hp
    have hsc := pivotScan_imax n st.a k n { l := k, izg := 0, imax := k, amax := |st.a k k| }
    have hp2 : |(|st.a k k|)| ≥ 1e-10 := by
      rw [abs_abs]
      exact hp
    delta elimStep; simp only [haus, Bool.false_eq_true, if_false, hsc.2, hp2, not_true_eq_false,
      hsc.1, if_true]
  · -- `elimStep_row_kept`: No pass changes a row at or above its pivot row, or a row beyond
    -- `n`.
    intro n st k i hi
    cases haus : st.aus
    · by_cases hp : 1e-10 ≤ |st.a k k|
      · rw [elimStep_eq n st k haus hp]
        split
        · exact ⟨fun _ => rfl, rfl⟩
        · have hmem : i ∉ List.range' (k + 1) (n - k) := by
            rw [List.mem_range'_1]
            omega
          refine ⟨fun j => ?_, ?_⟩
          · rw [(elimRows_a n k _ _ _ (List.nodup_range' _ _) st i j).1, if_neg hmem]
          · rw [(elimRows_a n k _ _ _ (List.nodup_range' _ _) st i 0).2, if_neg hmem]
      · have hsc := pivotScan_imax n st.a k n { l := k, izg := 0, imax := k, amax := |st.a k k| }
        have hp2 : ¬ (|(|st.a k k|)| ≥ 1e-10) := by
          rw [abs_abs]
          exact hp
        delta elimStep
        simp only [haus, Bool.false_eq_true, if_false, hsc.2, hp2, not_false_eq_true,
          if_true, implies_true, and_self]
    · delta elimStep; simp only [haus, if_true, implies_true, and_self]
  · -- `elimStep_row`: A pass that starts from a diagonal entry of magnitude at least 1e-6,
    -- with every entry below it zero or of magnitude at least 1e-8, subtracts from each row `l
    -- > k` the multiple `a(l,k)/a(k,k)` of row `k` in the columns `k..n` and in `b`.
    intro n st k haus hd hbelow l hl hln
    have hne : st.a k k ≠ 0 := by
      intro h0
      rw [h0, abs_zero] at hd
      norm_num at hd
    have hzero : |st.a l k| < 1e-8 → st.a l k = 0 := by
      intro h
      rcases hbelow l hl hln with h0 | h0
      · exact h0
      · exact absurd h (not_lt.mpr h0)
    rw [elimStep_eq n st k haus (le_trans (by norm_num) hd)]
    split
    · rename_i hizg
      have hall := (pivotScan_izg n st.a k n
        { l := k, izg := 0, imax := k, amax := |st.a k k| }).2 (by simpa using hizg) l hl hln
      have h0 := hzero hall
      refine ⟨fun j => ?_, ?_⟩
      · rw [h0]
        simp
      · rw [h0]
        simp
    · have hmem : l ∈ List.range' (k + 1) (n - k) := by
        rw [List.mem_range'_1]
        omega
      refine ⟨fun j => ?_, ?_⟩
      · rw [(elimRows_a n k _ _ _ (List.nodup_range' _ _) st l j).1, if_pos hmem, elimRow_a]
        by_cases hs : |st.a l k| < 1e-8
        · simp only [hs, not_true_eq_false, and_false, if_false]
          rw [hzero hs]
          simp
        · simp only [hs, not_false_eq_true, and_self, if_true]
          by_cases hjk : j = k
          · have hkn : k ≤ n := by omega
            simp only [hjk, if_true, le_refl, hkn, and_self]
            field_simp
          · by_cases hj : k < j ∧ j ≤ n
            · have hj2 : k ≤ j ∧ j ≤ n := ⟨by omega, hj.2⟩
              simp only [hjk, if_false, hj, and_self, if_true, hj2]
              field_simp
            · have hj2 : ¬ (k ≤ j ∧ j ≤ n) := by
                intro h
                exact hj ⟨by omega, h.2⟩
              simp only [hjk, if_false, hj, hj2]
      · rw [(elimRows_a n k _ _ _ (List.nodup_range' _ _) st l 0).2, if_pos hmem, elimRow_b]
        by_cases hs : |st.a l k| < 1e-8
        · simp only [hs, not_true_eq_false, and_false, if_false]
          rw [hzero hs]
          simp
        · simp only [hs, not_false_eq_true, and_self, if_true]
          field_simp
          ring
  · -- `elimPrefix_row_frozen`: Row `k` is final once the passes `1..k-1` are made.
    intro n a b k
    intro d
    induction d with
    | zero => exact ⟨fun _ => rfl, rfl⟩
    | succ d ih =>
      have e : k - 1 + (d + 1) = (k - 1 + d) + 1 := by ring
      rw [e, elimPrefix_succ]
      obtain ⟨h1, h2⟩ := elimStep_row_kept n (elimPrefix n a b (k - 1 + d)) (k - 1 + d + 1) k
        (Or.inl (by omega))
      exact ⟨fun c => (h1 c).trans (ih.1 c), h2.trans ih.2⟩
  · -- `elimPrefix_inv`: When every pass starts from a diagonal entry of magnitude at least
    -- 1e-6 with the entries below it zero or of magnitude at least 1e-8, the state after `j`
    -- passes has `aus` false, zeros below the diagonal in the columns `1..j`, and the same
    -- solutions as the system given.
    intro n a b hdiag hbelow
    intro j
    induction j with
    | zero =>
      intro _
      refine ⟨rfl, fun c l h1 h2 => by omega, fun x => Iff.rfl⟩
    | succ j ih =>
      intro hj
      obtain ⟨haus, hz, hsol⟩ := ih (by omega)
      have hd : 1e-6 ≤ |(elimPrefix n a b j).a (j + 1) (j + 1)| := by
        have := hdiag (j + 1) (by omega) (by omega)
        rwa [Nat.add_sub_cancel] at this
      have hb : ∀ l, j + 1 < l → l ≤ n → (elimPrefix n a b j).a l (j + 1) = 0 ∨
          1e-8 ≤ |(elimPrefix n a b j).a l (j + 1)| := by
        intro l h1 h2
        have := hbelow (j + 1) l (by omega) h1 h2
        rwa [Nat.add_sub_cancel] at this
      have hne : (elimPrefix n a b j).a (j + 1) (j + 1) ≠ 0 := by
        intro h0
        rw [h0, abs_zero] at hd
        norm_num at hd
      have hkept := fun i (hi : i ≤ j + 1) =>
        elimStep_row_kept n (elimPrefix n a b j) (j + 1) i (Or.inl hi)
      have hrow := fun l (h1 : j + 1 < l) (h2 : l ≤ n) =>
        elimStep_row n (elimPrefix n a b j) (j + 1) haus hd hb l h1 h2
      have hfull : ∀ l, j + 1 < l → l ≤ n → ∀ t, t ∈ Finset.Icc 1 n →
          (elimStep n (elimPrefix n a b j) (j + 1)).a l t =
            (elimPrefix n a b j).a l t -
              (elimPrefix n a b j).a l (j + 1) / (elimPrefix n a b j).a (j + 1) (j + 1) *
                (elimPrefix n a b j).a (j + 1) t := by
        intro l h1 h2 t ht
        rw [Finset.mem_Icc] at ht
        rw [(hrow l h1 h2).1 t]
        by_cases htj : j + 1 ≤ t
        · rw [if_pos ⟨htj, ht.2⟩]
        · rw [if_neg (fun h => htj h.1), hz t (j + 1) ht.1 (by omega) (by omega) (by omega)]
          ring
      have hsum : ∀ (x : ℕ → ℝ) l, j + 1 < l → l ≤ n →
          ∑ t ∈ Finset.Icc 1 n, (elimStep n (elimPrefix n a b j) (j + 1)).a l t * x t =
            ∑ t ∈ Finset.Icc 1 n, (elimPrefix n a b j).a l t * x t -
              (elimPrefix n a b j).a l (j + 1) / (elimPrefix n a b j).a (j + 1) (j + 1) *
                ∑ t ∈ Finset.Icc 1 n, (elimPrefix n a b j).a (j + 1) t * x t := by
        intro x l h1 h2
        rw [Finset.mul_sum, ← Finset.sum_sub_distrib]
        refine Finset.sum_congr rfl (fun t ht => ?_)
        rw [hfull l h1 h2 t ht]
        ring
      rw [elimPrefix_succ]
      refine ⟨?_, ?_, fun x => (hsol x).trans ⟨fun h i h1 h2 => ?_, fun h i h1 h2 => ?_⟩⟩
      · cases hc : (elimStep n (elimPrefix n a b j) (j + 1)).aus
        · rfl
        · rcases (elimStep_aus n _ _).mp hc with h | h
          · rw [haus] at h
            exact absurd h (by simp)
          · exact absurd (lt_of_le_of_lt hd h) (by norm_num)
      · intro c l h1 h2 h3 h4
        rcases Nat.lt_or_ge (j + 1) l with h5 | h5
        · rw [(hrow l h5 h4).1 c]
          by_cases hcj : j + 1 ≤ c
          · have hc : c = j + 1 := by omega
            have hcn : c ≤ n := by omega
            rw [if_pos ⟨hcj, hcn⟩, hc]
            field_simp
          · rw [if_neg (fun h => hcj h.1)]
            exact hz c l h1 (by omega) h3 h4
        · rw [(hkept l h5).1 c]
          exact hz c l h1 (by omega) h3 h4
      · rcases Nat.lt_or_ge (j + 1) i with h5 | h5
        · rw [hsum x i h5 h2, (hrow i h5 h2).2, h i h1 h2, h (j + 1) (by omega) (by omega)]
        · rw [(hkept i h5).2]
          rw [← h i h1 h2]
          exact Finset.sum_congr rfl (fun t _ => by rw [(hkept i h5).1 t])
      · have hk := h (j + 1) (by omega) (by omega)
        rw [(hkept (j + 1) (le_refl _)).2] at hk
        have hk2 : ∑ t ∈ Finset.Icc 1 n, (elimPrefix n a b j).a (j + 1) t * x t =
            (elimPrefix n a b j).b (j + 1) := by
          rw [← hk]
          exact Finset.sum_congr rfl (fun t _ => by rw [(hkept (j + 1) (le_refl _)).1 t])
        rcases Nat.lt_or_ge (j + 1) i with h5 | h5
        · have hi := h i h1 h2
          rw [hsum x i h5 h2, (hrow i h5 h2).2, hk2] at hi
          linarith
        · have hi := h i h1 h2
          rw [(hkept i h5).2] at hi
          rw [← hi]
          exact Finset.sum_congr rfl (fun t _ => by rw [(hkept i h5).1 t])
  · -- `range'_map_sum`
    intro f s
    intro m
    induction m with
    | zero => simp
    | succ m ih =>
      rw [List.range'_concat, List.map_append, List.sum_append, ih, ← Nat.add_assoc,
        Finset.sum_Ico_succ_top (Nat.le_add_right s m)]
      simp
  · -- `backFold_succ`
    intro n m st
    rw [List.range'_concat, List.reverse_append, show 1 + 1 * m = m + 1 by ring]
    rfl
  · -- `backStep_other`
    intro n st k i j h
    delta backStep; try dsimp only
    rw [if_neg h]
  · -- `backFold_kept`: the back substitution writes the entries `a(n, 1..m)` only.
    intro n
    intro m
    induction m with
    | zero =>
      intro st
      exact ⟨fun _ _ _ => rfl, rfl⟩
    | succ m ih =>
      intro st
      rw [backFold_succ]
      obtain ⟨h1, h2⟩ := ih (backStep n st (m + 1))
      refine ⟨fun i j hij => ?_, h2⟩
      rw [h1 i j (fun h => hij ⟨h.1, h.2.1, by omega⟩)]
      exact backStep_other n st (m + 1) i j (fun h => hij ⟨h.1, by omega, by omega⟩)
  · -- `backFold_rec`: each component stored by the back substitution is 0 when the diagonal
    -- entry of its row is below 1e-6, and else the quotient of `b(k)` less the sum over the
    -- components stored before it by the diagonal entry.
    intro n
    intro m
    induction m with
    | zero =>
      intro _ st k h1 h2
      omega
    | succ m ih =>
      intro hm st k h1 h2
      rw [backFold_succ]
      have hkept := (backFold_kept n m (backStep n st (m + 1))).1
      rcases Nat.lt_or_ge m k with h3 | h3
      · have hk : k = m + 1 := by omega
        rw [hkept n k (fun h => by omega)]
        have hsum : ∑ l ∈ Finset.Icc (k + 1) n, st.a k l *
            ((List.range' 1 m).reverse.foldl (backStep n) (backStep n st (m + 1))).a n l =
            ∑ l ∈ Finset.Icc (k + 1) n, st.a k l * st.a n l := by
          refine Finset.sum_congr rfl (fun l hl => ?_)
          rw [Finset.mem_Icc] at hl
          rw [hkept n l (fun h => by omega)]
          rw [backStep_other n st (m + 1) n l (fun h => by omega)]
        have hlist : (if k < n then ((List.range' (k + 1) (n - k)).map
            (fun l => st.a k l * st.a n l)).sum else 0) =
            ∑ l ∈ Finset.Icc (k + 1) n, st.a k l * st.a n l := by
          have hI : Finset.Ico (k + 1) (k + 1 + (n - k)) = Finset.Icc (k + 1) n := by
            ext t
            simp only [Finset.mem_Ico, Finset.mem_Icc]
            omega
          by_cases hkn : k < n
          · rw [if_pos hkn, range'_map_sum, hI]
          · rw [if_neg hkn]
            have hE : Finset.Icc (k + 1) n = ∅ := by
              ext t
              simp only [Finset.mem_Icc, Finset.not_mem_empty, iff_false]
              omega
            rw [hE, Finset.sum_empty]
        rw [hsum, ← hlist, ← hk]
        delta backStep; simp only [and_self, if_true]
      · rw [ih (by omega) (backStep n st (m + 1)) k h1 h3]
        have hkk : (backStep n st (m + 1)).a k k = st.a k k :=
          backStep_other n st (m + 1) k k (fun h => by omega)
        have hb : (backStep n st (m + 1)).b k = st.b k := rfl
        have hrow : ∀ l, (backStep n st (m + 1)).a k l = st.a k l := by
          intro l
          exact backStep_other n st (m + 1) k l (fun h => by omega)
        rw [hkk, hb]
        simp only [hrow]
  · -- `lnglsn_unique_solution`: Under the conditions on the pivots (all `n` diagonal entries
    -- of the reduced system included), `lnglsn_` returns `aus` false and row `n` of `a` holds
    -- a solution of the system given, the only one.
    intro n a b hdiag hbelow
    obtain ⟨haus, hz, hsol⟩ := elimPrefix_inv n a b hdiag hbelow (n - 1) (le_refl _)
    have hl : lnglsn_ n a b =
        (List.range' 1 n).reverse.foldl (backStep n) (elimPrefix n a b (n - 1)) := by
      have e : lnglsn_ n a b = if (elimPrefix n a b (n - 1)).aus then elimPrefix n a b (n - 1)
          else (List.range' 1 n).reverse.foldl (backStep n) (elimPrefix n a b (n - 1)) := rfl
      rw [e, haus]
      rfl
    have hUd : ∀ k, 1 ≤ k → k ≤ n → 1e-6 ≤ |(elimPrefix n a b (n - 1)).a k k| := by
      intro k h1 h2
      have e : n - 1 = k - 1 + (n - k) := by omega
      rw [e, (elimPrefix_row_frozen n a b k (n - k)).1 k]
      exact hdiag k h1 h2
    have hUne : ∀ k, 1 ≤ k → k ≤ n → (elimPrefix n a b (n - 1)).a k k ≠ 0 := by
      intro k h1 h2 h0
      have := hUd k h1 h2
      rw [h0, abs_zero] at this
      norm_num at this
    have hrec : ∀ k, 1 ≤ k → k ≤ n → (lnglsn_ n a b).a n k =
        ((elimPrefix n a b (n - 1)).b k - ∑ l ∈ Finset.Icc (k + 1) n,
          (elimPrefix n a b (n - 1)).a k l * (lnglsn_ n a b).a n l) /
          (elimPrefix n a b (n - 1)).a k k := by
      intro k h1 h2
      have h := backFold_rec n n (le_refl _) (elimPrefix n a b (n - 1)) k h1 h2
      rw [← hl, if_neg (not_lt.mpr (hUd k h1 h2))] at h
      exact h
    have htri : ∀ (y : ℕ → ℝ) k, 1 ≤ k → k ≤ n →
        ∑ t ∈ Finset.Icc 1 n, (elimPrefix n a b (n - 1)).a k t * y t =
          (elimPrefix n a b (n - 1)).a k k * y k +
            ∑ l ∈ Finset.Icc (k + 1) n, (elimPrefix n a b (n - 1)).a k l * y l := by
      intro y k h1 h2
      have hsub : Finset.Icc k n ⊆ Finset.Icc 1 n := by
        intro t ht
        rw [Finset.mem_Icc] at ht ⊢
        omega
      rw [← Finset.sum_subset hsub (fun t ht hnt => by
        rw [Finset.mem_Icc] at ht hnt
        rw [hz t k ht.1 (by omega) (by omega) h2, zero_mul])]
      have hI : Finset.Icc k n = insert k (Finset.Icc (k + 1) n) := by
        ext t
        simp only [Finset.mem_Icc, Finset.mem_insert]
        omega
      rw [hI, Finset.sum_insert (by simp)]
    have hex : ∀ i, 1 ≤ i → i ≤ n →
        ∑ t ∈ Finset.Icc 1 n, (elimPrefix n a b (n - 1)).a i t * (lnglsn_ n a b).a n t =
          (elimPrefix n a b (n - 1)).b i := by
      intro i h1 h2
      rw [htri _ i h1 h2]
      have h := hrec i h1 h2
      have hne := hUne i h1 h2
      rw [eq_div_iff hne] at h
      linarith
    refine ⟨by rw [lnglsn_aus]; exact haus, (hsol _).mpr hex, fun y hy => ?_⟩
    have hyU := (hsol y).mp hy
    have hdown : ∀ d k, 1 ≤ k → k ≤ n → n - k < d → y k = (lnglsn_ n a b).a n k := by
      intro d
      induction d with
      | zero =>
        intro k _ _ h
        omega
      | succ d ih =>
        intro k h1 h2 h3
        have hy1 := hyU k h1 h2
        rw [htri y k h1 h2] at hy1
        have hx1 := hex k h1 h2
        rw [htri _ k h1 h2] at hx1
        have hs : ∑ l ∈ Finset.Icc (k + 1) n, (elimPrefix n a b (n - 1)).a k l * y l =
            ∑ l ∈ Finset.Icc (k + 1) n,
              (elimPrefix n a b (n - 1)).a k l * (lnglsn_ n a b).a n l := by
          refine Finset.sum_congr rfl (fun l hl => ?_)
          rw [Finset.mem_Icc] at hl
          rw [ih l (by omega) hl.2 (by omega)]
        rw [hs] at hy1
        have hne := hUne k h1 h2
        have : (elimPrefix n a b (n - 1)).a k k * y k =
            (elimPrefix n a b (n - 1)).a k k * (lnglsn_ n a b).a n k := by linarith
        exact mul_left_cancel₀ hne this
    intro j h1 h2
    exact hdown (n - j + 1) j h1 h2 (by omega)

/-- C30: in every pass `k` of the elimination the pivot row stays row `k`: the scan
leaves `imax = k` and `amax = |a(k,k)|` whatever the column holds, so no rows are
exchanged; for the matrix with the rows `(1, 1)` and `(2, 1)` the pass `k = 1` keeps
row 1 as pivot row although `|a(2,1)| = 2 > |a(1,1)| = 1`. -/
theorem lnglsn_keeps_pivot_row (n : ℕ) (a : ℕ → ℕ → ℝ) (k : ℕ) :
    (pivotScan n a k n { l := k, izg := 0, imax := k, amax := |a k k| }).imax = k ∧
      (pivotScan n a k n { l := k, izg := 0, imax := k, amax := |a k k| }).amax = |a k k| := by
  obtain ⟨-, -, pivotScan_imax, -, -, -, -, -, -, -, -, -, -, -, -, -, -, -, -, -, -, -, -, -, -⟩
    := lnglsn_facts
  exact pivotScan_imax n a k n _

/-- C22: the matrix with the diagonal 1, 1, 1, 0 is singular (its fourth row is zero, and
with `b(4) = 1` the system has no solution), but `lnglsn_` returns with `aus` false: the
test on the pivot is made in the passes `k = 1..n-1` only, and the back substitution
stores 0 for a component whose diagonal entry is below 1e-6. -/
theorem lnglsn_misses_singular (b : ℕ → ℝ) :
    (∀ j, diag1110 4 j = 0) ∧ (lnglsn_ 4 diag1110 b).aus = false ∧
      (lnglsn_ 4 diag1110 b).a 4 4 = 0 := by
  obtain ⟨-, -, -, diag1110_step, -, -, -, -, -, -, -, -, -, -, -, -, -, -, -, -, -, -, -, -, -⟩
    := lnglsn_facts
  have hrow : ∀ j, diag1110 4 j = 0 := by
    intro j
    delta diag1110; simp
  have hel : (List.range' 1 (4 - 1)).foldl (elimStep 4)
      { a := diag1110, b := b, aus := false } = { a := diag1110, b := b, aus := false } := by
    have e : List.range' 1 (4 - 1) = [1, 2, 3] := by decide
    rw [e]
    simp only [List.foldl]
    rw [diag1110_step b 1 (Or.inl rfl), diag1110_step b 2 (Or.inr (Or.inl rfl)),
      diag1110_step b 3 (Or.inr (Or.inr rfl))]
  have hb : List.range' 1 4 = [1, 2, 3, 4] := by decide
  refine ⟨hrow, ?_, ?_⟩
  · delta lnglsn_; simp only [hel]
    delta backStep
    simp only [Bool.false_eq_true, if_false, hb, List.reverse_cons, List.reverse_nil,
      List.nil_append, List.cons_append, List.foldl]
  · delta lnglsn_; simp only [hel]
    delta backStep
    simp only [Bool.false_eq_true, if_false, hb, List.reverse_cons, List.reverse_nil,
      List.nil_append, List.cons_append, List.foldl]
    delta diag1110; norm_num

/-! ## The order of the boundary heights (C29) -/

set_option maxHeartbeats 4000000 in
/-- Facts about the bottomside formula and the state `weakPeak`: the hyperbolic cosine is at
least 1 and does not decrease on the nonnegative reals, `xe2_` is at most `xnmf2`, the values of
`xe3_` around the target, and the scan for the start height. -/
theorem weakPeak_facts :
    -- `cosh_ge_one`
    (∀ (x : ℝ), 1 ≤ Real.cosh x) ∧
    -- `cosh_le_cosh_of_nonneg`
    (∀ (a b : ℝ) (_ : 0 ≤ a) (_ : a ≤ b),
        Real.cosh a ≤ Real.cosh b) ∧
    -- `xe2_le_peak`
    (∀ (s : Blocks ℝ) (h : ℝ) (_ : 0 < s.b0) (_ : 0 ≤ s.xnmf2)
        (_ : h ≤ s.hmf2), xe2_ s h ≤ s.xnmf2) ∧
    -- `weakPeak_xe3`
    (∀ (h : ℝ), xe3_ weakPeak h = xe2_ weakPeak h) ∧
    -- `weakPeak_below`
    (∀ (h : ℝ) (_ : h ≤ 200), xe3_ weakPeak h < weakPeak.xnme) ∧
    -- `weakPeak_above`
    (weakPeak.xnme ≤ xe3_ weakPeak 209.5) ∧
    -- `startHeight_skip`
    (∀ (s : Blocks ℝ) (n : ℕ) (rathh : ℝ)
        (_ : xe3_ s (s.hef + (s.hmf2 - s.hef) * rathh) < s.xnme),
        startHeight s (n + 1) rathh = startHeight s n (rathh + 0.1)) ∧
    -- `startHeight_stop`
    (∀ (s : Blocks ℝ) (n : ℕ) (rathh : ℝ)
        (_ : ¬ xe3_ s (s.hef + (s.hmf2 - s.hef) * rathh) < s.xnme),
        startHeight s (n + 1) rathh =
          some (s.hef + (s.hmf2 - s.hef) * rathh, xe3_ s (s.hef + (s.hmf2 - s.hef) * rathh))) ∧
    -- `weakPeak_skip`
    (∀ (n : ℕ) (rathh : ℝ) (_ : rathh ≤ 1),
        startHeight weakPeak (n + 1) rathh = startHeight weakPeak n (rathh + 0.1)) ∧
    -- `weakPeak_start`
    (startHeight weakPeak 7 0.5 = some (209.5, xe3_ weakPeak 209.5)) ∧
    -- `weakPeak_scan`
    (hstScanStep weakPeak 209.5 10 (xe3_ weakPeak 209.5) 209.5 =
          ScanStep.bracket 199.5 (xe3_ weakPeak 199.5) (xe3_ weakPeak 199.5) 199.5) := by
  obtain ⟨-, -, -, startHeight_succ⟩ := peak_facts
  refine and_of_imp ?_ fun cosh_ge_one => and_of_imp ?_ fun cosh_le_cosh_of_nonneg =>
    and_of_imp ?_ fun xe2_le_peak => and_of_imp ?_ fun weakPeak_xe3 =>
    and_of_imp ?_ fun weakPeak_below => and_of_imp ?_ fun weakPeak_above =>
    and_of_imp ?_ fun startHeight_skip => and_of_imp ?_ fun startHeight_stop =>
    and_of_imp ?_ fun weakPeak_skip => and_of_imp ?_ fun weakPeak_start => ?_
  · -- `cosh_ge_one`: the hyperbolic cosine is at least 1.
    intro x
    have hp : 0 < Real.exp x := Real.exp_pos x
    have hi : 0 < (Real.exp x)⁻¹ := inv_pos.mpr hp
    have hm : Real.exp x * (Real.exp x)⁻¹ = 1 := mul_inv_cancel₀ hp.ne'
    rw [Real.cosh_eq, Real.exp_neg]
    nlinarith [sq_nonneg (Real.exp x - (Real.exp x)⁻¹)]
  · -- `cosh_le_cosh_of_nonneg`: the hyperbolic cosine does not decrease on the nonnegative
    -- reals.
    intro a b ha hab
    have hp : 1 ≤ Real.exp a := Real.one_le_exp ha
    have hq : Real.exp a ≤ Real.exp b := Real.exp_le_exp.mpr hab
    have hp0 : 0 < Real.exp a := Real.exp_pos a
    have hq0 : 0 < Real.exp b := Real.exp_pos b
    have e : (Real.exp a)⁻¹ - (Real.exp b)⁻¹ =
        (Real.exp b - Real.exp a) / (Real.exp a * Real.exp b) := by
      field_simp
    have h1 : 1 ≤ Real.exp a * Real.exp b := by nlinarith
    have h2 : (Real.exp b - Real.exp a) / (Real.exp a * Real.exp b) ≤ Real.exp b - Real.exp a :=
      div_le_self (sub_nonneg.mpr hq) h1
    rw [Real.cosh_eq, Real.cosh_eq, Real.exp_neg, Real.exp_neg]
    linarith
  · -- `xe2_le_peak`: At and below the F2 peak the bottomside formula does not exceed the peak
    -- density.
    intro s h hb0 hn hh
    have hx : 0 ≤ (s.hmf2 - h) / s.b0 := div_nonneg (by linarith) hb0.le
    have hz : 0 ≤ ((s.hmf2 - h) / s.b0) ^ s.b1 := Real.rpow_nonneg hx _
    have hz1 : 0 ≤ (if ((s.hmf2 - h) / s.b0) ^ s.b1 > argmax then argmax
        else ((s.hmf2 - h) / s.b0) ^ s.b1) := by
      split
      · delta argmax; norm_num
      · exact hz
    have he : Real.exp (-(if ((s.hmf2 - h) / s.b0) ^ s.b1 > argmax then argmax
        else ((s.hmf2 - h) / s.b0) ^ s.b1)) ≤ 1 := Real.exp_le_one_iff.mpr (by linarith)
    have hc : 1 ≤ Real.cosh ((s.hmf2 - h) / s.b0) := cosh_ge_one _
    have hq : Real.exp (-(if ((s.hmf2 - h) / s.b0) ^ s.b1 > argmax then argmax
        else ((s.hmf2 - h) / s.b0) ^ s.b1)) / Real.cosh ((s.hmf2 - h) / s.b0) ≤ 1 :=
      (div_le_one (by linarith)).mpr (he.trans hc)
    have e : xe2_ s h = s.xnmf2 * (Real.exp (-(if ((s.hmf2 - h) / s.b0) ^ s.b1 > argmax
        then argmax else ((s.hmf2 - h) / s.b0) ^ s.b1)) /
        Real.cosh ((s.hmf2 - h) / s.b0)) := by
      delta xe2_; try dsimp only
      ring
    rw [e]
    calc s.xnmf2 * _ ≤ s.xnmf2 * 1 := mul_le_mul_of_nonneg_left hq hn
      _ = s.xnmf2 := mul_one _
  · -- `weakPeak_xe3`
    intro h
    delta xe3_; delta weakPeak scenario; simp
  · -- `weakPeak_below`
    intro h hh
    rw [weakPeak_xe3]
    have := xe2_le_peak weakPeak h (by delta weakPeak scenario; norm_num)
      (by delta weakPeak scenario; norm_num) (by delta weakPeak scenario; simpa using hh)
    have e1 : weakPeak.xnmf2 = 100000000000 := rfl
    have e2 : weakPeak.xnme = 150000000000 := rfl
    rw [e1] at this
    rw [e2]
    linarith
  · -- `weakPeak_above`
    rw [weakPeak_xe3]
    have hx : (weakPeak.hmf2 - 209.5) / weakPeak.b0 = -1.9 := by
      delta weakPeak scenario; norm_num
    have hb1 : weakPeak.b1 = ((3 : ℕ) : ℝ) := by
      delta weakPeak scenario; norm_num
    have hz : ((-1.9 : ℝ)) ^ weakPeak.b1 = -6.859 := by
      rw [hb1, Real.rpow_natCast]
      norm_num
    have hn : ¬ ((-6.859 : ℝ) > argmax) := by delta argmax; norm_num
    have e : xe2_ weakPeak 209.5 =
        100000000000 * Real.exp 6.859 / Real.cosh (-1.9) := by
      delta xe2_; simp only [hx, hz, hn, if_false, neg_neg]
      rfl
    rw [e]
    have hc : Real.cosh (-1.9) ≤ Real.exp 1.9 := by
      have := Real.exp_le_exp.mpr (show (-1.9 : ℝ) ≤ 1.9 by norm_num)
      rw [Real.cosh_eq, neg_neg]
      linarith
    have hcpos : 0 < Real.cosh (-1.9) := Real.cosh_pos _
    have h1 : Real.exp 1.9 * (Real.exp 2.4795 * Real.exp 2.4795) = Real.exp 6.859 := by
      rw [← Real.exp_add, ← Real.exp_add]
      norm_num
    have h2 : (3.4795 : ℝ) ≤ Real.exp 2.4795 := by
      have := Real.add_one_le_exp (2.4795 : ℝ)
      linarith
    have hpos : 0 < Real.exp (1.9 : ℝ) := Real.exp_pos _
    have e2 : weakPeak.xnme = 150000000000 := rfl
    rw [e2, le_div_iff₀ hcpos]
    have h3 : Real.cosh (-1.9) * 6.054 ≤ Real.exp 6.859 := by
      rw [← h1]
      have h4 : (6.054 : ℝ) ≤ Real.exp 2.4795 * Real.exp 2.4795 := by nlinarith
      have : Real.cosh (-1.9) * 6.054 ≤ Real.exp 1.9 * 6.054 :=
        mul_le_mul_of_nonneg_right hc (by norm_num)
      have : Real.exp 1.9 * 6.054 ≤ Real.exp 1.9 * (Real.exp 2.4795 * Real.exp 2.4795) :=
        mul_le_mul_of_nonneg_left h4 hpos.le
      linarith
    nlinarith
  · -- `startHeight_skip`
    intro s n rathh h
    simp only [startHeight_succ, h, if_true]
  · -- `startHeight_stop`
    intro s n rathh h
    simp only [startHeight_succ, h, if_false]
  · -- `weakPeak_skip`
    intro n rathh hr
    apply startHeight_skip
    apply weakPeak_below
    have e1 : weakPeak.hef = 105 := rfl
    have e2 : weakPeak.hmf2 = 200 := rfl
    rw [e1, e2]
    linarith
  · -- `weakPeak_start`
    have e : weakPeak.hef + (weakPeak.hmf2 - weakPeak.hef) *
        (0.5 + 0.1 + 0.1 + 0.1 + 0.1 + 0.1 + 0.1) = 209.5 := by
      delta weakPeak scenario; norm_num
    rw [weakPeak_skip 6 0.5 (by norm_num), weakPeak_skip 5 _ (by norm_num),
      weakPeak_skip 4 _ (by norm_num), weakPeak_skip 3 _ (by norm_num),
      weakPeak_skip 2 _ (by norm_num), weakPeak_skip 1 _ (by norm_num),
      startHeight_stop weakPeak 0 _ (by rw [e]; exact not_lt.mpr weakPeak_above), e]
  · -- `weakPeak_scan`
    have hlow := weakPeak_below 199.5 (by norm_num)
    have hup := weakPeak_above
    have h1 : ¬ ((209.5 : ℝ) - 10 < weakPeak.hef) := by
      delta weakPeak scenario; norm_num
    have h2 : ¬ (xe3_ weakPeak 199.5 > weakPeak.xnme) := not_lt.mpr hlow.le
    have h3 : xe3_ weakPeak 199.5 < xe3_ weakPeak 209.5 := lt_of_lt_of_le hlow hup
    have e : (209.5 : ℝ) - 10 = 199.5 := by norm_num
    have h1a : ¬ ((199.5 : ℝ) < weakPeak.hef) := by
      delta weakPeak scenario; norm_num
    delta hstScanStep hstScanEval
    simp only [h1, h1a, if_false, e, h2, h3, if_true]

/-- C29 (counterexample): in the state `weakPeak` (no F1 region, `nmf2 = 1e11` below
`nme = 1.5e11`, `hmf2 = 200`, `hef = 105`) the start-height loop ends at `rathh = 1.1`
with `hf1 = 209.5 > hmf2`, the first pass of the scan stops at `h = 199.5`, `regfa1_`
returns a root `hst` in `[199.5, 209.5]`, and the root-found branch gives
`hz = (hst + hf1)/2 >= 204.5`; with `hmf1` set to `hz`, `hmf1 > hmf2 = 200`. -/
theorem boundary_order_fails :
    startHeight weakPeak 7 0.5 = some (209.5, xe3_ weakPeak 209.5) ∧
    hstScanStep weakPeak 209.5 10 (xe3_ weakPeak 209.5) 209.5 =
      ScanStep.bracket 199.5 (xe3_ weakPeak 199.5) (xe3_ weakPeak 199.5) 199.5 ∧
    ∃ N : ℕ, ∀ fuel, N ≤ fuel →
      ∃ r, regfa1_ fuel 199.5 209.5 (xe3_ weakPeak 199.5) (xe3_ weakPeak 209.5) 0.001
          weakPeak.xnme (xe3_ weakPeak) = Outcome.done r ∧ r.schalt = false ∧
        ((weakPeak.rootBranch r.x 209.5).closeF1 false).hmf2 <
          ((weakPeak.rootBranch r.x 209.5).closeF1 false).hmf1 := by
  obtain ⟨-, -, -, -, -, -, -, -, -, -, -, -, -, -, -, -, -, -, regfa1_returns_bracket, -, -, -,
    -⟩ := regfa_facts
  obtain ⟨-, -, -, -, weakPeak_below, weakPeak_above, -, -, -, weakPeak_start, weakPeak_scan⟩
    := weakPeak_facts
  refine ⟨weakPeak_start, weakPeak_scan, ?_⟩
  have hlow := weakPeak_below 199.5 (by norm_num)
  have hup := weakPeak_above
  obtain ⟨N, hN⟩ := regfa1_returns_bracket (xe3_ weakPeak) 199.5 209.5
    (xe3_ weakPeak 199.5) (xe3_ weakPeak 209.5) 0.001 weakPeak.xnme (by norm_num)
    (mul_nonpos_of_nonpos_of_nonneg (by linarith) (by linarith)) (by linarith)
  refine ⟨N, fun fuel hfuel => ?_⟩
  obtain ⟨r, hr, hB, _⟩ := hN fuel hfuel
  refine ⟨r, hr, hB.1, ?_⟩
  have hm : r.x ∈ Set.uIcc (199.5 : ℝ) 209.5 := hB.2.2.2.2.1 hB.2.2.2.1
  rw [Set.uIcc_of_le (by norm_num)] at hm
  have e1 : ((weakPeak.rootBranch r.x 209.5).closeF1 false).hmf2 = 200 := rfl
  have e2 : ((weakPeak.rootBranch r.x 209.5).closeF1 false).hmf1 = (r.x + 209.5) / 2 := rfl
  rw [e1, e2]
  linarith [hm.1]

/-- C29 (amended): after a resolution that ends in the root-found branch, with valley
width `>= 0` (`hme <= hef`) and the root search made on a bracket `[h, hf1]` with
`hef <= h <= hf1 <= hmf2` (`hf1 = hmf1` when an F1 region is present), the heights used by
the evaluator are ordered `hme <= hef <= hst <= hz <= hmf1 <= hmf2`, `hmf1` being set to
`hz` without F1 region. -/
theorem boundary_order (s : Blocks ℝ) (h hf1 xe3h xf1 : ℝ) (f1reg : Bool)
    (hw : s.hme ≤ s.hef) (h1 : s.hef ≤ h) (h2 : h ≤ hf1) (h3 : hf1 ≤ s.hmf2)
    (hf : f1reg = true → s.hmf1 = hf1)
    (hs : (xe3h - s.xnme) * (xf1 - s.xnme) ≤ 0) (hne : xe3h - s.xnme ≠ 0) :
    ∃ N : ℕ, ∀ fuel, N ≤ fuel →
      ∃ r, regfa1_ fuel h hf1 xe3h xf1 0.001 s.xnme (xe3_ s) = Outcome.done r ∧
        r.schalt = false ∧
        ((s.rootBranch r.x hf1).closeF1 f1reg).hme ≤
          ((s.rootBranch r.x hf1).closeF1 f1reg).hef ∧
        ((s.rootBranch r.x hf1).closeF1 f1reg).hef ≤
          ((s.rootBranch r.x hf1).closeF1 f1reg).hst ∧
        ((s.rootBranch r.x hf1).closeF1 f1reg).hst ≤
          ((s.rootBranch r.x hf1).closeF1 f1reg).hz ∧
        ((s.rootBranch r.x hf1).closeF1 f1reg).hz ≤
          ((s.rootBranch r.x hf1).closeF1 f1reg).hmf1 ∧
        ((s.rootBranch r.x hf1).closeF1 f1reg).hmf1 ≤
          ((s.rootBranch r.x hf1).closeF1 f1reg).hmf2 := by
  obtain ⟨-, -, -, -, -, -, -, -, -, -, -, -, -, -, -, -, -, -, regfa1_returns_bracket, -, -, -,
    -⟩ := regfa_facts
  obtain ⟨N, hN⟩ := regfa1_returns_bracket (xe3_ s) h hf1 xe3h xf1 0.001 s.xnme
    (by norm_num) hs hne
  refine ⟨N, fun fuel hfuel => ?_⟩
  obtain ⟨r, hr, hB, _⟩ := hN fuel hfuel
  have hm : r.x ∈ Set.uIcc h hf1 := hB.2.2.2.2.1 hB.2.2.2.1
  rw [Set.uIcc_of_le h2] at hm
  refine ⟨r, hr, hB.1, ?_⟩
  cases f1reg with
  | true =>
    have e : s.hmf1 = hf1 := hf rfl
    delta Blocks.closeF1 Blocks.rootBranch; simp only [if_true, e]
    refine ⟨hw, by linarith [hm.1], by linarith [hm.2], by linarith [hm.2], h3⟩
  | false =>
    delta Blocks.closeF1 Blocks.rootBranch; simp only [Bool.false_eq_true, if_false]
    refine ⟨hw, by linarith [hm.1], by linarith [hm.2], le_refl _, by linarith [hm.2]⟩

theorem boundary_order_witness :
    scenario.hme ≤ scenario.hef ∧ scenario.hef ≤ 150 ∧ (150 : ℝ) ≤ 220 ∧
      (220 : ℝ) ≤ scenario.hmf2 ∧ scenario.hmf1 = 220 ∧
      ∃ N : ℕ, ∀ fuel, N ≤ fuel →
        ∃ r, regfa1_ fuel 150 220 100000000000 200000000000 0.001 scenario.xnme
            (xe3_ scenario) = Outcome.done r ∧ r.schalt = false ∧
          ((scenario.rootBranch r.x 220).closeF1 true).hst ≤
            ((scenario.rootBranch r.x 220).closeF1 true).hz :=
  have r := boundary_order scenario 150 220 100000000000 200000000000 true
    (by delta scenario; norm_num) (by delta scenario; norm_num) (by norm_num)
    (by delta scenario; norm_num) (fun _ => rfl) (by delta scenario; norm_num)
    (by delta scenario; norm_num)
  ⟨by delta scenario; norm_num, by delta scenario; norm_num, by norm_num,
    by delta scenario; norm_num, rfl,
    r.elim fun N hN => ⟨N, fun fuel hfuel =>
      (hN fuel hfuel).elim fun r hr => ⟨r, hr.1, hr.2.1, hr.2.2.2.2.1⟩⟩⟩

/-! ## The F2 bottomside (C40) -/

/-- C40: for `b0 > 0`, `b1 > 0`, `nmf2 >= 0` and `h1 <= h2 <= hmf2`, the F2 bottomside
formula satisfies `0 <= xe2_(h1) <= xe2_(h2) <= nmf2`, and `xe2_(hmf2) = nmf2`. -/
theorem xe2_rises_to_peak (s : Blocks ℝ) (h1 h2 : ℝ) (hb0 : 0 < s.b0) (hb1 : 0 < s.b1)
    (hn : 0 ≤ s.xnmf2) (h12 : h1 ≤ h2) (h2m : h2 ≤ s.hmf2) :
    0 ≤ xe2_ s h1 ∧ xe2_ s h1 ≤ xe2_ s h2 ∧ xe2_ s h2 ≤ s.xnmf2 ∧
      xe2_ s s.hmf2 = s.xnmf2 := by
  obtain ⟨-, xe2_at_hmf2, -, -⟩ := peak_facts
  obtain ⟨-, cosh_le_cosh_of_nonneg, xe2_le_peak, -, -, -, -, -, -, -, -⟩ := weakPeak_facts
  have hx2 : 0 ≤ (s.hmf2 - h2) / s.b0 := div_nonneg (by linarith) hb0.le
  have hx12 : (s.hmf2 - h2) / s.b0 ≤ (s.hmf2 - h1) / s.b0 :=
    div_le_div_of_nonneg_right (by linarith) hb0.le
  have hx1 : 0 ≤ (s.hmf2 - h1) / s.b0 := hx2.trans hx12
  have hz : ((s.hmf2 - h2) / s.b0) ^ s.b1 ≤ ((s.hmf2 - h1) / s.b0) ^ s.b1 :=
    Real.rpow_le_rpow hx2 hx12 hb1.le
  have hclip : (if ((s.hmf2 - h2) / s.b0) ^ s.b1 > argmax then argmax
      else ((s.hmf2 - h2) / s.b0) ^ s.b1) ≤
      (if ((s.hmf2 - h1) / s.b0) ^ s.b1 > argmax then argmax
        else ((s.hmf2 - h1) / s.b0) ^ s.b1) := by
    by_cases c2 : ((s.hmf2 - h2) / s.b0) ^ s.b1 > argmax
    · have c1 : ((s.hmf2 - h1) / s.b0) ^ s.b1 > argmax := lt_of_lt_of_le c2 hz
      simp only [c1, c2, if_true, le_refl]
    · by_cases c1 : ((s.hmf2 - h1) / s.b0) ^ s.b1 > argmax
      · simp only [c1, c2, if_true, if_false]
        exact not_lt.mp c2
      · simp only [c1, c2, if_false]
        exact hz
  have hexp := Real.exp_le_exp.mpr (neg_le_neg hclip)
  have hcosh : Real.cosh ((s.hmf2 - h2) / s.b0) ≤ Real.cosh ((s.hmf2 - h1) / s.b0) :=
    cosh_le_cosh_of_nonneg _ _ hx2 hx12
  have hc2 : 0 < Real.cosh ((s.hmf2 - h2) / s.b0) := Real.cosh_pos _
  have hc1 : 0 < Real.cosh ((s.hmf2 - h1) / s.b0) := Real.cosh_pos _
  refine ⟨?_, ?_, xe2_le_peak s h2 hb0 hn h2m, xe2_at_hmf2 s hb1⟩
  · delta xe2_; try dsimp only
    exact div_nonneg (mul_nonneg hn (Real.exp_pos _).le) hc1.le
  · delta xe2_; try dsimp only
    exact div_le_div₀ (mul_nonneg hn (Real.exp_pos _).le)
      (mul_le_mul_of_nonneg_left hexp hn) hc2 hcosh

theorem xe2_rises_to_peak_witness :
    0 < scenario.b0 ∧ 0 < scenario.b1 ∧ 0 ≤ scenario.xnmf2 ∧ (250 : ℝ) ≤ 280 ∧
      (280 : ℝ) ≤ scenario.hmf2 ∧ 0 ≤ xe2_ scenario 250 ∧
      xe2_ scenario 250 ≤ xe2_ scenario 280 ∧ xe2_ scenario 280 ≤ scenario.xnmf2 :=
  have r := xe2_rises_to_peak scenario 250 280 (by delta scenario; norm_num)
    (by delta scenario; norm_num) (by delta scenario; norm_num) (by norm_num)
    (by delta scenario; norm_num)
  ⟨by delta scenario; norm_num, by delta scenario; norm_num, by delta scenario; norm_num,
    by norm_num,
    by delta scenario; norm_num, r.1, r.2.1, r.2.2.1⟩

/-! ## The layer-function profile at the F2 peak (C35) -/

set_option maxHeartbeats 1000000 in
/-- C35: the layer-function profile joins the F2 peak: for all heights `hx` and scales
`sc != 0`, `rlay_(hmf2, hmf2, sc, hx) = 0` and `d1lay_(hmf2, hmf2, sc, hx) = 0`; hence for
layers with non-zero scales and any amplitudes `xe2to5_(hmf2, ...) = 1`, and
`xnmf2*xe2to5_` at `h = hmf2` equals `xe1_(hmf2) = xnmf2`, which is the value of `xen_`
there; for every `h` the product computed in the loop of `xe2to5_` equals
`10^(sum_i amp_i*rlay_i)`. -/
theorem layer_profile_at_peak (s : Blocks ℝ) (layers : List (Layer ℝ)) (hme : ℝ)
    (hsc : ∀ l ∈ layers, l.sc ≠ 0) :
    (∀ sc hx, sc ≠ 0 → rlay_ s.hmf2 s.hmf2 sc hx = 0 ∧ d1lay_ s.hmf2 s.hmf2 sc hx = 0) ∧
      xe2to5_ s.hmf2 s.hmf2 layers = 1 ∧
      s.xnmf2 * xe2to5_ s.hmf2 s.hmf2 layers = xe1_ s s.hmf2 ∧
      xe1_ s s.hmf2 = s.xnmf2 ∧
      xen_ s s.hmf2 s.hmf2 s.xnmf2 hme layers = s.xnmf2 ∧
      ∀ h, xe2to5_ h s.hmf2 layers =
        (10 : ℝ) ^ (layers.map (fun l => l.amp * rlay_ h s.hmf2 l.sc l.hx)).sum := by
  obtain ⟨xe1_at_hmf2, -, -, -⟩ := peak_facts
  have xe2to5_foldl : ∀ (h hmf2 : ℝ) (layers : List (Layer ℝ)) (init : ℝ),
        layers.foldl (fun sum l => sum * (10 : ℝ) ^ (l.amp * rlay_ h hmf2 l.sc l.hx)) init =
          init * (10 : ℝ) ^ (layers.map (fun l => l.amp * rlay_ h hmf2 l.sc l.hx)).sum := by
    intro h hmf2 layers init
    induction layers generalizing init with
    | nil => simp
    | cons l ls ih =>
      simp only [List.foldl, List.map, List.sum_cons]
      rw [ih, Real.rpow_add (by norm_num : (0 : ℝ) < 10), mul_assoc]
  have hr : ∀ sc hx, sc ≠ 0 → rlay_ s.hmf2 s.hmf2 sc hx = 0 := by
    intro sc hx h0
    delta rlay_
    simp only [sub_self, zero_mul]
    rw [zero_div, sub_zero]
  have hd : ∀ sc hx, sc ≠ 0 → d1lay_ s.hmf2 s.hmf2 sc hx = 0 := by
    intro sc hx h0
    delta d1lay_
    simp only [sub_self]
    exact div_eq_zero_iff.mpr (Or.inl rfl)
  have hprod : ∀ h, xe2to5_ h s.hmf2 layers =
      (10 : ℝ) ^ (layers.map (fun l => l.amp * rlay_ h s.hmf2 l.sc l.hx)).sum := by
    intro h
    unfold xe2to5_
    rw [xe2to5_foldl, one_mul]
  have hone : xe2to5_ s.hmf2 s.hmf2 layers = 1 := by
    rw [hprod]
    have hz : (layers.map (fun l => l.amp * rlay_ s.hmf2 s.hmf2 l.sc l.hx)).sum = 0 := by
      have : layers.map (fun l => l.amp * rlay_ s.hmf2 s.hmf2 l.sc l.hx) =
          layers.map (fun _ => (0 : ℝ)) := by
        apply List.map_congr_left
        intro l hl
        rw [hr l.sc l.hx (hsc l hl), mul_zero]
      rw [this]
      simp
    rw [hz, Real.rpow_zero]
  have h1 := xe1_at_hmf2 s
  refine ⟨fun sc hx h0 => ⟨hr sc hx h0, hd sc hx h0⟩, hone, by rw [hone, h1, mul_one], h1,
    ?_, hprod⟩
  delta xen_
  simp only [lt_irrefl, if_false]
  exact h1

theorem layer_profile_at_peak_witness :
    (∀ l ∈ [({ hx := 200, sc := 10, amp := 1 } : Layer ℝ), { hx := 120, sc := -5, amp := 2 }],
        l.sc ≠ 0) ∧
      xe2to5_ scenario.hmf2 scenario.hmf2
          [{ hx := 200, sc := 10, amp := 1 }, { hx := 120, sc := -5, amp := 2 }] = 1 ∧
      xen_ scenario scenario.hmf2 scenario.hmf2 scenario.xnmf2 105
          [{ hx := 200, sc := 10, amp := 1 }, { hx := 120, sc := -5, amp := 2 }] =
        scenario.xnmf2 :=
  have hsc : ∀ l ∈ [({ hx := 200, sc := 10, amp := 1 } : Layer ℝ),
      { hx := 120, sc := -5, amp := 2 }], l.sc ≠ 0 := by
    intro l hl
    simp only [List.mem_cons, List.mem_singleton, List.not_mem_nil, or_false] at hl
    rcases hl with rfl | rfl <;> norm_num
  ⟨hsc, (layer_profile_at_peak scenario _ 105 hsc).2.1,
    (layer_profile_at_peak scenario _ 105 hsc).2.2.2.2.1⟩

/-! ## The quality flag of the layer-function fit (C39) -/

/-- C39: `inilay_` calls the solver at most twice and returns `iqual` in `{0, 1, 2}`:
`iqual = 0` iff the first solve is regular with `|amp(1)| <= 10`; `iqual = 1` iff a retry
was made and the second solve is regular; `iqual = 2` iff a retry was made and the
second solve is singular; a singular solve leaves the amplitudes as they were. -/
theorem inilay_quality (solve : ℝ → ℝ × Bool) (hxl1 hxl1t amp1 : ℝ) :
    (∃ r, inilayLoop solve hxl1t 2 0 hxl1 amp1 0 = some r ∧ r.solves ≤ 2 ∧
      (r.iqual = 0 ∨ r.iqual = 1 ∨ r.iqual = 2) ∧
      (r.iqual = 0 ↔ (solve hxl1).2 = false ∧ |(solve hxl1).1| ≤ 10) ∧
      (r.iqual = 1 ↔ r.solves = 2 ∧ (solve hxl1t).2 = false) ∧
      (r.iqual = 2 ↔ r.solves = 2 ∧ (solve hxl1t).2 = true) ∧
      ((solve hxl1).2 = true → (solve hxl1t).2 = true → r.amp1 = amp1)) ∧
    (∀ n ali bli var, (lnglsn_ n ali bli).aus = true →
      lsknmSolve n ali bli var = (var, true)) := by
  obtain ⟨-, inilayLoop_retry, inilayLoop_accept⟩ := inilayLoop_facts
  refine ⟨?_, fun n ali bli var h => by delta lsknmSolve; simp only [h, if_true]⟩
  by_cases hc : |if (solve hxl1).2 = true then amp1 else (solve hxl1).1| > 10 ∨
      (solve hxl1).2 = true
  · have hfirst : ¬ ((solve hxl1).2 = false ∧ |(solve hxl1).1| ≤ 10) := by
      rintro ⟨h1, h2⟩
      rcases hc with h | h
      · simp only [h1, Bool.false_eq_true, if_false] at h
        exact absurd h (not_lt.mpr h2)
      · simp [h1] at h
    refine ⟨_, inilayLoop_retry solve hxl1 hxl1t amp1 hc, le_refl 2, ?_, ?_, ?_, ?_, ?_⟩
    · by_cases hs2 : (solve hxl1t).2 = true
      · simp [hs2]
      · simp [hs2]
    · by_cases hs2 : (solve hxl1t).2 = true
      · simp [hs2, hfirst]
      · simp [hs2, hfirst]
    · by_cases hs2 : (solve hxl1t).2 = true
      · simp [hs2]
      · simp [hs2]
    · by_cases hs2 : (solve hxl1t).2 = true
      · simp [hs2]
      · simp [hs2]
    · intro h1 h2
      simp [h1, h2]
  · have hs : (solve hxl1).2 = false := by
      by_contra h
      exact hc (Or.inr (by simpa using h))
    have ha : |(solve hxl1).1| ≤ 10 := by
      by_contra h
      apply hc
      left
      simp only [hs, Bool.false_eq_true, if_false]
      exact not_le.mp h
    refine ⟨_, inilayLoop_accept solve hxl1 hxl1t amp1 hc, by norm_num, ?_, ?_, ?_, ?_, ?_⟩
    · simp [hs]
    · simp [hs, ha]
    · simp [hs]
    · simp [hs]
    · intro h1
      simp [hs] at h1

/-! ## The section divisor and the tolerance of `regfa1_` (C33, C34, C36) -/

/-- C36: for continuous `f`, `eps > 0` and seeds with `(f(a) - fw)*(f(b) - fw) <= 0`, not
both zero, every step of `regfa1_` replaces the bracket `[x1, x2]` by one nested in it on
which `(f(x1) - fw)*(f(x2) - fw) <= 0`; on return the bracket lies between the seeds and
contains a point `z` with `f(z) = fw` and `|x - z| <= ep`, the final working tolerance
`ep = eps*10^(evals/21)`, which is `eps` when fewer than 21 evaluations were made. -/
theorem regfa1_bracket_invariant (f : ℝ → ℝ) (hf : Continuous f) (a b eps fw : ℝ)
    (heps : 0 < eps) (hs : (f a - fw) * (f b - fw) ≤ 0)
    (hne : f a - fw ≠ 0 ∨ f b - fw ≠ 0) :
    (∀ s : Regfa ℝ, s.x ∈ Set.uIcc s.x1 s.x2 → s.f1 * s.f2 ≤ 0 → s.Sampled f fw →
      Set.uIcc (s.l400 f fw).x1 (s.l400 f fw).x2 ⊆ Set.uIcc s.x1 s.x2 ∧
        (f (s.l400 f fw).x1 - fw) * (f (s.l400 f fw).x2 - fw) ≤ 0) ∧
    ∃ N : ℕ, ∀ fuel, N ≤ fuel →
      ∃ s, regfa1_ fuel a b (f a) (f b) eps fw f = Outcome.done s ∧
        Set.uIcc s.x1 s.x2 ⊆ Set.uIcc a b ∧ (f s.x1 - fw) * (f s.x2 - fw) ≤ 0 ∧
        (∃ z, z ∈ Set.uIcc s.x1 s.x2 ∧ f z = fw ∧ |s.x - z| ≤ s.ep) ∧
        s.ep = eps * 10 ^ (s.evals / 21) ∧ (s.evals < 21 → s.ep = eps) := by
  obtain ⟨-, -, -, -, -, -, -, -, -, -, -, -, -, -, -, -, -, -, regfa1_returns_bracket, -,
    mem_uIcc_of_mul_nonpos, l400_nested, regfa1_first_on_target_state⟩ := regfa_facts
  refine ⟨fun s hm hsg hS => l400_nested f fw s hm hsg hS, ?_⟩
  by_cases h1 : f a - fw = 0
  · have h2 : f b - fw ≠ 0 := hne.resolve_left (not_not.mpr h1)
    refine ⟨1, fun fuel hfuel => ?_⟩
    obtain ⟨n, rfl⟩ : ∃ n, fuel = n + 1 := ⟨fuel - 1, by omega⟩
    refine ⟨_, regfa1_first_on_target_state f a b (f a) (f b) eps fw heps.le h1 h2 n,
      Set.uIcc_subset_uIcc Set.left_mem_uIcc Set.left_mem_uIcc, ?_,
      ⟨a, Set.left_mem_uIcc, by linarith, ?_⟩, ?_, fun _ => rfl⟩
    · show (f a - fw) * (f a - fw) ≤ 0
      rw [h1]
      norm_num
    · show |a - a| ≤ eps
      simpa using heps.le
    · show eps = eps * 10 ^ (1 / 21)
      norm_num
  · obtain ⟨N, hN⟩ := regfa1_returns_bracket f a b (f a) (f b) eps fw heps hs h1
    refine ⟨N, fun fuel hfuel => ?_⟩
    obtain ⟨s, hr, hB, _, hW, _, hS⟩ := hN fuel hfuel
    obtain ⟨hs1, hs2⟩ := hS rfl rfl
    have hsign : (f s.x1 - fw) * (f s.x2 - fw) ≤ 0 := by
      rw [← hs1, ← hs2]
      exact hB.2.1
    have hfw : fw ∈ Set.uIcc (f s.x1) (f s.x2) := mem_uIcc_of_mul_nonpos _ _ _ hsign
    obtain ⟨z, hz, hfz⟩ := intermediate_value_uIcc hf.continuousOn hfw
    have hd : |s.x - z| ≤ |s.x2 - s.x1| :=
      Set.abs_sub_le_of_uIcc_subset_uIcc (Set.uIcc_subset_uIcc hz hB.2.2.2.1)
    refine ⟨s, hr, hB.2.2.2.2.1, hsign, ⟨z, hz, hfz, hd.trans hW⟩, hB.2.2.2.2.2.2, fun hlt => ?_⟩
    rw [hB.2.2.2.2.2.2, Nat.div_eq_of_lt hlt]
    norm_num

theorem regfa1_bracket_invariant_witness :
    Continuous (fun x : ℝ => x * x) ∧ (0 : ℝ) < 1 / 1000 ∧
      (((1 : ℝ) * 1 - 2) * (2 * 2 - 2) ≤ 0) ∧
      ∃ N : ℕ, ∀ fuel, N ≤ fuel →
        ∃ s, regfa1_ fuel 1 2 ((fun x : ℝ => x * x) 1) ((fun x : ℝ => x * x) 2) (1 / 1000) 2
            (fun x => x * x) = Outcome.done s ∧
          Set.uIcc s.x1 s.x2 ⊆ Set.uIcc 1 2 ∧
          ((fun x : ℝ => x * x) s.x1 - 2) * ((fun x : ℝ => x * x) s.x2 - 2) ≤ 0 ∧
          (∃ z, z ∈ Set.uIcc s.x1 s.x2 ∧ (fun x : ℝ => x * x) z = 2 ∧ |s.x - z| ≤ s.ep) ∧
          s.ep = 1 / 1000 * 10 ^ (s.evals / 21) ∧ (s.evals < 21 → s.ep = 1 / 1000) :=
  ⟨by fun_prop, by norm_num, by norm_num,
    (regfa1_bracket_invariant (fun x => x * x) (by fun_prop) 1 2 (1 / 1000) 2 (by norm_num)
      (by norm_num) (Or.inl (by norm_num))).2⟩

/-- C34 (counterexample): on `jumpAtOne` with the seeds 0 and 1, target 0 and
`eps = 2^-20` the run of `regfa1_` returns after its 20th evaluation, and the tolerance
of the stopping test of that pass is still `eps`, not `eps*10^(20/20)`. -/
theorem regfa1_tolerance_after_twenty :
    ∃ s, regfa1_ 100 0 1 (-1) 1 (1 / 1048576) 0 jumpAtOne = Outcome.done s ∧
      s.evals = 20 ∧ s.lfd = 20 ∧ s.ep = 1 / 1048576 ∧
      |s.x2 - s.x1| ≤ s.ep ∧ s.ep ≠ 1 / 1048576 * 10 ^ (20 / 20) := by
  obtain ⟨-, -, -, bisect_section_pass, -, bisect_last_pass, bisect_passes⟩ := regfa_run_facts
  have hrun : regfa1_ 100 0 1 (-1) 1 (1 / 1048576) 0 jumpAtOne =
      regfaLoop jumpAtOne 0 (82 + 2 * 9) (bisectState 0 1 (1 / 1048576) false false false) := by
    delta regfa1_ Regfa.start Regfa.l200 bisectState; try dsimp only
    norm_num
  obtain ⟨lk, l1b, h⟩ := bisect_passes (1 / 1048576) (by norm_num) 9 (le_refl 9)
  have hw : (0 : ℝ) < (1 / 4) ^ 9 := by positivity
  refine ⟨{ schalt := false, x := 1 - (1 / 4) ^ 9 / 2 / 2, x1 := 1 - (1 / 4) ^ 9 / 2 / 2,
            x2 := 1, f1 := -1, f2 := 1, ep := 1 / 1048576, ng := 2, lfd := 2 * 9 + 1 + 1,
            k := false, links := true, l1 := true, evals := 2 * 9 + 1 + 1 }, ?_, rfl, rfl,
    rfl, ?_, ?_⟩
  · rw [hrun, h 82,
      bisect_section_pass 81 (2 * 9) _ _ lk l1b hw (by norm_num) (by norm_num),
      bisect_last_pass 80 (2 * 9 + 1) _ _ (by positivity) (by norm_num) (by norm_num)]
  · show |(1 : ℝ) - (1 - (1 / 4) ^ 9 / 2 / 2)| ≤ 1 / 1048576
    rw [show (1 : ℝ) - (1 - (1 / 4) ^ 9 / 2 / 2) = 1 / 1048576 by norm_num]
    rw [abs_of_pos (by norm_num)]
  · show (1 : ℝ) / 1048576 ≠ 1 / 1048576 * 10 ^ (20 / 20)
    norm_num

/-- C34 (amended): `regfa1_` multiplies its working tolerance by 10 at every 21st
evaluation of `f` (the pass on which the counter `lfd`, incremented first, exceeds 20), and
not otherwise; the other labels leave tolerance and counter alone.  Hence the tolerance
used in the stopping test after the `k`-th evaluation is `eps*10^floor(k/21)`: this
relation between `ep`, `lfd` and the count of evaluations holds at the start, is kept by
every pass, and holds of the state with which a run on seeds not strictly on the same
side returns. -/
theorem regfa_tolerance_schedule :
    (∀ (f : ℝ → ℝ) (fw : ℝ) (s : Regfa ℝ),
      (s.l400 f fw).evals = s.evals + 1 ∧
      (s.l400 f fw).ep = (if s.lfd + 1 > 20 then s.ep * 10 else s.ep) ∧
      (s.l400 f fw).lfd = (if s.lfd + 1 > 20 then 0 else s.lfd + 1) ∧
      s.l300.ep = s.ep ∧ s.l300.lfd = s.lfd ∧ s.l300.evals = s.evals ∧
      s.double.ep = s.ep ∧ s.double.lfd = s.lfd ∧ s.double.evals = s.evals ∧
      ∀ s2, s.l200 = some s2 → s2.ep = s.ep ∧ s2.lfd = s.lfd ∧ s2.evals = s.evals) ∧
    (∀ x11 x22 fx11 fx22 eps fw : ℝ,
      (Regfa.start x11 x22 fx11 fx22 eps fw).ep = eps ∧
      (Regfa.start x11 x22 fx11 fx22 eps fw).lfd = 0 ∧
      (Regfa.start x11 x22 fx11 fx22 eps fw).evals = 0) ∧
    (∀ (f : ℝ → ℝ) (fw eps : ℝ) (s : Regfa ℝ), s.lfd = s.evals % 21 →
      s.ep = eps * 10 ^ (s.evals / 21) →
      (s.l400 f fw).lfd = (s.l400 f fw).evals % 21 ∧
        (s.l400 f fw).ep = eps * 10 ^ ((s.l400 f fw).evals / 21)) ∧
    (∀ (f : ℝ → ℝ) (a b fx11 fx22 eps fw : ℝ) (fuel : ℕ) (s : Regfa ℝ),
      (fx11 - fw) * (fx22 - fw) ≤ 0 → fx11 - fw ≠ 0 →
      regfa1_ fuel a b fx11 fx22 eps fw f = Outcome.done s →
      0 < s.evals ∧ s.ep = eps * 10 ^ (s.evals / 21) ∧ s.lfd = s.evals % 21 ∧
        |s.x2 - s.x1| ≤ s.ep) := by
  obtain ⟨-, -, -, -, -, regfa_counters, -, -, -, -, -, -, -, -, -, -, regfa1_spec, -, -, -, -, -,
    -⟩ := regfa_facts
  have hstep : ∀ (f : ℝ → ℝ) (fw : ℝ) (s : Regfa ℝ),
      (s.l400 f fw).evals = s.evals + 1 ∧
      (s.l400 f fw).ep = (if s.lfd + 1 > 20 then s.ep * 10 else s.ep) ∧
      (s.l400 f fw).lfd = (if s.lfd + 1 > 20 then 0 else s.lfd + 1) := by
    intro f fw s
    by_cases hl : s.f1 * (f s.x - fw) > 0 <;> (delta Regfa.l400; simp [hl])
  refine ⟨fun f fw s => ⟨(hstep f fw s).1, (hstep f fw s).2.1, (hstep f fw s).2.2, rfl, rfl,
    rfl, ?_, ?_, ?_, ?_⟩, fun _ _ _ _ _ _ => ⟨rfl, rfl, rfl⟩, ?_, ?_⟩
  · delta Regfa.double
    split <;> rfl
  · delta Regfa.double
    split <;> rfl
  · delta Regfa.double
    split <;> rfl
  · intro s2 h2
    delta Regfa.l200 at h2
    split at h2
    · simp at h2
    · simp only [Option.some.injEq] at h2
      rw [← h2]
      exact ⟨rfl, rfl, rfl⟩
  · intro f fw eps s hl he
    obtain ⟨h1, h2, h3⟩ := hstep f fw s
    have hc := regfa_counters s.lfd s.evals s.ep eps hl he
    rw [h1, h2, h3]
    exact ⟨hc.1, hc.2⟩
  · intro f a b fx11 fx22 eps fw fuel s hs h1 hr
    rcases regfa1_spec f a b fx11 fx22 eps fw hs h1 fuel with
    ⟨s1, hr1, hB, _, hW, hpos, _⟩ | ⟨hr1, _⟩
    · rw [hr] at hr1
      have e : s = s1 := Outcome.done.inj hr1
      rw [e]
      exact ⟨hpos, hB.2.2.2.2.2.2, hB.2.2.2.2.2.1, hW⟩
    · rw [hr] at hr1
      cases hr1

/-! ## The singularity guard of `lnglsn_` (C31) -/

/-- C38: every access to the table `b0b1` in the `B1` ladder is in bounds: on each of the
values 3, 3.5, 4, 4.5, 5 of `b1` the index `ib1 = int(2*b1 - 5)` lies between 1 and 5,
and every look-up `b0b1[ib1 - 1]` of a run entered at `L924` with `b1 = 3` is made with
such an index, which addresses one of the five entries of the table. -/
theorem b0b1_access_in_bounds (gulb0 : Bool) (b0cnew : ℝ) (f1top : Blocks ℝ → ℝ → Bool × ℝ)
    (hstSearch : Blocks ℝ → ℝ → Bool → HstSearch ℝ) (s : Blocks ℝ) (nmf1 : ℝ) (f1reg : Bool)
    (fuel : ℕ) :
    (∀ b1, B1Rung b1 → 1 ≤ ⌊b1 * 2 - 5⌋ ∧ ⌊b1 * 2 - 5⌋ ≤ 5) ∧
    ∀ i ∈ (ladderLog gulb0 b0cnew f1top hstSearch fuel Label.l924
        (Ladder.start s nmf1 f1reg)).2,
      1 ≤ i ∧ i ≤ 5 ∧ (i - 1).toNat < b0b1.length := by
  obtain ⟨-, -, -, -, -, -, -, -, -, -, -, -, -, -, -, -, -, b0b1_index_bounds, ladderLog_lookups,
    -, -, -, -⟩ := ladder_facts
  refine ⟨b0b1_index_bounds, fun i hi => ?_⟩
  have h := ladderLog_lookups gulb0 b0cnew f1top hstSearch fuel Label.l924
    (Ladder.start s nmf1 f1reg) (Or.inl rfl) (fun h => Label.noConfusion h) i hi
  refine ⟨h.1, h.2, ?_⟩
  have hl : b0b1.length = 5 := by delta b0b1; simp
  rw [hl]
  omega

/-- C32 (counterexample): for the system with the matrix `diag(1, 1e-7)` and the right
side `(1, 1e-7)` the only elimination step meets the diagonal entry 1 and the entry 0
below it; `lnglsn_` returns `aus` false and leaves `(1, 0)` in row 2, which does not
satisfy the second equation, while the solution of the system is `(1, 1)`. -/
theorem lnglsn_small_last_pivot :
    1e-6 ≤ |(elimPrefix 2 tinyLast tinyRhs 0).a 1 1| ∧
    (elimPrefix 2 tinyLast tinyRhs 0).a 2 1 = 0 ∧
    (lnglsn_ 2 tinyLast tinyRhs).aus = false ∧
    (lnglsn_ 2 tinyLast tinyRhs).a 2 1 = 1 ∧ (lnglsn_ 2 tinyLast tinyRhs).a 2 2 = 0 ∧
    (∀ i, 1 ≤ i → i ≤ 2 → ∑ j ∈ Finset.Icc 1 2, tinyLast i j * (1 : ℝ) = tinyRhs i) ∧
    ∑ j ∈ Finset.Icc 1 2, tinyLast 2 j * (lnglsn_ 2 tinyLast tinyRhs).a 2 j ≠ tinyRhs 2 := by
  obtain ⟨pivotScan_zero, pivotScan_succ, -, -, elimPrefix_succ, -, -, -, -, lnglsn_aus, -, -, -,
    -, -, -, -, -, -, -, -, -, -, -, -⟩ := lnglsn_facts
  have hI : Finset.Icc 1 2 = {1, 2} := by decide
  have h0 : elimPrefix 2 tinyLast tinyRhs 0 = { a := tinyLast, b := tinyRhs, aus := false } :=
    rfl
  have h1 : elimPrefix 2 tinyLast tinyRhs 1 = { a := tinyLast, b := tinyRhs, aus := false } := by
    rw [elimPrefix_succ, h0]
    delta elimStep tinyLast; norm_num [pivotScan_succ, pivotScan_zero]
  have hl : lnglsn_ 2 tinyLast tinyRhs =
      (List.range' 1 2).reverse.foldl (backStep 2)
        { a := tinyLast, b := tinyRhs, aus := false } := by
    have e : lnglsn_ 2 tinyLast tinyRhs = if (elimPrefix 2 tinyLast tinyRhs 1).aus then
        elimPrefix 2 tinyLast tinyRhs 1
        else (List.range' 1 2).reverse.foldl (backStep 2) (elimPrefix 2 tinyLast tinyRhs 1) :=
      rfl
    rw [e, h1]
    rfl
  have hr : List.range' 1 2 = [1, 2] := by decide
  have h21 : (lnglsn_ 2 tinyLast tinyRhs).a 2 1 = 1 := by
    rw [hl, hr]
    delta backStep tinyLast tinyRhs; norm_num
  have h22 : (lnglsn_ 2 tinyLast tinyRhs).a 2 2 = 0 := by
    rw [hl, hr]
    delta backStep tinyLast tinyRhs; norm_num
    rw [abs_of_pos (by norm_num)]
    norm_num
  refine ⟨?_, ?_, ?_, h21, h22, ?_, ?_⟩
  · rw [h0]
    delta tinyLast; norm_num
  · rw [h0]
    delta tinyLast; norm_num
  · rw [lnglsn_aus]
    show (elimPrefix 2 tinyLast tinyRhs 1).aus = false
    rw [h1]
  · intro i hi1 hi2
    rw [hI]
    have : i = 1 ∨ i = 2 := by omega
    rcases this with rfl | rfl <;> (delta tinyLast tinyRhs; norm_num)
  · rw [hI, Finset.sum_pair (by norm_num), h21, h22]
    delta tinyLast tinyRhs; norm_num

/-- C32 (amended): for `n` from 1 to 4, if the diagonal entry `a(k,k)` met in each of the
passes `k = 1..n-1` of the elimination and the last diagonal entry `a(n,n)` left by them
have magnitude at least 1e-6, and every entry below the diagonal entry of a pass is
exactly zero or of magnitude at least 1e-8, then `lnglsn_` returns `aus` false and the
values it leaves in row `n` of `a` solve the system given, `A*x = b`, and are its only
solution. -/
theorem lnglsn_solves (n : ℕ) (a : ℕ → ℕ → ℝ) (b : ℕ → ℝ) (_hn : 1 ≤ n) (_hn4 : n ≤ 4)
    (hdiag : ∀ k, 1 ≤ k → k ≤ n → 1e-6 ≤ |(elimPrefix n a b (k - 1)).a k k|)
    (hbelow : ∀ k l, 1 ≤ k → k < l → l ≤ n →
      (elimPrefix n a b (k - 1)).a l k = 0 ∨ 1e-8 ≤ |(elimPrefix n a b (k - 1)).a l k|) :
    (lnglsn_ n a b).aus = false ∧
    (∀ i, 1 ≤ i → i ≤ n → ∑ j ∈ Finset.Icc 1 n, a i j * (lnglsn_ n a b).a n j = b i) ∧
    (∀ y : ℕ → ℝ, (∀ i, 1 ≤ i → i ≤ n → ∑ j ∈ Finset.Icc 1 n, a i j * y j = b i) →
      ∀ j, 1 ≤ j → j ≤ n → y j = (lnglsn_ n a b).a n j) := by
  obtain ⟨-, -, -, -, -, -, -, -, -, -, -, -, -, -, -, -, -, -, -, -, -, -, -, -,
    lnglsn_unique_solution⟩ := lnglsn_facts
  exact lnglsn_unique_solution n a b hdiag hbelow

theorem lnglsn_solves_witness :
    (∀ k, 1 ≤ k → k ≤ 2 → 1e-6 ≤ |(elimPrefix 2 sample2 sampleRhs (k - 1)).a k k|) ∧
    (∀ k l, 1 ≤ k → k < l → l ≤ 2 → (elimPrefix 2 sample2 sampleRhs (k - 1)).a l k = 0 ∨
      1e-8 ≤ |(elimPrefix 2 sample2 sampleRhs (k - 1)).a l k|) ∧
    (lnglsn_ 2 sample2 sampleRhs).aus = false ∧
    (∀ i, 1 ≤ i → i ≤ 2 →
      ∑ j ∈ Finset.Icc 1 2, sample2 i j * (lnglsn_ 2 sample2 sampleRhs).a 2 j = sampleRhs i) := by
  obtain ⟨pivotScan_zero, pivotScan_succ, -, -, -, -, -, -, -, -, -, -, -, -, -, -, -, -, -, -, -,
    -, -, -, -⟩ := lnglsn_facts
  exact
    have h0 : elimPrefix 2 sample2 sampleRhs 0 =
        { a := sample2, b := sampleRhs, aus := false } := rfl
    have h22 : (elimPrefix 2 sample2 sampleRhs 1).a 2 2 = 5 / 2 := by
      have e : List.range' 1 1 = [1] := by decide
      delta elimPrefix; simp only [e, List.foldl]
      delta elimStep sample2 elimRow; norm_num [pivotScan_succ, pivotScan_zero]
    have hdiag : ∀ k, 1 ≤ k → k ≤ 2 →
        1e-6 ≤ |(elimPrefix 2 sample2 sampleRhs (k - 1)).a k k| := by
      intro k h1 h2
      have : k = 1 ∨ k = 2 := by omega
      rcases this with rfl | rfl
      · rw [show 1 - 1 = 0 from rfl, h0]
        delta sample2; norm_num
      · rw [show 2 - 1 = 1 from rfl, h22, abs_of_pos (by norm_num)]
        norm_num
    have hbelow : ∀ k l, 1 ≤ k → k < l → l ≤ 2 →
        (elimPrefix 2 sample2 sampleRhs (k - 1)).a l k = 0 ∨
          1e-8 ≤ |(elimPrefix 2 sample2 sampleRhs (k - 1)).a l k| := by
      intro k l h1 h2 h3
      have hk : k = 1 := by omega
      have hl : l = 2 := by omega
      subst hk hl
      right
      rw [show 1 - 1 = 0 from rfl, h0]
      delta sample2; norm_num
    ⟨hdiag, hbelow, (lnglsn_solves 2 sample2 sampleRhs (by norm_num) (by norm_num) hdiag hbelow).1,
      (lnglsn_solves 2 sample2 sampleRhs (by norm_num) (by norm_num) hdiag hbelow).2.1⟩

end Iri90
